import Mathlib

/-!
Verification development for the rotki airdrop eligibility checker
(`rotkehlchen/chain/ethereum/airdrops.py`).  The module itself is not part of
the visible sources (only its unit tests are), so the pipeline below is
modelled from the specification, with every behaviour that the test suite
`rotkehlchen/tests/unit/test_ethereum_airdrops.py` pins down taken from the
tests, which are the authority for the repository.
-/

set_option autoImplicit false
set_option maxRecDepth 100000

namespace Airdrops

deriving instance DecidableEq for Except

/-- Sum of the amounts of parsed payload rows. -/
def sumAmounts (rows : List (String × ℚ)) : ℚ :=
  rows.foldl (fun acc row => acc + row.2) 0

/-- Association list lookup by string key, first binding wins. -/
def alookup {α : Type} (k : String) : List (String × α) → Option α
  | [] => none
  | (k2, v) :: rest => if k2 = k then some v else alookup k rest

/-- Association list update: replaces the binding of `k` when present,
appends a new binding at the end otherwise (Python dict assignment order). -/
def aset {α : Type} (k : String) (v : α) : List (String × α) → List (String × α)
  | [] => [(k, v)]
  | (k2, w) :: rest => if k2 = k then (k2, v) :: rest else (k2, w) :: aset k v rest

/-- Modelled from the spec: `new_asset_data` descriptor carried by an index
entry, used to register a previously unknown asset in the asset catalog.
The fields are the ones the tests inspect on the registered asset. -/
structure NewAssetData where
  name : String
  symbol : String
  coingecko : String
  cryptocompare : String
  deriving DecidableEq, Repr

/-- Modelled from the spec: an `AirdropRecord` of the remote index
(`csv_path, csv_hash, asset_identifier, url, name, icon`, optional
`icon_path`, `cutoff_time`, `new_asset_data`). -/
structure AirdropRecord where
  csv_path : String
  csv_hash : String
  asset_identifier : String
  url : String
  name : String
  icon : String
  icon_path : Option String
  cutoff_time : Option Nat
  new_asset_data : Option NewAssetData
  deriving DecidableEq, Repr

/-- Modelled from the spec: a `POAPRecord` of the remote index, the ordered
tuple `{json_path, url, name, hash}`. -/
structure PoapRecord where
  json_path : String
  url : String
  name : String
  hash : String
  deriving DecidableEq, Repr

/-- Modelled from the spec: the top level remote index document with its two
namespaces, kept as association lists to preserve the remote ordering. -/
structure AirdropIndex where
  airdrops : List (String × AirdropRecord)
  poap_airdrops : List (String × PoapRecord)
  deriving DecidableEq, Repr

/-- A historical event as stored in the history events database; only the
fields consulted by the airdrop checker are modelled. -/
structure HistoryEvent where
  location_label : String
  asset : String
  amount : ℚ
  event_type : String
  event_subtype : String
  deriving DecidableEq, Repr

/-- One token airdrop entry of the eligibility result. -/
structure AirdropEntry where
  amount : ℚ
  asset : String
  link : String
  claimed : Bool
  icon_url : Option String
  deriving DecidableEq, Repr

/-- One POAP entry of the eligibility result. -/
structure PoapEntry where
  event : String
  assets : List Nat
  link : String
  name : String
  deriving DecidableEq, Repr

/-- A value of the per-address result map: either a token airdrop entry or
the list of POAP entries accumulated for the address. -/
inductive ResultValue where
  | airdrop (entry : AirdropEntry)
  | poap (entries : List PoapEntry)
  deriving DecidableEq, Repr

/-- The eligibility result: address, then per-protocol key, to a value. -/
abbrev EligibilityResult := List (String × List (String × ResultValue))

/-! ### Character level helpers

The payload files and the serialized metadata blob are modelled at the level
of character lists, so that everything evaluates by kernel reduction. -/

/-- Split a character list on a separator character; mirrors Python
`str.split(sep)`: n separators produce n+1 pieces. -/
def splitOnChar (sep : Char) : List Char → List (List Char)
  | [] => [[]]
  | c :: cs =>
    let rest := splitOnChar sep cs
    if c = sep then [] :: rest
    else
      match rest with
      | [] => [[c]]
      | r :: rs => (c :: r) :: rs

/-- Whether `pat` is a prefix of the character list. -/
def hasPrefix : List Char → List Char → Bool
  | [], _ => true
  | _ :: _, [] => false
  | c :: cs, d :: ds => if d = c then hasPrefix cs ds else false

/-- Numeric value of a decimal digit character. -/
def digitVal (c : Char) : Nat := c.toNat - 48

/-- Decimal digit characters interpreted as a base 10 number. -/
def digitsToNat (l : List Char) : Nat :=
  l.foldl (fun acc c => 10 * acc + digitVal c) 0

/-- Modelled from the spec: CSV amounts parse as arbitrary precision decimal
values (a digit string with at most one decimal point), never floating
point.  Returns `none` on anything else. -/
def parseDecimal (s : String) : Option ℚ :=
  match splitOnChar ('.') s.data with
  | [ip] =>
    if ip ≠ [] ∧ ip.all Char.isDigit then some ((digitsToNat ip : ℚ)) else none
  | [ip, fp] =>
    if ip ≠ [] ∧ fp ≠ [] ∧ ip.all Char.isDigit ∧ fp.all Char.isDigit then
      some ((digitsToNat (ip ++ fp) : ℚ) / (10 : ℚ) ^ fp.length)
    else none
  | _ => none

/-! ### CSV payload parsing -/

/-- Modelled from the spec: split a CSV payload into lines the way Python
`splitlines` does inside `csv.reader`: a single final newline does not open
an extra empty line, but a doubled final newline leaves one empty line. -/
def dropFinalEmpty : List (List Char) → List (List Char)
  | [] => []
  | [x] => if x = [] then [] else [x]
  | x :: y :: rest => x :: dropFinalEmpty (y :: rest)

/-- The lines of a CSV payload. -/
def csvLines (content : String) : List (List Char) :=
  dropFinalEmpty (splitOnChar ('\n') content.data)

/-- The comma separated fields of one CSV line; an empty line has no fields,
matching what Python `csv.reader` yields for a blank line. -/
def rowFields (line : List Char) : List String :=
  if line = [] then [] else (splitOnChar (',') line).map fun l => String.mk l

/-- Python `repr` like rendering of a row used in skip warnings; the empty
row renders as the empty marker `[]`. -/
def rowRepr (fields : List String) : String :=
  "[" ++ String.intercalate ", " fields ++ "]"

/-- Modelled from the spec: parse the data rows of a CSV payload as
`(address, amount[, extra columns])`; a row with fewer than two columns or a
non decimal amount is reported as invalid, with the offending row as the
error value. -/
def parseDataRows : List (List Char) → Except (List String) (List (String × ℚ))
  | [] => .ok []
  | line :: rest =>
    match rowFields line with
    | f0 :: f1 :: _ =>
      match parseDecimal f1 with
      | some q =>
        match parseDataRows rest with
        | .ok rows => .ok ((f0, q) :: rows)
        | .error e => .error e
      | none => .error (rowFields line)
    | _ => .error (rowFields line)

/-! ### Canonical JSON serialization of the index

The metadata cache stores the index as its JSON text (Python `json.dumps`
with default separators).  The serializer below is the canonical printer for
the modelled index structure. -/

/-- The decimal digit character for `d % 10`. -/
def digitChar (d : Nat) : Char :=
  match d % 10 with
  | 0 => '0' | 1 => '1' | 2 => '2' | 3 => '3' | 4 => '4'
  | 5 => '5' | 6 => '6' | 7 => '7' | 8 => '8' | _ => '9'

/-- Fuel driven decimal rendering of a natural number. -/
def natDigits : Nat → Nat → List Char
  | 0, _ => []
  | fuel + 1, n =>
    if n < 10 then [digitChar n] else natDigits fuel (n / 10) ++ [digitChar (n % 10)]

/-- Decimal rendering of a natural number. -/
def natToStr (n : Nat) : String := String.mk (natDigits (n + 1) n)

/-- A JSON string literal (the modelled strings carry no character that
needs escaping; see `wfString`). -/
def jstr (s : String) : String := "\"" ++ s ++ "\""

/-- A JSON object member `"k": v`. -/
def jfield (k v : String) : String := jstr k ++ ": " ++ v

/-- Serialization of a `new_asset_data` descriptor. -/
def serializeNAD (d : NewAssetData) : String :=
  "\x7b" ++ jfield "name" (jstr d.name) ++ ", " ++ jfield "symbol" (jstr d.symbol) ++
  ", " ++ jfield "coingecko" (jstr d.coingecko) ++
  ", " ++ jfield "cryptocompare" (jstr d.cryptocompare) ++ "\x7d"

/-- Serialization of the optional `icon_path` member. -/
def serializeOptIconPath : Option String → String
  | none => ""
  | some p => ", " ++ jfield "icon_path" (jstr p)

/-- Serialization of the optional `cutoff_time` member. -/
def serializeOptCutoff : Option Nat → String
  | none => ""
  | some t => ", " ++ jfield "cutoff_time" (natToStr t)

/-- Serialization of the optional `new_asset_data` member. -/
def serializeOptNAD : Option NewAssetData → String
  | none => ""
  | some d => ", " ++ jfield "new_asset_data" (serializeNAD d)

/-- Serialization of an airdrop record, optional members last, in the order
the index documents carry them. -/
def serializeRecord (r : AirdropRecord) : String :=
  "\x7b" ++ jfield "csv_path" (jstr r.csv_path) ++
  ", " ++ jfield "csv_hash" (jstr r.csv_hash) ++
  ", " ++ jfield "asset_identifier" (jstr r.asset_identifier) ++
  ", " ++ jfield "url" (jstr r.url) ++
  ", " ++ jfield "name" (jstr r.name) ++
  ", " ++ jfield "icon" (jstr r.icon) ++
  serializeOptIconPath r.icon_path ++
  serializeOptCutoff r.cutoff_time ++
  serializeOptNAD r.new_asset_data ++
  "\x7d"

/-- Serialization of a POAP record (a four element JSON array). -/
def serializePoapRecord (p : PoapRecord) : String :=
  "[" ++ jstr p.json_path ++ ", " ++ jstr p.url ++ ", " ++ jstr p.name ++
  ", " ++ jstr p.hash ++ "]"

/-- Serialization of the members of a JSON object. -/
def serializeEntries {α : Type} (f : α → String) : List (String × α) → String
  | [] => ""
  | [(k, v)] => jfield k (f v)
  | (k, v) :: rest => jfield k (f v) ++ ", " ++ serializeEntries f rest

/-- Serialization of a JSON object. -/
def serializeObj {α : Type} (f : α → String) (l : List (String × α)) : String :=
  "\x7b" ++ serializeEntries f l ++ "\x7d"

/-- Canonical JSON serialization of the whole index document. -/
def serializeIndex (i : AirdropIndex) : String :=
  "\x7b" ++ jfield "airdrops" (serializeObj serializeRecord i.airdrops) ++
  ", " ++ jfield "poap_airdrops" (serializeObj serializePoapRecord i.poap_airdrops) ++
  "\x7d"

/-! ### Parsing the serialized index -/

/-- Strip an exact pattern from the front of the input. -/
def stripExact : List Char → List Char → Option (List Char)
  | [], input => some input
  | _ :: _, [] => none
  | c :: cs, d :: ds => if d = c then stripExact cs ds else none

/-- Consume characters up to the next quote; fails when no quote follows. -/
def takeUntilQuote : List Char → Option (List Char × List Char)
  | [] => none
  | c :: cs =>
    if c = '"' then some ([], cs)
    else
      match takeUntilQuote cs with
      | none => none
      | some (a, b) => some (c :: a, b)

/-- Parse a JSON string literal. -/
def parseJStr (input : List Char) : Option (String × List Char) :=
  match input with
  | [] => none
  | c :: cs =>
    if c = '"' then
      match takeUntilQuote cs with
      | none => none
      | some (a, b) => some (String.mk a, b)
    else none

/-- Take the leading run of decimal digits. -/
def takeDigits : List Char → List Char × List Char
  | [] => ([], [])
  | c :: cs =>
    if c.isDigit then
      let (a, b) := takeDigits cs
      (c :: a, b)
    else ([], c :: cs)

/-- Parse a JSON natural number. -/
def parseNatLit (input : List Char) : Option (Nat × List Char) :=
  match takeDigits input with
  | ([], _) => none
  | (ds, rest) => some (digitsToNat ds, rest)

/-- Parse `"k": ` for a fixed key `k`, then the value with `pv`. -/
def parseField {α : Type} (k : String) (pv : List Char → Option (α × List Char))
    (input : List Char) : Option (α × List Char) :=
  match stripExact (jstr k ++ ": ").data input with
  | none => none
  | some r => pv r

/-- Parse an optional record member `, "k": v`; succeeds with `none` when
the member is absent. -/
def parseOptField {α : Type} (k : String) (pv : List Char → Option (α × List Char))
    (input : List Char) : Option (Option α × List Char) :=
  match stripExact (", " ++ jstr k ++ ": ").data input with
  | none => some (none, input)
  | some r =>
    match pv r with
    | none => none
    | some (v, rest) => some (some v, rest)

/-- Parse a `new_asset_data` descriptor. -/
def parseNAD (input : List Char) : Option (NewAssetData × List Char) := do
  let r0 ← stripExact ("\x7b".data) input
  let (nm, r1) ← parseField "name" parseJStr r0
  let r2 ← stripExact (", ".data) r1
  let (sym, r3) ← parseField "symbol" parseJStr r2
  let r4 ← stripExact (", ".data) r3
  let (cg, r5) ← parseField "coingecko" parseJStr r4
  let r6 ← stripExact (", ".data) r5
  let (cc, r7) ← parseField "cryptocompare" parseJStr r6
  let r8 ← stripExact ("\x7d".data) r7
  some (⟨nm, sym, cg, cc⟩, r8)

/-- Parse a mandatory record member followed by a comma separator. -/
def parseFieldSep {α : Type} (k : String) (pv : List Char → Option (α × List Char))
    (input : List Char) : Option (α × List Char) := do
  let (v, r1) ← parseField k pv input
  let r2 ← stripExact (", ".data) r1
  some (v, r2)

/-- Parse the first three mandatory members of an airdrop record. -/
def parseRecordA (input : List Char) :
    Option ((String × String × String) × List Char) := do
  let r0 ← stripExact ("\x7b".data) input
  let (cp, r1) ← parseFieldSep "csv_path" parseJStr r0
  let (ch, r2) ← parseFieldSep "csv_hash" parseJStr r1
  let (ai, r3) ← parseFieldSep "asset_identifier" parseJStr r2
  some ((cp, ch, ai), r3)

/-- Parse the remaining three mandatory members of an airdrop record. -/
def parseRecordB (input : List Char) :
    Option ((String × String × String) × List Char) := do
  let (u, r1) ← parseFieldSep "url" parseJStr input
  let (nm, r2) ← parseFieldSep "name" parseJStr r1
  let (ic, r3) ← parseField "icon" parseJStr r2
  some ((u, nm, ic), r3)

/-- Parse the optional members and the closing brace of an airdrop record. -/
def parseRecordC (input : List Char) :
    Option ((Option String × Option Nat × Option NewAssetData) × List Char) := do
  let (ip, r1) ← parseOptField "icon_path" parseJStr input
  let (ct, r2) ← parseOptField "cutoff_time" parseNatLit r1
  let (nad, r3) ← parseOptField "new_asset_data" parseNAD r2
  let r4 ← stripExact ("\x7d".data) r3
  some ((ip, ct, nad), r4)

/-- Parse one airdrop record. -/
def parseRecord (input : List Char) : Option (AirdropRecord × List Char) := do
  let ((cp, ch, ai), r1) ← parseRecordA input
  let ((u, nm, ic), r2) ← parseRecordB r1
  let ((ip, ct, nad), r3) ← parseRecordC r2
  some (⟨cp, ch, ai, u, nm, ic, ip, ct, nad⟩, r3)

/-- Parse one POAP record. -/
def parsePoapRecord (input : List Char) : Option (PoapRecord × List Char) := do
  let r0 ← stripExact ("[".data) input
  let (jp, r1) ← parseJStr r0
  let r2 ← stripExact (", ".data) r1
  let (u, r3) ← parseJStr r2
  let r4 ← stripExact (", ".data) r3
  let (nm, r5) ← parseJStr r4
  let r6 ← stripExact (", ".data) r5
  let (h, r7) ← parseJStr r6
  let r8 ← stripExact ("]".data) r7
  some (⟨jp, u, nm, h⟩, r8)

/-- Parse the members of a nonempty JSON object, including the closing
brace; fuel bounds the number of members. -/
def parseEntries {α : Type} (pv : List Char → Option (α × List Char)) :
    Nat → List Char → Option (List (String × α) × List Char)
  | 0, _ => none
  | fuel + 1, input => do
    let (k, r1) ← parseJStr input
    let r2 ← stripExact (": ".data) r1
    let (v, r3) ← pv r2
    match stripExact (", ".data) r3 with
    | some r4 =>
      match parseEntries pv fuel r4 with
      | none => none
      | some (l, r) => some ((k, v) :: l, r)
    | none =>
      match stripExact ("\x7d".data) r3 with
      | some r4 => some ([(k, v)], r4)
      | none => none

/-- Parse a JSON object with values read by `pv`. -/
def parseObj {α : Type} (pv : List Char → Option (α × List Char)) (fuel : Nat)
    (input : List Char) : Option (List (String × α) × List Char) := do
  let r1 ← stripExact ("\x7b".data) input
  match stripExact ("\x7d".data) r1 with
  | some r2 => some ([], r2)
  | none => parseEntries pv fuel r1

/-- Parse a serialized index document; the whole input must be consumed. -/
def parseIndex (s : String) : Option AirdropIndex := do
  let fuel := s.data.length + 1
  let r0 ← stripExact ("\x7b".data) s.data
  let r1 ← stripExact ((jstr "airdrops" ++ ": ").data) r0
  let (airs, r2) ← parseObj parseRecord fuel r1
  let r3 ← stripExact ((", " ++ jstr "poap_airdrops" ++ ": ").data) r2
  let (poaps, r4) ← parseObj parsePoapRecord fuel r3
  let r5 ← stripExact ("\x7d".data) r4
  if r5 = [] then some ⟨airs, poaps⟩ else none

/-! ### Well formed index documents

The canonical printer does not escape characters, so the round trip between
printing and parsing is stated for documents whose strings carry no quote
character; every string occurring in the real index documents (paths, URLs,
names, hashes, identifiers) satisfies this. -/

/-- A string with no quote character. -/
def wfString (s : String) : Bool := s.data.all fun c => decide (c ≠ '"')

/-- Well formedness of an optional string member. -/
def wfOptString : Option String → Bool
  | none => true
  | some s => wfString s

/-- Well formedness of a `new_asset_data` descriptor. -/
def wfNAD (d : NewAssetData) : Bool :=
  wfString d.name && wfString d.symbol && wfString d.coingecko && wfString d.cryptocompare

/-- Well formedness of an optional `new_asset_data` member. -/
def wfOptNAD : Option NewAssetData → Bool
  | none => true
  | some d => wfNAD d

/-- Well formedness of an airdrop record. -/
def wfRecord (r : AirdropRecord) : Bool :=
  wfString r.csv_path && wfString r.csv_hash && wfString r.asset_identifier &&
  wfString r.url && wfString r.name && wfString r.icon &&
  wfOptString r.icon_path && wfOptNAD r.new_asset_data

/-- Well formedness of a POAP record. -/
def wfPoapRecord (p : PoapRecord) : Bool :=
  wfString p.json_path && wfString p.url && wfString p.name && wfString p.hash

/-- Well formedness of the members of an object. -/
def wfEntries {α : Type} (wf : α → Bool) (l : List (String × α)) : Bool :=
  l.all fun kv => wfString kv.1 && wf kv.2

/-- Well formedness of a whole index document. -/
def wfIndex (i : AirdropIndex) : Bool :=
  wfEntries wfRecord i.airdrops && wfEntries wfPoapRecord i.poap_airdrops

/-! ### The synchronization state and the remote world -/

/-- Base URL of the airdrops data repository. -/
def AIRDROPS_REPO_BASE : String :=
  "https://raw.githubusercontent.com/rotki/data/main"

/-- URL of the remote index document. -/
def AIRDROPS_INDEX : String := AIRDROPS_REPO_BASE ++ "/airdrops/index_v2.json"

/-- Sub key under which the index ETag is stored in the hash cache. -/
def ETAG_CACHE_KEY : String := "ETag"

/-- Modelled from the spec: the durable caches (ETag, metadata blob, per
file content hashes), the local payload files, the asset catalog, the
warning sink and a log of the URLs fetched over the network, in order.
The CSV and POAP hash entries live in separate fields of the model; the
database keys them in one table under distinct filenames. -/
structure SyncState where
  etag : Option String
  metadata_blob : Option String
  csv_hashes : List (String × String)
  poap_hashes : List (String × String)
  csv_files : List (String × String)
  poap_files : List (String × List (String × List Nat))
  known_assets : List String
  warnings : List String
  calls : List String
  deriving DecidableEq, Repr

/-- Modelled from the spec: the remote side.  Payload maps are keyed by the
path embedded in the index; a path absent from the map is unreachable.
POAP payloads are modelled already structured (address to token id list);
the JSON decoding of POAP files is not load bearing for any claim. -/
structure Remote where
  etag : String
  index : AirdropIndex
  csv_payloads : List (String × String)
  poap_payloads : List (String × List (String × List Nat))
  deriving DecidableEq, Repr

/-- Modelled from the spec: the collaborators and configuration of one
`check_airdrops` invocation: remote world, caller addresses, historical
events store, tolerance band, current time and the minimum airdrop size
threshold (`SMALLEST_AIRDROP_SIZE`). -/
structure Env where
  remote : Remote
  addresses : List String
  events : List HistoryEvent
  tolerance : ℚ
  now : Nat
  threshold : ℚ
  deriving DecidableEq, Repr

/-- Append one warning to the message sink. -/
def addWarning (st : SyncState) (w : String) : SyncState :=
  { st with warnings := st.warnings ++ [w] }

/-- Modelled from the spec: registration of the `new_asset_data` assets of
the index entries into the asset catalog; registering an already known
identifier is a no-op. -/
def registerAssets (catalog : List String) : List (String × AirdropRecord) → List String
  | [] => catalog
  | (_, r) :: rest =>
    let catalog2 :=
      match r.new_asset_data with
      | some _ => if r.asset_identifier ∈ catalog then catalog else catalog ++ [r.asset_identifier]
      | none => catalog
    registerAssets catalog2 rest

/-- Modelled from the spec: `fetch_airdrops_metadata` issues one
conditional GET against the index URL with the stored ETag.  On 304 it
parses and returns the cached metadata blob; otherwise it parses the fresh
document and persists the blob together with the new ETag.  Parsing also
registers any new assets declared by the records. -/
def fetch_airdrops_metadata (remote : Remote) (st : SyncState) :
    Except String (AirdropIndex × SyncState) :=
  let st1 := { st with calls := st.calls ++ [AIRDROPS_INDEX] }
  if st.etag = some remote.etag then
    match st.metadata_blob with
    | none => .error "Airdrops metadata cache is missing"
    | some blob =>
      match parseIndex blob with
      | none => .error "Airdrops metadata cache is invalid"
      | some idx =>
        .ok (idx, { st1 with known_assets := registerAssets st1.known_assets idx.airdrops })
  else
    .ok (remote.index,
      { st1 with
        metadata_blob := some (serializeIndex remote.index),
        etag := some remote.etag,
        known_assets := registerAssets st1.known_assets remote.index.airdrops })

/-- Local cache file name of a protocol CSV payload. -/
def csvFileName (protocolName : String) : String := protocolName ++ ".csv"

/-- Local cache file name of a POAP JSON payload. -/
def poapFileName (protocolName : String) : String := protocolName ++ ".json"

/-- Full URL of a payload file, base URL plus the path from the index. -/
def payloadUrl (path : String) : String := AIRDROPS_REPO_BASE ++ "/" ++ path

/-- Modelled from the spec and `test_airdrop_fail`: download one CSV
payload.  An unreachable remote file raises a `RemoteError`; so does a
downloaded body that does not start with an `address` CSV header (the
sanity check of the fetcher).  On success the file and the index embedded
hash are persisted. -/
def fetchCsv (remote : Remote) (fname : String) (r : AirdropRecord) (st : SyncState) :
    Except String (String × SyncState) :=
  let st1 := { st with calls := st.calls ++ [payloadUrl r.csv_path] }
  match alookup r.csv_path remote.csv_payloads with
  | none => .error ("Airdrops request failed for " ++ fname)
  | some content =>
    if hasPrefix ("address".data) content.data then
      .ok (content,
        { st1 with
          csv_files := aset fname content st1.csv_files,
          csv_hashes := aset fname r.csv_hash st1.csv_hashes })
    else .error ("Invalid CSV file for " ++ fname)

/-- Modelled from the spec: obtain one protocol CSV payload.  When the
local file exists and the cached hash equals the hash embedded in the
index, the cached file is used and no network request happens; otherwise
the payload is re-fetched. -/
def get_airdrop_data (remote : Remote) (protocolName : String) (r : AirdropRecord)
    (st : SyncState) : Except String (String × SyncState) :=
  let fname := csvFileName protocolName
  match alookup fname st.csv_files, alookup fname st.csv_hashes with
  | some content, some h =>
    if h = r.csv_hash then .ok (content, st) else fetchCsv remote fname r st
  | some _, none => fetchCsv remote fname r st
  | none, _ => fetchCsv remote fname r st

/-- Modelled from the spec: obtain one POAP JSON payload, with the same
hash driven caching as the CSV payloads; an unreachable remote file raises
a `RemoteError`. -/
def get_poap_data (remote : Remote) (protocolName : String) (p : PoapRecord)
    (st : SyncState) : Except String ((List (String × List Nat)) × SyncState) :=
  let fname := poapFileName protocolName
  let fetch : Except String ((List (String × List Nat)) × SyncState) :=
    let st1 := { st with calls := st.calls ++ [payloadUrl p.json_path] }
    match alookup p.json_path remote.poap_payloads with
    | none => .error ("Airdrops request failed for " ++ fname)
    | some content =>
      .ok (content,
        { st1 with
          poap_files := aset fname content st1.poap_files,
          poap_hashes := aset fname p.hash st1.poap_hashes })
  match alookup fname st.poap_files, alookup fname st.poap_hashes with
  | some content, some h => if h = p.hash then .ok (content, st) else fetch
  | some _, none => fetch
  | none, _ => fetch

/-- Modelled from the spec and pinned by the tests: protocols whose CSV
amounts are denominated in wei; the test expectations show the `grain`
amounts divided by `10 ^ 18` in the result, and `cow_gnosis` ships the
same raw integer wei format. -/
def weiDenominatedProtocols : List String := ["grain", "cow_gnosis"]

/-- The amount a payload row contributes to the result for a protocol:
wei amounts are normalized to token units. -/
def normalizeAmount (protocolName : String) (q : ℚ) : ℚ :=
  if protocolName ∈ weiDenominatedProtocols then q / (10 : ℚ) ^ 18 else q

/-- Whether a matching historical airdrop receive event exists for the
`(address, asset)` pair with recorded amount inside the closed band
`[amount, amount + tolerance]`. -/
def claimedStatus (events : List HistoryEvent) (addr asset : String)
    (amount tolerance : ℚ) : Bool :=
  events.any fun e =>
    decide (e.location_label = addr ∧ e.asset = asset ∧
      e.event_type = "receive" ∧ e.event_subtype = "airdrop" ∧
      amount ≤ e.amount ∧ e.amount ≤ amount + tolerance)

/-- Replace the value bound to one protocol key of a per-address map. -/
def setInner (proto : String) (v : ResultValue) :
    List (String × ResultValue) → List (String × ResultValue)
  | [] => [(proto, v)]
  | (k, w) :: rest => if k = proto then (k, v) :: rest else (k, w) :: setInner proto v rest

/-- Set the value of one `(address, protocol)` cell of the result. -/
def setResult (addr proto : String) (v : ResultValue) :
    EligibilityResult → EligibilityResult
  | [] => [(addr, [(proto, v)])]
  | (a, inner) :: rest =>
    if a = addr then (a, setInner proto v inner) :: rest
    else (a, inner) :: setResult addr proto v rest

/-- The airdrop entry emitted for one payload row of one protocol. -/
def entryFor (env : Env) (r : AirdropRecord) (addr : String) (q : ℚ) : AirdropEntry :=
  { amount := q,
    asset := r.asset_identifier,
    link := r.url,
    claimed := claimedStatus env.events addr r.asset_identifier q env.tolerance,
    icon_url := r.icon_path.map fun p => payloadUrl p }

/-- Insert the entries of all payload rows whose address belongs to the
caller supplied address list. -/
def insertRows (env : Env) (pname : String) (r : AirdropRecord)
    (rows : List (String × ℚ)) (res : EligibilityResult) : EligibilityResult :=
  rows.foldl
    (fun acc row =>
      if row.1 ∈ env.addresses then
        setResult row.1 pname (.airdrop (entryFor env r row.1 row.2)) acc
      else acc)
    res

/-- The running state of one `check_airdrops` invocation. -/
structure RunState where
  st : SyncState
  result : EligibilityResult
  deriving DecidableEq, Repr

/-- The warning recorded when a CSV contains an invalid row. -/
def invalidRowWarning (pname : String) (fields : List String) : String :=
  "Skipping airdrop CSV for " ++ pname ++
  " because it contains an invalid row: " ++ rowRepr fields

/-- The warning recorded when a referenced asset cannot be resolved. -/
def unknownAssetWarning (pname ident : String) : String :=
  "Skipping airdrop " ++ pname ++ " because of unknown asset " ++ ident

/-- Modelled from the tests: whether a protocol is past its cutoff time;
exclusion is strict, the protocol is still presented at the cutoff second
itself. -/
def pastCutoff (r : AirdropRecord) (now : Nat) : Bool :=
  match r.cutoff_time with
  | some t => decide (now > t)
  | none => false

/-- Modelled from the spec and the tests: process one token airdrop
protocol.  A protocol past its cutoff time is skipped; an unresolvable
asset is skipped with a warning; the payload is obtained through the hash
driven cache; a CSV containing an invalid row is skipped wholesale with
one warning; a protocol whose summed amount is below the size threshold
is skipped; the remaining rows produce one entry per caller address. -/
def processAirdrop (env : Env) (rs : RunState) (p : String × AirdropRecord) :
    Except String RunState :=
  let pname := p.1
  let r := p.2
  if pastCutoff r env.now then .ok rs
  else if r.asset_identifier ∉ rs.st.known_assets then
    .ok { rs with st := addWarning rs.st (unknownAssetWarning pname r.asset_identifier) }
  else
    match get_airdrop_data env.remote pname r rs.st with
    | .error e => .error e
    | .ok (content, st1) =>
      match csvLines content with
      | [] => .ok { rs with st := st1 }
      | _header :: dataLines =>
        match parseDataRows dataLines with
        | .error badRow =>
          .ok { rs with st := addWarning st1 (invalidRowWarning pname badRow) }
        | .ok rows =>
          let rows2 := rows.map fun row => (row.1, normalizeAmount pname row.2)
          if sumAmounts rows2 < env.threshold then .ok { rs with st := st1 }
          else .ok { st := st1, result := insertRows env pname r rows2 rs.result }

/-- The POAP entries currently accumulated for an address. -/
def currentPoaps (addr : String) (res : EligibilityResult) : List PoapEntry :=
  match alookup addr res with
  | none => []
  | some inner =>
    match alookup "poap" inner with
    | some (.poap l) => l
    | _ => []

/-- Append one POAP entry for an address under the fixed key `poap`. -/
def appendPoap (addr : String) (pe : PoapEntry) (res : EligibilityResult) :
    EligibilityResult :=
  setResult addr "poap" (.poap (currentPoaps addr res ++ [pe])) res

/-- Modelled from the spec and the tests: process one POAP airdrop
protocol.  Every caller address present in the payload receives a record
`{event, assets, link, name}` appended to the list kept under the fixed
result key `poap`. -/
def processPoap (env : Env) (rs : RunState) (p : String × PoapRecord) :
    Except String RunState :=
  match get_poap_data env.remote p.1 p.2 rs.st with
  | .error e => .error e
  | .ok (content, st1) =>
    let res :=
      content.foldl
        (fun acc entry =>
          if entry.1 ∈ env.addresses then
            appendPoap entry.1
              { event := p.1, assets := entry.2, link := p.2.url, name := p.2.name } acc
          else acc)
        rs.result
    .ok { st := st1, result := res }

/-- Modelled from the spec: the public entry point.  Fetches the metadata
index (fatal on failure), then processes every token airdrop protocol and
every POAP protocol in index order, and returns the eligibility result
together with the final synchronization state. -/
def check_airdrops (env : Env) (st0 : SyncState) :
    Except String (EligibilityResult × SyncState) := do
  let (idx, st1) ← fetch_airdrops_metadata env.remote st0
  let rs1 ← idx.airdrops.foldlM (processAirdrop env) ⟨st1, []⟩
  let rs2 ← idx.poap_airdrops.foldlM (processPoap env) rs1
  .ok (rs2.result, rs2.st)

/-- Lookup of one `(address, protocol)` cell of the eligibility result. -/
def lookup2 (addr proto : String) (res : EligibilityResult) : Option ResultValue :=
  match alookup addr res with
  | none => none
  | some inner => alookup proto inner

/-- The addresses appearing in the data rows of a CSV payload. -/
def csvAddresses (content : String) : List String :=
  match csvLines content with
  | [] => []
  | _ :: dataLines => dataLines.filterMap fun l => (rowFields l).head?

/-- Concrete instantiation of `fetch_airdrops_metadata_304`: a one protocol
index whose serialization is stored in the cache together with the remote
ETag. -/
def c2Record : AirdropRecord := ⟨"a/u.csv", "h1", "UNI", "u", "U", "u.svg", none, none, none⟩

/-- The index used by the concrete `fetch_airdrops_metadata_304` witness. -/
def c2Index : AirdropIndex := ⟨[("uni", c2Record)], []⟩

/-- The cache state used by the concrete witness: blob and ETag stored. -/
def c2State : SyncState :=
  ⟨some "e1", some (serializeIndex c2Index), [], [], [], [], [], [], []⟩

/-- The remote used by the concrete witness: same ETag as stored. -/
def c2Remote : Remote := ⟨"e1", c2Index, [], []⟩

/-- Record used by the concrete round trip witness, exercising all three
optional members. -/
def c9Record : AirdropRecord :=
  ⟨"a/g.csv", "h2", "GRAIN", "u2", "G", "g.png", some "a/i.svg", some 1721000000,
    some ⟨"N", "S", "c", "cc"⟩⟩

/-- Index used by the concrete round trip witness. -/
def c9Index : AirdropIndex := ⟨[("g", c9Record)], [("p", ⟨"a/p.json", "up", "P", "hp"⟩)]⟩

/-- Empty cache state used by the concrete round trip witness. -/
def c9State : SyncState := ⟨none, none, [], [], [], [], [], [], []⟩

/-- Remote used by the concrete round trip witness; no ETag is stored, so the
fetch takes the fresh download path. -/
def c9Remote : Remote := ⟨"e9", c9Index, [], []⟩

/-- One protocol record of the concrete claimed-band scenario. -/
def w1Record : AirdropRecord :=
  ⟨"a/uni.csv", "h1", "UNI", "https://u", "Uni", "u.svg", none, none, none⟩

/-- Index of the concrete claimed-band scenario. -/
def w1Index : AirdropIndex := ⟨[("uni", w1Record)], []⟩

/-- Remote of the concrete claimed-band scenario. -/
def w1Remote : Remote := ⟨"e1", w1Index, [("a/uni.csv", "address,tokens\nA,400\n")], []⟩

/-- One historical airdrop receive event inside the tolerance band. -/
def w1Events : List HistoryEvent := [⟨"A", "UNI", 400 + 1/40, "receive", "airdrop"⟩]

/-- Environment of the concrete claimed-band scenario. -/
def w1Env : Env := ⟨w1Remote, ["A"], w1Events, 1/10, 100, 1⟩

/-- Empty initial cache of the concrete claimed-band scenario. -/
def w1State : SyncState := ⟨none, none, [], [], [], [], ["UNI"], [], []⟩

/-- Cache state after the index fetch of the concrete scenario. -/
def w1St1 : SyncState :=
  ⟨some "e1", some (serializeIndex w1Index), [], [], [], [], ["UNI"], [],
    [AIRDROPS_INDEX]⟩

/-- Final cache state of the concrete scenario. -/
def w1St2 : SyncState :=
  ⟨some "e1", some (serializeIndex w1Index), [("uni.csv", "h1")], [],
    [("uni.csv", "address,tokens\nA,400\n")], [], ["UNI"], [],
    [AIRDROPS_INDEX, payloadUrl "a/uni.csv"]⟩

/-- Result of the concrete claimed-band scenario. -/
def w1Res : EligibilityResult :=
  [("A", [("uni", .airdrop ⟨400, "UNI", "https://u", true, none⟩)])]

/-! ## Infrastructure lemmas -/

theorem except_bind_ok {α β : Type} (x : Except String α) (f : α → Except String β)
    (b : β) : (x >>= f) = .ok b ↔ ∃ a, x = .ok a ∧ f a = .ok b := by
  cases x <;> simp [Bind.bind, Except.bind]

theorem foldlM_ok_invariant {α β : Type} (f : β → α → Except String β) (P : β → Prop)
    (hstep : ∀ b a b2, f b a = .ok b2 → P b → P b2) :
    ∀ (l : List α) (b b2 : β), List.foldlM f b l = .ok b2 → P b → P b2 := by
  intro l
  induction l with
  | nil =>
    intro b b2 h hP
    simp only [List.foldlM_nil, pure, Except.pure, Except.ok.injEq] at h
    exact h ▸ hP
  | cons a rest ih =>
    intro b b2 h hP
    rw [List.foldlM_cons, except_bind_ok] at h
    obtain ⟨b1, h1, h2⟩ := h
    exact ih b1 b2 h2 (hstep b a b1 h1 hP)

theorem alookup_aset_same {α : Type} (k : String) (v : α) (l : List (String × α)) :
    alookup k (aset k v l) = some v := by
  induction l with
  | nil => simp [aset, alookup]
  | cons p rest ih =>
    by_cases h : p.1 = k
    · simp [aset, alookup, h]
    · simp [aset, alookup, h, ih]

theorem alookup_aset_other {α : Type} (k k2 : String) (v : α) (l : List (String × α))
    (hne : k2 ≠ k) : alookup k2 (aset k v l) = alookup k2 l := by
  induction l with
  | nil => simp [aset, alookup, Ne.symm hne]
  | cons p rest ih =>
    by_cases h : p.1 = k
    · subst h
      simp [aset, alookup, Ne.symm hne, ih]
    · by_cases h2 : p.1 = k2 <;> simp [aset, alookup, h, h2, ih, hne]

/-! ## C2: conditional fetch with matching ETag -/

/-- C2: when the stored ETag equals the remote ETag,
`fetch_airdrops_metadata` returns the previously parsed cached metadata
(the parse of the stored blob), leaves the stored blob and ETag untouched
(no re-download of the index body) and issues exactly one network call,
the conditional GET of the index. -/
theorem fetch_airdrops_metadata_304 (remote : Remote) (st : SyncState)
    (blob : String) (idx : AirdropIndex)
    (hetag : st.etag = some remote.etag)
    (hblob : st.metadata_blob = some blob)
    (hparse : parseIndex blob = some idx) :
    ∃ st2 : SyncState,
      fetch_airdrops_metadata remote st = .ok (idx, st2) ∧
      st2.metadata_blob = st.metadata_blob ∧
      st2.etag = st.etag ∧
      st2.calls = st.calls ++ [AIRDROPS_INDEX] := by
  refine ⟨{ st with
      calls := st.calls ++ [AIRDROPS_INDEX],
      known_assets := registerAssets st.known_assets idx.airdrops }, ?_, ?_, ?_, ?_⟩ <;>
    simp [fetch_airdrops_metadata, hetag, hblob, hparse]

theorem fetch_airdrops_metadata_304_witness :
    ∃ st2 : SyncState,
      fetch_airdrops_metadata c2Remote c2State = .ok (c2Index, st2) ∧
      st2.metadata_blob = c2State.metadata_blob ∧
      st2.etag = c2State.etag ∧
      st2.calls = c2State.calls ++ [AIRDROPS_INDEX] :=
  fetch_airdrops_metadata_304 c2Remote c2State (serializeIndex c2Index) c2Index
    (by decide) (by decide) (by decide)

/-! ## Round trip between the canonical printer and the parser -/

theorem stripExact_pre (pat rest : List Char) :
    stripExact pat (pat ++ rest) = some rest := by
  induction pat with
  | nil => simp [stripExact]
  | cons c cs ih => simp [stripExact, ih]

theorem stripExact_mismatch (common : List Char) (c d : Char) (cs rest : List Char)
    (h : c ≠ d) : stripExact (common ++ c :: cs) (common ++ d :: rest) = none := by
  induction common with
  | nil => simp [stripExact, Ne.symm h]
  | cons e es ih => simp [stripExact, ih]

theorem takeUntilQuote_pre (l rest : List Char) (hwf : ∀ c ∈ l, c ≠ '"') :
    takeUntilQuote (l ++ '"' :: rest) = some (l, rest) := by
  induction l with
  | nil => simp [takeUntilQuote]
  | cons c cs ih =>
    have hc : c ≠ '"' := hwf c (List.mem_cons_self c cs)
    have ih2 := ih fun x hx => hwf x (List.mem_cons_of_mem c hx)
    simp [takeUntilQuote, hc, ih2]

theorem wfString_chars {s : String} (h : wfString s = true) : ∀ c ∈ s.data, c ≠ '"' := by
  intro c hc
  have := List.all_eq_true.mp h c hc
  simpa using this

theorem parseJStr_pre (s : String) (rest : List Char) (hwf : wfString s = true) :
    parseJStr ((jstr s).data ++ rest) = some (s, rest) := by
  have hdata : (jstr s).data = '"' :: (s.data ++ ['"']) := by
    simp [jstr, String.data_append]
  rw [hdata]
  have : ('"' :: (s.data ++ ['"'])) ++ rest = '"' :: (s.data ++ '"' :: rest) := by simp
  rw [this]
  simp [parseJStr, takeUntilQuote_pre s.data rest (wfString_chars hwf)]

theorem digitChar_isDigit (d : Nat) : (digitChar d).isDigit = true := by
  have h : d % 10 = 0 ∨ d % 10 = 1 ∨ d % 10 = 2 ∨ d % 10 = 3 ∨ d % 10 = 4 ∨
      d % 10 = 5 ∨ d % 10 = 6 ∨ d % 10 = 7 ∨ d % 10 = 8 ∨ d % 10 = 9 := by omega
  unfold digitChar
  rcases h with h | h | h | h | h | h | h | h | h | h <;> rw [h] <;> decide

theorem digitVal_digitChar (d : Nat) (h : d < 10) : digitVal (digitChar d) = d := by
  have h2 : d % 10 = d := Nat.mod_eq_of_lt h
  have h3 : d = 0 ∨ d = 1 ∨ d = 2 ∨ d = 3 ∨ d = 4 ∨ d = 5 ∨ d = 6 ∨ d = 7 ∨
      d = 8 ∨ d = 9 := by omega
  unfold digitChar
  rw [h2]
  rcases h3 with h3 | h3 | h3 | h3 | h3 | h3 | h3 | h3 | h3 | h3 <;> subst h3 <;> decide

theorem natDigits_isDigit (fuel n : Nat) : ∀ c ∈ natDigits fuel n, c.isDigit = true := by
  induction fuel generalizing n with
  | zero => simp [natDigits]
  | succ f ih =>
    intro c hc
    by_cases h : n < 10
    · simp [natDigits, h] at hc
      simpa [hc] using digitChar_isDigit n
    · simp [natDigits, h] at hc
      rcases hc with hc | hc
      · exact ih (n / 10) c hc
      · simpa [hc] using digitChar_isDigit (n % 10)

theorem natDigits_ne_nil (fuel n : Nat) (h : n < fuel) : natDigits fuel n ≠ [] := by
  cases fuel with
  | zero => omega
  | succ f =>
    by_cases h2 : n < 10 <;> simp [natDigits, h2]

theorem digitsToNat_append_singleton (l : List Char) (c : Char) :
    digitsToNat (l ++ [c]) = 10 * digitsToNat l + digitVal c := by
  simp [digitsToNat, List.foldl_append]

theorem digitsToNat_natDigits (fuel n : Nat) (h : n < fuel) :
    digitsToNat (natDigits fuel n) = n := by
  induction fuel using Nat.strong_induction_on generalizing n with
  | _ f ih =>
    cases f with
    | zero => omega
    | succ f2 =>
      by_cases h2 : n < 10
      · simp [natDigits, h2, digitsToNat, digitVal_digitChar n h2]
      · have hdiv : n / 10 < f2 := by omega
        have := ih f2 (by omega) (n / 10) hdiv
        rw [natDigits, if_neg h2, digitsToNat_append_singleton, this,
          digitVal_digitChar (n % 10) (by omega)]
        omega

theorem takeDigits_pre (ds rest : List Char) (hds : ∀ c ∈ ds, c.isDigit = true)
    (hrest : ∀ c, rest.head? = some c → c.isDigit = false) :
    takeDigits (ds ++ rest) = (ds, rest) := by
  induction ds with
  | nil =>
    cases rest with
    | nil => simp [takeDigits]
    | cons c cs =>
      have := hrest c rfl
      simp [takeDigits, this]
  | cons c cs ih =>
    have hc := hds c (List.mem_cons_self c cs)
    have ih2 := ih fun x hx => hds x (List.mem_cons_of_mem c hx)
    simp [takeDigits, hc, ih2]

theorem parseNatLit_pre (n : Nat) (rest : List Char)
    (hrest : ∀ c, rest.head? = some c → c.isDigit = false) :
    parseNatLit ((natToStr n).data ++ rest) = some (n, rest) := by
  have hdata : (natToStr n).data = natDigits (n + 1) n := rfl
  rw [hdata]
  have htake := takeDigits_pre (natDigits (n + 1) n) rest
    (natDigits_isDigit (n + 1) n) hrest
  have hne := natDigits_ne_nil (n + 1) n (by omega)
  unfold parseNatLit
  rw [htake]
  cases hd : natDigits (n + 1) n with
  | nil => exact absurd hd hne
  | cons a as =>
    rw [← hd]
    simp [digitsToNat_natDigits (n + 1) n (by omega)]

theorem stripExact_cons (c : Char) (cs input : List Char) :
    stripExact (c :: cs) (c :: input) = stripExact cs input := by
  simp [stripExact]

theorem stripExact_append_both (l a b : List Char) :
    stripExact (l ++ a) (l ++ b) = stripExact a b := by
  induction l with
  | nil => rfl
  | cons c cs ih => simpa [stripExact] using ih

theorem jstr_data (s : String) : (jstr s).data = '"' :: (s.data ++ ['"']) := by
  simp [jstr, String.data_append]

theorem jfield_data (k v : String) :
    (jfield k v).data = '"' :: (k.data ++ ('"' :: ':' :: ' ' :: v.data)) := by
  simp [jfield, jstr, String.data_append]

theorem parseJStr_pre2 (s : String) (rest : List Char) (hwf : wfString s = true) :
    parseJStr ('"' :: (s.data ++ ('"' :: rest))) = some (s, rest) := by
  simp [parseJStr, takeUntilQuote_pre s.data rest (wfString_chars hwf)]

theorem mk_data (l : List Char) : (String.mk l).data = l := rfl

theorem data_icon_path : ("icon_path" : String).data =
    ['i', 'c', 'o', 'n', '_', 'p', 'a', 't', 'h'] := rfl

theorem data_cutoff_time : ("cutoff_time" : String).data =
    ['c', 'u', 't', 'o', 'f', 'f', '_', 't', 'i', 'm', 'e'] := rfl

theorem data_new_asset_data : ("new_asset_data" : String).data =
    ['n', 'e', 'w', '_', 'a', 's', 's', 'e', 't', '_', 'd', 'a', 't', 'a'] := rfl

theorem data_comma_space : (", " : String).data = [',', ' '] := rfl

theorem data_colon_space : (": " : String).data = [':', ' '] := rfl

theorem data_lbrace : ("\x7b" : String).data = ['\x7b'] := rfl

theorem data_rbrace : ("\x7d" : String).data = ['\x7d'] := rfl

theorem data_lbrack : ("[" : String).data = ['['] := rfl

theorem data_rbrack : ("]" : String).data = [']'] := rfl

theorem parseNatLit_comma (n : Nat) (cs : List Char) :
    parseNatLit ((natToStr n).data ++ ',' :: cs) = some (n, ',' :: cs) := by
  refine parseNatLit_pre n (',' :: cs) ?_
  intro c h
  simp at h
  subst h
  decide

theorem parseNatLit_brace (n : Nat) (cs : List Char) :
    parseNatLit ((natToStr n).data ++ '\x7d' :: cs) = some (n, '\x7d' :: cs) := by
  refine parseNatLit_pre n ('\x7d' :: cs) ?_
  intro c h
  simp at h
  subst h
  decide

theorem parseNAD_pre (d : NewAssetData) (rest : List Char) (hwf : wfNAD d = true) :
    parseNAD ((serializeNAD d).data ++ rest) = some (d, rest) := by
  have h := hwf
  simp only [wfNAD, Bool.and_eq_true] at h
  obtain ⟨⟨⟨h1, h2⟩, h3⟩, h4⟩ := h
  simp [parseNAD, serializeNAD, parseField, jfield_data, jstr_data,
    String.data_append, List.append_assoc, stripExact_cons, stripExact_append_both,
    stripExact, parseJStr_pre2, h1, h2, h3, h4]

theorem parsePoapRecord_pre (p : PoapRecord) (rest : List Char)
    (hwf : wfPoapRecord p = true) :
    parsePoapRecord ((serializePoapRecord p).data ++ rest) = some (p, rest) := by
  have h := hwf
  simp only [wfPoapRecord, Bool.and_eq_true] at h
  obtain ⟨⟨⟨h1, h2⟩, h3⟩, h4⟩ := h
  simp [parsePoapRecord, serializePoapRecord, jstr_data, data_lbrack, data_rbrack,
    data_comma_space, String.data_append, List.append_assoc, stripExact_cons,
    stripExact_append_both, stripExact, parseJStr_pre2, h1, h2, h3, h4]

theorem parseRecordA_pre (cp ch ai : String) (rest : List Char)
    (h1 : wfString cp = true) (h2 : wfString ch = true) (h3 : wfString ai = true) :
    parseRecordA (("\x7b" ++ jfield "csv_path" (jstr cp) ++ ", " ++
        jfield "csv_hash" (jstr ch) ++ ", " ++
        jfield "asset_identifier" (jstr ai) ++ ", ").data ++ rest) =
      some ((cp, ch, ai), rest) := by
  simp [parseRecordA, parseFieldSep, parseField, jfield_data, jstr_data, data_lbrace,
    data_comma_space, String.data_append, List.append_assoc, stripExact_cons,
    stripExact_append_both, stripExact, parseJStr_pre2, h1, h2, h3]

theorem parseRecordB_pre (u nm ic : String) (rest : List Char)
    (h1 : wfString u = true) (h2 : wfString nm = true) (h3 : wfString ic = true) :
    parseRecordB ((jfield "url" (jstr u) ++ ", " ++ jfield "name" (jstr nm) ++ ", " ++
        jfield "icon" (jstr ic)).data ++ rest) =
      some ((u, nm, ic), rest) := by
  simp [parseRecordB, parseFieldSep, parseField, jfield_data, jstr_data,
    data_comma_space, String.data_append, List.append_assoc, stripExact_cons,
    stripExact_append_both, stripExact, parseJStr_pre2, h1, h2, h3]

theorem comma_seg_data (x : String) :
    (", " ++ x).data = ',' :: ' ' :: x.data := by
  simp [String.data_append, data_comma_space]

theorem parseOptField_present {α : Type} (k : String)
    (pv : List Char → Option (α × List Char)) (v : α) (ser : String) (rest : List Char)
    (hpv : pv (ser.data ++ rest) = some (v, rest)) :
    parseOptField k pv ((", " ++ jfield k ser).data ++ rest) = some (some v, rest) := by
  have hre : (", " ++ jfield k ser).data ++ rest =
      ((", " ++ jstr k ++ ": ").data) ++ (ser.data ++ rest) := by
    simp [jfield, String.data_append, List.append_assoc]
  rw [hre]
  unfold parseOptField
  rw [stripExact_pre]
  simp [hpv]

theorem parseOptField_brace {α : Type} (k : String)
    (pv : List Char → Option (α × List Char)) (rest : List Char) :
    parseOptField k pv ('\x7d' :: rest) = some (none, '\x7d' :: rest) := by
  unfold parseOptField
  have h : stripExact ((", " ++ jstr k ++ ": ").data) ('\x7d' :: rest) = none := by
    rw [show (", " ++ jstr k ++ ": ").data = ',' :: ' ' :: (jstr k ++ ": ").data from by
      simp [String.data_append, data_comma_space]]
    simp [stripExact]
  rw [h]

theorem mismatch_ip_ct (v : String) (rest : List Char) :
    stripExact ((", " ++ jstr "icon_path" ++ ": ").data)
      ((", " ++ jfield "cutoff_time" v).data ++ rest) = none := by
  rw [show (", " ++ jstr "icon_path" ++ ": ").data =
      [',', ' ', '"'] ++ 'i' :: ['c', 'o', 'n', '_', 'p', 'a', 't', 'h', '"', ':', ' ']
      from by decide]
  rw [show (", " ++ jfield "cutoff_time" v).data ++ rest =
      [',', ' ', '"'] ++ 'c' :: (['u', 't', 'o', 'f', 'f', '_', 't', 'i', 'm', 'e'] ++
        ('"' :: ':' :: ' ' :: (v.data ++ rest))) from by
    simp [jfield_data, comma_seg_data, data_cutoff_time, List.append_assoc,
      String.data_append]]
  exact stripExact_mismatch _ 'i' 'c' _ _ (by decide)

theorem mismatch_ip_nad (v : String) (rest : List Char) :
    stripExact ((", " ++ jstr "icon_path" ++ ": ").data)
      ((", " ++ jfield "new_asset_data" v).data ++ rest) = none := by
  rw [show (", " ++ jstr "icon_path" ++ ": ").data =
      [',', ' ', '"'] ++ 'i' :: ['c', 'o', 'n', '_', 'p', 'a', 't', 'h', '"', ':', ' ']
      from by decide]
  rw [show (", " ++ jfield "new_asset_data" v).data ++ rest =
      [',', ' ', '"'] ++ 'n' :: (['e', 'w', '_', 'a', 's', 's', 'e', 't', '_', 'd',
        'a', 't', 'a'] ++ ('"' :: ':' :: ' ' :: (v.data ++ rest))) from by
    simp [jfield_data, comma_seg_data, data_new_asset_data, List.append_assoc,
      String.data_append]]
  exact stripExact_mismatch _ 'i' 'n' _ _ (by decide)

theorem mismatch_ct_nad (v : String) (rest : List Char) :
    stripExact ((", " ++ jstr "cutoff_time" ++ ": ").data)
      ((", " ++ jfield "new_asset_data" v).data ++ rest) = none := by
  rw [show (", " ++ jstr "cutoff_time" ++ ": ").data =
      [',', ' ', '"'] ++ 'c' :: ['u', 't', 'o', 'f', 'f', '_', 't', 'i', 'm', 'e',
        '"', ':', ' '] from by decide]
  rw [show (", " ++ jfield "new_asset_data" v).data ++ rest =
      [',', ' ', '"'] ++ 'n' :: (['e', 'w', '_', 'a', 's', 's', 'e', 't', '_', 'd',
        'a', 't', 'a'] ++ ('"' :: ':' :: ' ' :: (v.data ++ rest))) from by
    simp [jfield_data, comma_seg_data, data_new_asset_data, List.append_assoc,
      String.data_append]]
  exact stripExact_mismatch _ 'c' 'n' _ _ (by decide)

theorem parseOptNAD_step (nad : Option NewAssetData) (rest : List Char)
    (h : wfOptNAD nad = true) :
    parseOptField "new_asset_data" parseNAD
      ((serializeOptNAD nad ++ "\x7d").data ++ rest) =
      some (nad, '\x7d' :: rest) := by
  cases nad with
  | none =>
    rw [show (serializeOptNAD none ++ "\x7d").data ++ rest = '\x7d' :: rest from by
      simp [serializeOptNAD, String.data_append, data_rbrace]]
    exact parseOptField_brace _ _ rest
  | some d =>
    simp only [wfOptNAD] at h
    rw [show (serializeOptNAD (some d) ++ "\x7d").data ++ rest =
        (", " ++ jfield "new_asset_data" (serializeNAD d)).data ++ ('\x7d' :: rest)
        from by simp [serializeOptNAD, String.data_append, data_rbrace,
          List.append_assoc]]
    exact parseOptField_present _ _ d _ _ (parseNAD_pre d ('\x7d' :: rest) h)

theorem parseOptCutoff_step (ct : Option Nat) (nad : Option NewAssetData)
    (rest : List Char) :
    parseOptField "cutoff_time" parseNatLit
      ((serializeOptCutoff ct ++ serializeOptNAD nad ++ "\x7d").data ++ rest) =
      some (ct, (serializeOptNAD nad ++ "\x7d").data ++ rest) := by
  cases ct with
  | none =>
    rw [show (serializeOptCutoff none ++ serializeOptNAD nad ++ "\x7d").data ++ rest =
        (serializeOptNAD nad ++ "\x7d").data ++ rest from by
      simp [serializeOptCutoff, String.data_append]]
    cases nad with
    | none =>
      rw [show (serializeOptNAD none ++ "\x7d").data ++ rest = '\x7d' :: rest from by
        simp [serializeOptNAD, String.data_append, data_rbrace]]
      rw [parseOptField_brace]
    | some d =>
      have hre : (serializeOptNAD (some d) ++ "\x7d").data ++ rest =
          (", " ++ jfield "new_asset_data" (serializeNAD d)).data ++ ('\x7d' :: rest) := by
        simp [serializeOptNAD, String.data_append, data_rbrace, List.append_assoc]
      rw [hre]
      unfold parseOptField
      rw [mismatch_ct_nad]
  | some t =>
    have hdig : ∀ c, ((serializeOptNAD nad ++ "\x7d").data ++ rest).head? = some c →
        c.isDigit = false := by
      cases nad with
      | none =>
        rw [show (serializeOptNAD none ++ "\x7d").data ++ rest = '\x7d' :: rest from by
          simp [serializeOptNAD, String.data_append, data_rbrace]]
        intro c hc
        simp at hc
        rw [← hc]
        decide
      | some d =>
        rw [show (serializeOptNAD (some d) ++ "\x7d").data ++ rest =
            ',' :: (' ' :: ((jfield "new_asset_data" (serializeNAD d)).data ++
              ('\x7d' :: rest))) from by
          simp [serializeOptNAD, comma_seg_data, String.data_append, data_rbrace,
            List.append_assoc]]
        intro c hc
        simp at hc
        rw [← hc]
        decide
    rw [show (serializeOptCutoff (some t) ++ serializeOptNAD nad ++ "\x7d").data ++
        rest = (", " ++ jfield "cutoff_time" (natToStr t)).data ++
        ((serializeOptNAD nad ++ "\x7d").data ++ rest) from by
      simp [serializeOptCutoff, String.data_append, List.append_assoc]]
    exact parseOptField_present _ _ t _ _
      (parseNatLit_pre t ((serializeOptNAD nad ++ "\x7d").data ++ rest) hdig)

theorem parseOptIconPath_step (ip : Option String) (ct : Option Nat)
    (nad : Option NewAssetData) (rest : List Char) (hip : wfOptString ip = true) :
    parseOptField "icon_path" parseJStr
      ((serializeOptIconPath ip ++ serializeOptCutoff ct ++ serializeOptNAD nad ++
        "\x7d").data ++ rest) =
      some (ip, (serializeOptCutoff ct ++ serializeOptNAD nad ++ "\x7d").data ++ rest) := by
  cases ip with
  | none =>
    rw [show (serializeOptIconPath none ++ serializeOptCutoff ct ++
        serializeOptNAD nad ++ "\x7d").data ++ rest =
        (serializeOptCutoff ct ++ serializeOptNAD nad ++ "\x7d").data ++ rest from by
      simp [serializeOptIconPath, String.data_append]]
    cases ct with
    | some t =>
      have hre : (serializeOptCutoff (some t) ++ serializeOptNAD nad ++
          "\x7d").data ++ rest =
          (", " ++ jfield "cutoff_time" (natToStr t)).data ++
          ((serializeOptNAD nad ++ "\x7d").data ++ rest) := by
        simp [serializeOptCutoff, String.data_append, List.append_assoc]
      rw [hre]
      unfold parseOptField
      rw [mismatch_ip_ct]
    | none =>
      rw [show (serializeOptCutoff none ++ serializeOptNAD nad ++ "\x7d").data ++
          rest = (serializeOptNAD nad ++ "\x7d").data ++ rest from by
        simp [serializeOptCutoff, String.data_append]]
      cases nad with
      | some d =>
        have hre : (serializeOptNAD (some d) ++ "\x7d").data ++ rest =
            (", " ++ jfield "new_asset_data" (serializeNAD d)).data ++
            ('\x7d' :: rest) := by
          simp [serializeOptNAD, String.data_append, data_rbrace, List.append_assoc]
        rw [hre]
        unfold parseOptField
        rw [mismatch_ip_nad]
      | none =>
        rw [show (serializeOptNAD none ++ "\x7d").data ++ rest = '\x7d' :: rest
            from by simp [serializeOptNAD, String.data_append, data_rbrace]]
        rw [parseOptField_brace]
  | some p =>
    simp only [wfOptString] at hip
    rw [show (serializeOptIconPath (some p) ++ serializeOptCutoff ct ++
        serializeOptNAD nad ++ "\x7d").data ++ rest =
        (", " ++ jfield "icon_path" (jstr p)).data ++
        ((serializeOptCutoff ct ++ serializeOptNAD nad ++ "\x7d").data ++ rest)
        from by simp [serializeOptIconPath, String.data_append, List.append_assoc]]
    exact parseOptField_present _ _ p _ _
      (parseJStr_pre p ((serializeOptCutoff ct ++ serializeOptNAD nad ++
        "\x7d").data ++ rest) hip)

theorem parseRecordC_pre (ip : Option String) (ct : Option Nat)
    (nad : Option NewAssetData) (rest : List Char)
    (h1 : wfOptString ip = true) (h2 : wfOptNAD nad = true) :
    parseRecordC
      ((serializeOptIconPath ip ++ serializeOptCutoff ct ++ serializeOptNAD nad ++
        "\x7d").data ++ rest) =
      some ((ip, ct, nad), rest) := by
  unfold parseRecordC
  rw [parseOptIconPath_step ip ct nad rest h1]
  simp only [Option.bind_eq_bind, Option.some_bind]
  rw [parseOptCutoff_step ct nad rest]
  simp only [Option.some_bind]
  rw [parseOptNAD_step nad rest h2]
  simp only [Option.some_bind]
  rw [show ('\x7d' :: rest) = ("\x7d".data ++ rest) from by simp [data_rbrace]]
  rw [stripExact_pre]
  rfl

theorem parseRecord_pre (r : AirdropRecord) (rest : List Char)
    (hwf : wfRecord r = true) :
    parseRecord ((serializeRecord r).data ++ rest) = some (r, rest) := by
  obtain ⟨cp, ch, ai, u, nm, ic, ip, ct, nad⟩ := r
  simp only [wfRecord, Bool.and_eq_true] at hwf
  obtain ⟨⟨⟨⟨⟨⟨⟨hcp, hch⟩, hai⟩, hu⟩, hnm⟩, hic⟩, hip⟩, hnad⟩ := hwf
  have hsplit : (serializeRecord ⟨cp, ch, ai, u, nm, ic, ip, ct, nad⟩).data ++ rest =
      ("\x7b" ++ jfield "csv_path" (jstr cp) ++ ", " ++
        jfield "csv_hash" (jstr ch) ++ ", " ++
        jfield "asset_identifier" (jstr ai) ++ ", ").data ++
      ((jfield "url" (jstr u) ++ ", " ++ jfield "name" (jstr nm) ++ ", " ++
        jfield "icon" (jstr ic)).data ++
      ((serializeOptIconPath ip ++ serializeOptCutoff ct ++ serializeOptNAD nad ++
        "\x7d").data ++ rest)) := by
    simp [serializeRecord, String.data_append, List.append_assoc]
  rw [hsplit]
  rw [show parseRecord = fun input => do
      let ((cp2, ch2, ai2), r1) ← parseRecordA input
      let ((u2, nm2, ic2), r2) ← parseRecordB r1
      let ((ip2, ct2, nad2), r3) ← parseRecordC r2
      some (⟨cp2, ch2, ai2, u2, nm2, ic2, ip2, ct2, nad2⟩, r3) from rfl]
  beta_reduce
  rw [parseRecordA_pre cp ch ai _ hcp hch hai]
  simp only [Option.bind_eq_bind, Option.some_bind]
  rw [parseRecordB_pre u nm ic _ hu hnm hic]
  simp only [Option.some_bind]
  rw [parseRecordC_pre ip ct nad rest hip hnad]
  rfl

theorem parseEntries_pre {α : Type} (pv : List Char → Option (α × List Char))
    (f : α → String) (wf : α → Bool)
    (hpv : ∀ v rest, wf v = true → pv ((f v).data ++ rest) = some (v, rest)) :
    ∀ (l : List (String × α)) (fuel : Nat) (rest : List Char),
      l ≠ [] → l.length < fuel → wfEntries wf l = true →
      parseEntries pv fuel ((serializeEntries f l).data ++ '\x7d' :: rest) =
        some (l, rest) := by
  intro l
  induction l with
  | nil => intro fuel rest hne _ _; exact absurd rfl hne
  | cons kv t ih =>
    intro fuel rest hne hlen hwf
    obtain ⟨k, v⟩ := kv
    cases fuel with
    | zero => simp at hlen
    | succ m =>
      simp only [wfEntries, List.all_cons, Bool.and_eq_true] at hwf
      obtain ⟨⟨hk, hv⟩, ht⟩ := hwf
      cases t with
      | nil =>
        have hre : (serializeEntries f [(k, v)]).data ++ '\x7d' :: rest =
            '"' :: (k.data ++ ('"' :: ':' :: ' ' :: ((f v).data ++ '\x7d' :: rest))) := by
          simp [serializeEntries, jfield_data, String.data_append, List.append_assoc]
        rw [hre]
        simp [parseEntries, parseJStr_pre2 k _ hk, data_colon_space, stripExact_cons,
          stripExact, hpv v _ hv, data_comma_space, data_rbrace]
      | cons y ys =>
        have hre : (serializeEntries f ((k, v) :: y :: ys)).data ++ '\x7d' :: rest =
            '"' :: (k.data ++ ('"' :: ':' :: ' ' :: ((f v).data ++ ',' :: ' ' ::
              ((serializeEntries f (y :: ys)).data ++ '\x7d' :: rest)))) := by
          simp [serializeEntries, jfield_data, String.data_append, List.append_assoc]
        rw [hre]
        have hlen2 : (y :: ys).length < m := by
          simp only [List.length_cons] at hlen ⊢
          omega
        have hrec := ih m rest (by simp) hlen2 (by
          simp only [wfEntries] at ht ⊢
          exact ht)
        simp [parseEntries, parseJStr_pre2 k _ hk, data_colon_space, stripExact_cons,
          stripExact, hpv v _ hv, data_comma_space, hrec]

theorem parseObj_pre {α : Type} (pv : List Char → Option (α × List Char))
    (f : α → String) (wf : α → Bool)
    (hpv : ∀ v rest, wf v = true → pv ((f v).data ++ rest) = some (v, rest))
    (l : List (String × α)) (fuel : Nat) (rest : List Char)
    (hlen : l.length < fuel) (hwf : wfEntries wf l = true) :
    parseObj pv fuel ((serializeObj f l).data ++ rest) = some (l, rest) := by
  cases l with
  | nil =>
    have hre : (serializeObj f []).data ++ rest = '\x7b' :: '\x7d' :: rest := by
      simp [serializeObj, serializeEntries, String.data_append, data_lbrace, data_rbrace]
    rw [hre]
    simp [parseObj, stripExact_cons, stripExact, data_lbrace, data_rbrace]
  | cons kv t =>
    have hre : (serializeObj f (kv :: t)).data ++ rest =
        '\x7b' :: ((serializeEntries f (kv :: t)).data ++ '\x7d' :: rest) := by
      simp [serializeObj, String.data_append, data_lbrace, data_rbrace, List.append_assoc]
    rw [hre]
    obtain ⟨k, v⟩ := kv
    have hhead : ∃ tl, (serializeEntries f ((k, v) :: t)).data = '"' :: tl := by
      cases t with
      | nil =>
        refine ⟨k.data ++ ('"' :: ':' :: ' ' :: (f v).data), ?_⟩
        simp [serializeEntries, jfield_data]
      | cons y ys =>
        refine ⟨k.data ++ ('"' :: ':' :: ' ' :: ((f v).data ++ ',' :: ' ' ::
          (serializeEntries f (y :: ys)).data)), ?_⟩
        simp [serializeEntries, jfield_data, String.data_append, List.append_assoc]
    obtain ⟨tl, htl⟩ := hhead
    have hentries := parseEntries_pre pv f wf hpv ((k, v) :: t) fuel rest
      (by simp) hlen hwf
    rw [htl] at hentries ⊢
    simp only [List.cons_append] at hentries
    simp [parseObj, stripExact_cons, stripExact, data_lbrace, data_rbrace, hentries]

theorem jfield_data_length_pos (k v : String) : 0 < (jfield k v).data.length := by
  simp [jfield_data]

theorem serializeEntries_length {α : Type} (f : α → String)
    (l : List (String × α)) : l.length ≤ (serializeEntries f l).data.length := by
  induction l with
  | nil => simp
  | cons kv t ih =>
    obtain ⟨k, v⟩ := kv
    cases t with
    | nil =>
      have := jfield_data_length_pos k (f v)
      simpa [serializeEntries] using this
    | cons y ys =>
      have h1 := jfield_data_length_pos k (f (v))
      have h2 : (serializeEntries f ((k, v) :: y :: ys)).data.length =
          (jfield k (f v)).data.length + 2 + (serializeEntries f (y :: ys)).data.length := by
        simp [serializeEntries, String.data_append, data_comma_space]
        omega
      simp only [List.length_cons] at ih ⊢
      omega

/-- Entry count is bounded by the serialized object length. -/
theorem serializeObj_length {α : Type} (f : α → String) (l : List (String × α)) :
    l.length ≤ (serializeObj f l).data.length := by
  have h := serializeEntries_length f l
  have h2 : (serializeEntries f l).length = (serializeEntries f l).data.length := rfl
  simp [serializeObj, String.data_append, data_lbrace, data_rbrace]
  omega

/-- The key round trip: a well formed index document parses back from its
canonical serialization to exactly the original structure. -/
theorem parseIndex_serializeIndex (i : AirdropIndex) (hwf : wfIndex i = true) :
    parseIndex (serializeIndex i) = some i := by
  simp only [wfIndex, Bool.and_eq_true] at hwf
  obtain ⟨hairs, hpoaps⟩ := hwf
  have hre : (serializeIndex i).data =
      ("\x7b".data) ++ (((jstr "airdrops" ++ ": ").data) ++
        ((serializeObj serializeRecord i.airdrops).data ++
          (((", " ++ jstr "poap_airdrops" ++ ": ").data) ++
            ((serializeObj serializePoapRecord i.poap_airdrops).data ++
              (("\x7d".data) ++ []))))) := by
    simp [serializeIndex, jfield, String.data_append, List.append_assoc]
  have hA0 := serializeObj_length serializeRecord i.airdrops
  have hP0 := serializeObj_length serializePoapRecord i.poap_airdrops
  have hsum : (serializeIndex i).data.length =
      ("\x7b".data).length + ((jstr "airdrops" ++ ": ").data).length +
      (serializeObj serializeRecord i.airdrops).data.length +
      ((", " ++ jstr "poap_airdrops" ++ ": ").data).length +
      (serializeObj serializePoapRecord i.poap_airdrops).data.length +
      ("\x7d".data).length := by
    rw [hre]
    simp [List.length_append]
    omega
  have hlenA : i.airdrops.length < (serializeIndex i).data.length + 1 := by omega
  have hlenP : i.poap_airdrops.length < (serializeIndex i).data.length + 1 := by omega
  simp only [parseIndex]
  generalize hF : (serializeIndex i).data.length + 1 = F
  have hobjA := parseObj_pre parseRecord serializeRecord wfRecord
    (fun v rest hv => parseRecord_pre v rest hv) i.airdrops F
    (((", " ++ jstr "poap_airdrops" ++ ": ").data) ++
      ((serializeObj serializePoapRecord i.poap_airdrops).data ++
        (("\x7d".data) ++ [])))
    (hF ▸ hlenA) hairs
  have hobjP := parseObj_pre parsePoapRecord serializePoapRecord wfPoapRecord
    (fun v rest hv => parsePoapRecord_pre v rest hv) i.poap_airdrops F
    (("\x7d".data) ++ []) (hF ▸ hlenP) hpoaps
  rw [hre]
  rw [stripExact_pre]
  simp only [Option.bind_eq_bind, Option.some_bind]
  rw [stripExact_pre]
  simp only [Option.some_bind]
  rw [hobjA]
  simp only [Option.some_bind]
  rw [stripExact_pre]
  simp only [Option.some_bind]
  rw [hobjP]
  simp only [Option.some_bind]
  rw [stripExact_pre]
  simp

/-! ## C9: round trip of the cached metadata blob -/

/-- C9: after a successful fresh synchronization (stored ETag differs from
the remote ETag), the value stored under the metadata cache key is exactly
the canonical JSON serialization of the fetched index, and parsing that
stored blob and re-serializing it yields byte identical content. -/
theorem fetch_metadata_blob_roundtrip (remote : Remote) (st : SyncState)
    (hne : ¬ st.etag = some remote.etag) (hwf : wfIndex remote.index = true) :
    ∃ st2 : SyncState,
      fetch_airdrops_metadata remote st = .ok (remote.index, st2) ∧
      st2.metadata_blob = some (serializeIndex remote.index) ∧
      (parseIndex (serializeIndex remote.index)).map serializeIndex =
        some (serializeIndex remote.index) := by
  refine ⟨{ st with
      calls := st.calls ++ [AIRDROPS_INDEX],
      metadata_blob := some (serializeIndex remote.index),
      etag := some remote.etag,
      known_assets := registerAssets st.known_assets remote.index.airdrops },
    ?_, ?_, ?_⟩
  · simp [fetch_airdrops_metadata, hne]
  · simp
  · rw [parseIndex_serializeIndex remote.index hwf]
    rfl

/-- Concrete instantiation of `fetch_metadata_blob_roundtrip` on a one
protocol index exercising every optional record member. -/
theorem fetch_metadata_blob_roundtrip_witness :
    ∃ st2 : SyncState,
      fetch_airdrops_metadata c9Remote c9State = .ok (c9Remote.index, st2) ∧
      st2.metadata_blob = some (serializeIndex c9Remote.index) ∧
      (parseIndex (serializeIndex c9Remote.index)).map serializeIndex =
        some (serializeIndex c9Remote.index) :=
  fetch_metadata_blob_roundtrip c9Remote c9State (by decide) (by decide)

/-! ## Result map lemmas -/

theorem foldlM_ok_invariant_mem {α β : Type} (f : β → α → Except String β)
    (P : β → Prop) :
    ∀ (l : List α) (b b2 : β),
      (∀ b3 a b4, a ∈ l → f b3 a = .ok b4 → P b3 → P b4) →
      List.foldlM f b l = .ok b2 → P b → P b2 := by
  intro l
  induction l with
  | nil =>
    intro b b2 _ h hP
    simp only [List.foldlM_nil, pure, Except.pure, Except.ok.injEq] at h
    exact h ▸ hP
  | cons a rest ih =>
    intro b b2 hstep h hP
    rw [List.foldlM_cons, except_bind_ok] at h
    obtain ⟨b1, h1, h2⟩ := h
    exact ih b1 b2 (fun b3 x b4 hx => hstep b3 x b4 (List.mem_cons_of_mem a hx)) h2
      (hstep b a b1 (List.mem_cons_self a rest) h1 hP)

theorem foldlM_append_ok {α β : Type} (f : β → α → Except String β)
    (l1 : List α) (x : α) (l2 : List α) (b b1 b3 : β)
    (h : List.foldlM f b (l1 ++ x :: l2) = .ok b3)
    (hpre : List.foldlM f b l1 = .ok b1) :
    ∃ b2, f b1 x = .ok b2 ∧ List.foldlM f b2 l2 = .ok b3 := by
  rw [List.foldlM_append, hpre] at h
  rw [show ((Except.ok b1 : Except String β) >>= fun b2 =>
      List.foldlM f b2 (x :: l2)) = List.foldlM f b1 (x :: l2) from rfl] at h
  rw [List.foldlM_cons, except_bind_ok] at h
  exact h

theorem alookup_aset_mem {α : Type} (k : String) (v : α) (l : List (String × α)) :
    ∀ x ∈ aset k v l, x = (k, v) ∨ x ∈ l := by
  induction l with
  | nil => simp [aset]
  | cons p rest ih =>
    intro x hx
    by_cases h : p.1 = k
    · rw [aset, if_pos h] at hx
      rcases List.mem_cons.mp hx with hx | hx
      · left
        rw [hx, ← h]
      · right
        exact List.mem_cons_of_mem p hx
    · rw [aset, if_neg h] at hx
      rcases List.mem_cons.mp hx with hx | hx
      · right
        rw [hx]
        exact List.mem_cons_self p rest
      · rcases ih x hx with h2 | h2
        · left
          exact h2
        · right
          exact List.mem_cons_of_mem p h2

theorem alookup_setInner_same (proto : String) (v : ResultValue)
    (inner : List (String × ResultValue)) :
    alookup proto (setInner proto v inner) = some v := by
  induction inner with
  | nil => simp [setInner, alookup]
  | cons p rest ih =>
    by_cases h : p.1 = proto <;> simp [setInner, alookup, h, ih]

theorem alookup_setInner_other (p proto : String) (v : ResultValue)
    (inner : List (String × ResultValue)) (hne : p ≠ proto) :
    alookup p (setInner proto v inner) = alookup p inner := by
  induction inner with
  | nil => simp [setInner, alookup, Ne.symm hne]
  | cons q rest ih =>
    by_cases h : q.1 = proto
    · subst h
      simp [setInner, alookup, Ne.symm hne, hne, ih]
    · by_cases h2 : q.1 = p <;> simp [setInner, alookup, h, h2, hne, ih]

theorem setInner_ne_nil (proto : String) (v : ResultValue)
    (inner : List (String × ResultValue)) : setInner proto v inner ≠ [] := by
  cases inner with
  | nil => simp [setInner]
  | cons p rest =>
    by_cases h : p.1 = proto <;> simp [setInner, h]

theorem alookup_setResult_same_addr (addr proto : String) (v : ResultValue)
    (res : EligibilityResult) :
    ∃ inner, alookup addr (setResult addr proto v res) = some inner ∧
      alookup proto inner = some v := by
  induction res with
  | nil => exact ⟨[(proto, v)], by simp [setResult, alookup]⟩
  | cons p rest ih =>
    by_cases h : p.1 = addr
    · exact ⟨setInner proto v p.2, by
        simp [setResult, alookup, h, alookup_setInner_same]⟩
    · obtain ⟨inner, h1, h2⟩ := ih
      exact ⟨inner, by simp [setResult, alookup, h, h1, h2]⟩

theorem alookup_setResult_other_addr (a addr proto : String) (v : ResultValue)
    (res : EligibilityResult) (hne : a ≠ addr) :
    alookup a (setResult addr proto v res) = alookup a res := by
  induction res with
  | nil => simp [setResult, alookup, Ne.symm hne]
  | cons p rest ih =>
    by_cases h : p.1 = addr
    · subst h
      simp [setResult, alookup, Ne.symm hne, hne, ih]
    · by_cases h2 : p.1 = a <;> simp [setResult, alookup, h, h2, hne, ih]

theorem lookup2_setResult_same (addr proto : String) (v : ResultValue)
    (res : EligibilityResult) :
    lookup2 addr proto (setResult addr proto v res) = some v := by
  obtain ⟨inner, h1, h2⟩ := alookup_setResult_same_addr addr proto v res
  simp [lookup2, h1, h2]

theorem lookup2_setResult_other (a p addr proto : String) (v : ResultValue)
    (res : EligibilityResult) (hne : a ≠ addr ∨ p ≠ proto) :
    lookup2 a p (setResult addr proto v res) = lookup2 a p res := by
  rcases hne with hne | hne
  · simp [lookup2, alookup_setResult_other_addr a addr proto v res hne]
  · induction res with
    | nil =>
      by_cases h : addr = a
      · simp [lookup2, setResult, alookup, h, Ne.symm hne]
      · simp [lookup2, setResult, alookup, h]
    | cons q rest ih =>
      by_cases h : q.1 = addr
      · by_cases h2 : q.1 = a
        · have haux : addr = a := by rw [← h, h2]
          simp [lookup2, setResult, alookup, h, h2, haux,
            alookup_setInner_other p proto v q.2 hne]
        · have haux : ¬ addr = a := by rw [← h]; exact h2
          simp [lookup2, setResult, alookup, h, h2, haux]
      · by_cases h2 : q.1 = a
        · have haux : ¬ a = addr := by rw [← h2]; exact fun hc => h hc
          simp [lookup2, setResult, alookup, h, h2, haux]
        · simp only [lookup2, setResult, alookup, h, h2, ite_false,
            if_neg, not_false_iff] at ih ⊢
          exact ih

theorem alookup_setResult_cases (a addr proto : String) (v : ResultValue)
    (res : EligibilityResult) :
    alookup a (setResult addr proto v res) = alookup a res ∨
    ∃ inner0, alookup a (setResult addr proto v res) = some (setInner proto v inner0) := by
  induction res with
  | nil =>
    by_cases h : addr = a
    · right
      exact ⟨[], by simp [setResult, alookup, h, setInner]⟩
    · left
      simp [setResult, alookup, h]
  | cons p rest ih =>
    by_cases h : p.1 = addr
    · by_cases h2 : p.1 = a
      · have haux : addr = a := by rw [← h, h2]
        right
        exact ⟨p.2, by simp [setResult, alookup, h, h2, haux]⟩
      · have haux : ¬ addr = a := by rw [← h]; exact h2
        left
        simp [setResult, alookup, h, h2, haux]
    · by_cases h2 : p.1 = a
      · have haux : ¬ a = addr := by rw [← h2]; exact fun hc => h hc
        left
        simp [setResult, alookup, h, h2, haux]
      · rcases ih with ih | ⟨inner0, ih⟩
        · left
          simp [setResult, alookup, h, h2, ih]
        · right
          exact ⟨inner0, by simp [setResult, alookup, h, h2, ih]⟩

theorem setResult_inner_ne_nil (addr proto : String) (v : ResultValue)
    (res : EligibilityResult)
    (hres : ∀ a inner, alookup a res = some inner → inner ≠ []) :
    ∀ a inner, alookup a (setResult addr proto v res) = some inner → inner ≠ [] := by
  intro a inner h
  rcases alookup_setResult_cases a addr proto v res with hc | ⟨inner0, hc⟩
  · exact hres a inner (hc ▸ h)
  · rw [hc] at h
    have h2 : setInner proto v inner0 = inner := Option.some.injEq _ _ |>.mp h
    rw [← h2]
    exact setInner_ne_nil proto v inner0

/-! ## Effect lemmas for the per protocol processing steps -/

theorem insertRows_other_proto (env : Env) (pname : String) (r : AirdropRecord)
    (rows : List (String × ℚ)) (res : EligibilityResult) (a p : String)
    (hne : p ≠ pname) :
    lookup2 a p (insertRows env pname r rows res) = lookup2 a p res := by
  induction rows generalizing res with
  | nil => simp [insertRows]
  | cons row rest ih =>
    by_cases h : row.1 ∈ env.addresses
    · rw [insertRows, List.foldl_cons, if_pos h]
      rw [show (List.foldl _ _ rest) = insertRows env pname r rest
        (setResult row.1 pname (.airdrop (entryFor env r row.1 row.2)) res) from rfl]
      rw [ih]
      exact lookup2_setResult_other a p row.1 pname _ res (Or.inr hne)
    · rw [insertRows, List.foldl_cons, if_neg h]
      exact ih res

theorem insertRows_other_addr (env : Env) (pname : String) (r : AirdropRecord)
    (rows : List (String × ℚ)) (res : EligibilityResult) (addr : String)
    (hrows : ∀ row ∈ rows, row.1 ≠ addr) :
    alookup addr (insertRows env pname r rows res) = alookup addr res := by
  induction rows generalizing res with
  | nil => simp [insertRows]
  | cons row rest ih =>
    have hrow := hrows row (List.mem_cons_self row rest)
    have hrest := fun x hx => hrows x (List.mem_cons_of_mem row hx)
    by_cases h : row.1 ∈ env.addresses
    · rw [insertRows, List.foldl_cons, if_pos h]
      rw [show (List.foldl _ _ rest) = insertRows env pname r rest
        (setResult row.1 pname (.airdrop (entryFor env r row.1 row.2)) res) from rfl]
      rw [ih _ hrest]
      exact alookup_setResult_other_addr addr row.1 pname _ res (Ne.symm hrow)
    · rw [insertRows, List.foldl_cons, if_neg h]
      exact ih res hrest

theorem insertRows_other_addr2 (env : Env) (pname : String) (r : AirdropRecord)
    (rows : List (String × ℚ)) (res : EligibilityResult) (addr p : String)
    (hrows : ∀ row ∈ rows, row.1 ≠ addr) :
    lookup2 addr p (insertRows env pname r rows res) = lookup2 addr p res := by
  rw [lookup2, insertRows_other_addr env pname r rows res addr hrows, lookup2]

theorem insertRows_hit (env : Env) (pname : String) (r : AirdropRecord)
    (rows : List (String × ℚ)) (res : EligibilityResult) (addr : String) (amt : ℚ)
    (hfilter : rows.filter (fun row => decide (row.1 = addr)) = [(addr, amt)])
    (haddr : addr ∈ env.addresses) :
    lookup2 addr pname (insertRows env pname r rows res) =
      some (.airdrop (entryFor env r addr amt)) := by
  induction rows generalizing res with
  | nil => simp at hfilter
  | cons row rest ih =>
    by_cases h : row.1 = addr
    · rw [List.filter_cons_of_pos (by simp [h])] at hfilter
      have hrow : row = (addr, amt) := (List.cons_eq_cons.mp hfilter).1
      have hrest : rest.filter (fun row => decide (row.1 = addr)) = [] :=
        (List.cons_eq_cons.mp hfilter).2
      have hnone : ∀ x ∈ rest, x.1 ≠ addr := by
        intro x hx
        have := List.filter_eq_nil_iff.mp hrest x hx
        simpa using this
      rw [insertRows, List.foldl_cons, if_pos (hrow ▸ h ▸ haddr)]
      rw [show (List.foldl _ _ rest) = insertRows env pname r rest
        (setResult row.1 pname (.airdrop (entryFor env r row.1 row.2)) res) from rfl]
      rw [insertRows_other_addr2 env pname r rest _ addr pname hnone]
      rw [hrow]
      exact lookup2_setResult_same addr pname _ res
    · rw [List.filter_cons_of_neg (by simp [h])] at hfilter
      by_cases h2 : row.1 ∈ env.addresses
      · rw [insertRows, List.foldl_cons, if_pos h2]
        exact ih _ hfilter
      · rw [insertRows, List.foldl_cons, if_neg h2]
        exact ih _ hfilter

theorem insertRows_inner_ne_nil (env : Env) (pname : String) (r : AirdropRecord)
    (rows : List (String × ℚ)) (res : EligibilityResult)
    (hres : ∀ a inner, alookup a res = some inner → inner ≠ []) :
    ∀ a inner, alookup a (insertRows env pname r rows res) = some inner →
      inner ≠ [] := by
  induction rows generalizing res with
  | nil => simpa [insertRows] using hres
  | cons row rest ih =>
    by_cases h : row.1 ∈ env.addresses
    · rw [insertRows, List.foldl_cons, if_pos h]
      exact ih _ (setResult_inner_ne_nil _ _ _ _ hres)
    · rw [insertRows, List.foldl_cons, if_neg h]
      exact ih _ hres

theorem get_airdrop_data_cases (remote : Remote) (q : String) (r : AirdropRecord)
    (st : SyncState) (content : String) (st1 : SyncState)
    (h : get_airdrop_data remote q r st = .ok (content, st1)) :
    (st1 = st ∧ alookup (csvFileName q) st.csv_files = some content ∧
      alookup (csvFileName q) st.csv_hashes = some r.csv_hash) ∨
    (alookup r.csv_path remote.csv_payloads = some content ∧
      hasPrefix ("address".data) content.data = true ∧
      st1 = { st with
        calls := st.calls ++ [payloadUrl r.csv_path],
        csv_files := aset (csvFileName q) content st.csv_files,
        csv_hashes := aset (csvFileName q) r.csv_hash st.csv_hashes }) := by
  have hfetch : ∀ h2 : fetchCsv remote (csvFileName q) r st = .ok (content, st1),
      (alookup r.csv_path remote.csv_payloads = some content ∧
        hasPrefix ("address".data) content.data = true ∧
        st1 = { st with
          calls := st.calls ++ [payloadUrl r.csv_path],
          csv_files := aset (csvFileName q) content st.csv_files,
          csv_hashes := aset (csvFileName q) r.csv_hash st.csv_hashes }) := by
    intro h2
    unfold fetchCsv at h2
    cases hr : alookup r.csv_path remote.csv_payloads with
    | none => simp [hr] at h2
    | some rcontent =>
      by_cases hp : hasPrefix ("address".data) rcontent.data = true
      · simp only [hr, hp, if_true, Except.ok.injEq, Prod.mk.injEq] at h2
        obtain ⟨hcont, hst⟩ := h2
        subst hcont
        exact ⟨rfl, hp, hst.symm⟩
      · simp [hr, hp] at h2
  unfold get_airdrop_data at h
  cases hf : alookup (csvFileName q) st.csv_files with
  | none =>
    simp only [hf] at h
    exact Or.inr (hfetch h)
  | some cached =>
    cases hh : alookup (csvFileName q) st.csv_hashes with
    | none =>
      simp only [hf, hh] at h
      exact Or.inr (hfetch h)
    | some hsh =>
      by_cases heq : hsh = r.csv_hash
      · simp only [hf, hh, heq, if_true, Except.ok.injEq, Prod.mk.injEq] at h
        obtain ⟨hcont, hst⟩ := h
        subst hcont
        exact Or.inl ⟨hst.symm, rfl, by rw [heq]⟩
      · simp only [hf, hh, heq, if_false, ite_false] at h
        exact Or.inr (hfetch h)

theorem processAirdrop_cases (env : Env) (rs : RunState) (p : String × AirdropRecord)
    (rs2 : RunState) (h : processAirdrop env rs p = .ok rs2) :
    rs2 = rs ∨
    rs2 = { rs with st := addWarning rs.st (unknownAssetWarning p.1 p.2.asset_identifier) } ∨
    (∃ content st1, get_airdrop_data env.remote p.1 p.2 rs.st = .ok (content, st1) ∧
      (rs2 = { rs with st := st1 } ∨
       (∃ b, rs2 = { rs with st := addWarning st1 (invalidRowWarning p.1 b) }) ∨
       (∃ header dataLines rows, csvLines content = header :: dataLines ∧
         parseDataRows dataLines = .ok rows ∧
         rs2 = { st := st1,
                 result := insertRows env p.1 p.2
                   (rows.map fun row => (row.1, normalizeAmount p.1 row.2))
                   rs.result }))) := by
  unfold processAirdrop at h
  by_cases hcut : pastCutoff p.2 env.now = true
  · left
    simp only [hcut, if_true, Except.ok.injEq] at h
    exact h.symm
  · by_cases hasset : p.2.asset_identifier ∈ rs.st.known_assets
    · cases hgad : get_airdrop_data env.remote p.1 p.2 rs.st with
      | error e => simp [hcut, hasset, hgad] at h
      | ok pair =>
        obtain ⟨content, st1⟩ := pair
        right; right
        refine ⟨content, st1, rfl, ?_⟩
        cases hlines : csvLines content with
        | nil =>
          left
          simp only [hcut, hasset, hgad, hlines, Bool.false_eq_true, if_false,
            ite_false, not_true_eq_false, Except.ok.injEq] at h
          exact h.symm
        | cons header dataLines =>
          cases hparse : parseDataRows dataLines with
          | error b =>
            right; left
            refine ⟨b, ?_⟩
            simp only [hcut, hasset, hgad, hlines, hparse, Bool.false_eq_true,
              if_false, ite_false, not_true_eq_false, Except.ok.injEq] at h
            exact h.symm
          | ok rows =>
            by_cases hthr : (sumAmounts (rows.map fun row =>
                (row.1, normalizeAmount p.1 row.2)) < env.threshold)
            · left
              simp only [hcut, hasset, hgad, hlines, hparse, hthr,
                Bool.false_eq_true, if_false, ite_false, not_true_eq_false,
                if_true, ite_true, Except.ok.injEq] at h
              exact h.symm
            · right; right
              refine ⟨header, dataLines, rows, rfl, hparse, ?_⟩
              simp only [hcut, hasset, hgad, hlines, hparse, hthr,
                Bool.false_eq_true, if_false, ite_false, not_true_eq_false,
                Except.ok.injEq] at h
              exact h.symm
    · right; left
      simp only [hcut, hasset, Bool.false_eq_true, if_false, ite_false,
        not_false_iff, if_true, ite_true, Except.ok.injEq] at h
      exact h.symm

theorem get_poap_data_cases (remote : Remote) (q : String) (p : PoapRecord)
    (st : SyncState) (content : List (String × List Nat)) (st1 : SyncState)
    (h : get_poap_data remote q p st = .ok (content, st1)) :
    (st1 = st ∧ alookup (poapFileName q) st.poap_files = some content ∧
      alookup (poapFileName q) st.poap_hashes = some p.hash) ∨
    (alookup p.json_path remote.poap_payloads = some content ∧
      st1 = { st with
        calls := st.calls ++ [payloadUrl p.json_path],
        poap_files := aset (poapFileName q) content st.poap_files,
        poap_hashes := aset (poapFileName q) p.hash st.poap_hashes }) := by
  have hfetch : ∀ h2 : (match alookup p.json_path remote.poap_payloads with
      | none => (.error ("Airdrops request failed for " ++ poapFileName q) :
          Except String ((List (String × List Nat)) × SyncState))
      | some c => .ok (c,
          { st with
            calls := st.calls ++ [payloadUrl p.json_path],
            poap_files := aset (poapFileName q) c st.poap_files,
            poap_hashes := aset (poapFileName q) p.hash st.poap_hashes })) =
        .ok (content, st1),
      (alookup p.json_path remote.poap_payloads = some content ∧
        st1 = { st with
          calls := st.calls ++ [payloadUrl p.json_path],
          poap_files := aset (poapFileName q) content st.poap_files,
          poap_hashes := aset (poapFileName q) p.hash st.poap_hashes }) := by
    intro h2
    cases hr : alookup p.json_path remote.poap_payloads with
    | none => simp [hr] at h2
    | some c =>
      simp only [hr, Except.ok.injEq, Prod.mk.injEq] at h2
      obtain ⟨hcont, hst⟩ := h2
      subst hcont
      exact ⟨rfl, hst.symm⟩
  unfold get_poap_data at h
  cases hf : alookup (poapFileName q) st.poap_files with
  | none =>
    simp only [hf] at h
    exact Or.inr (hfetch h)
  | some cached =>
    cases hh : alookup (poapFileName q) st.poap_hashes with
    | none =>
      simp only [hf, hh] at h
      exact Or.inr (hfetch h)
    | some hsh =>
      by_cases heq : hsh = p.hash
      · simp only [hf, hh, heq, if_true, Except.ok.injEq, Prod.mk.injEq] at h
        obtain ⟨hcont, hst⟩ := h
        subst hcont
        exact Or.inl ⟨hst.symm, rfl, by rw [heq]⟩
      · simp only [hf, hh, heq, if_false, ite_false] at h
        exact Or.inr (hfetch h)

theorem processPoap_cases (env : Env) (rs : RunState) (p : String × PoapRecord)
    (rs2 : RunState) (h : processPoap env rs p = .ok rs2) :
    ∃ content st1, get_poap_data env.remote p.1 p.2 rs.st = .ok (content, st1) ∧
      rs2 = { st := st1,
              result := content.foldl
                (fun acc entry => if entry.1 ∈ env.addresses then
                  appendPoap entry.1
                    { event := p.1, assets := entry.2, link := p.2.url,
                      name := p.2.name } acc
                  else acc) rs.result } := by
  unfold processPoap at h
  cases hgpd : get_poap_data env.remote p.1 p.2 rs.st with
  | error e => simp [hgpd] at h
  | ok pair =>
    obtain ⟨content, st1⟩ := pair
    refine ⟨content, st1, rfl, ?_⟩
    simp only [hgpd, Except.ok.injEq] at h
    exact h.symm

theorem gad_state_cases (remote : Remote) (q : String) (r : AirdropRecord)
    (st : SyncState) (content : String) (st1 : SyncState)
    (h : get_airdrop_data remote q r st = .ok (content, st1)) :
    st1 = st ∨
    st1 = { st with
      calls := st.calls ++ [payloadUrl r.csv_path],
      csv_files := aset (csvFileName q) content st.csv_files,
      csv_hashes := aset (csvFileName q) r.csv_hash st.csv_hashes } := by
  rcases get_airdrop_data_cases remote q r st content st1 h with ⟨h1, _, _⟩ | ⟨_, _, h1⟩
  · exact Or.inl h1
  · exact Or.inr h1

theorem gad_cached (remote : Remote) (q : String) (r : AirdropRecord)
    (st : SyncState) (c : String)
    (hf : alookup (csvFileName q) st.csv_files = some c)
    (hh : alookup (csvFileName q) st.csv_hashes = some r.csv_hash) :
    get_airdrop_data remote q r st = .ok (c, st) := by
  simp only [get_airdrop_data]
  rw [hf, hh]
  simp

theorem processAirdrop_other_proto (env : Env) (rs : RunState)
    (p : String × AirdropRecord) (rs2 : RunState) (a proto : String)
    (h : processAirdrop env rs p = .ok rs2) (hne : proto ≠ p.1) :
    lookup2 a proto rs2.result = lookup2 a proto rs.result := by
  rcases processAirdrop_cases env rs p rs2 h with h2 | h2 |
    ⟨content, st1, _, h2 | ⟨b, h2⟩ | ⟨header, dataLines, rows, _, _, h2⟩⟩ <;>
    subst h2 <;> try rfl
  exact insertRows_other_proto env p.1 p.2 _ rs.result a proto hne

theorem processAirdrop_poap_untouched (env : Env) (rs : RunState)
    (p : String × AirdropRecord) (rs2 : RunState)
    (h : processAirdrop env rs p = .ok rs2) :
    rs2.st.poap_files = rs.st.poap_files ∧
    rs2.st.poap_hashes = rs.st.poap_hashes := by
  rcases processAirdrop_cases env rs p rs2 h with h2 | h2 |
    ⟨content, st1, hgad, h2 | ⟨b, h2⟩ | ⟨header, dataLines, rows, _, _, h2⟩⟩ <;>
    subst h2 <;>
    try exact ⟨rfl, rfl⟩
  all_goals
    rcases gad_state_cases env.remote p.1 p.2 rs.st content st1 hgad with h3 | h3 <;>
      subst h3 <;> exact ⟨rfl, rfl⟩

theorem processAirdrop_calls_cases (env : Env) (rs : RunState)
    (p : String × AirdropRecord) (rs2 : RunState)
    (h : processAirdrop env rs p = .ok rs2) :
    rs2.st.calls = rs.st.calls ∨
    rs2.st.calls = rs.st.calls ++ [payloadUrl p.2.csv_path] := by
  rcases processAirdrop_cases env rs p rs2 h with h2 | h2 |
    ⟨content, st1, hgad, h2 | ⟨b, h2⟩ | ⟨header, dataLines, rows, _, _, h2⟩⟩ <;>
    subst h2
  · exact Or.inl rfl
  · exact Or.inl rfl
  all_goals
    rcases gad_state_cases env.remote p.1 p.2 rs.st content st1 hgad with h3 | h3 <;>
      subst h3
  · exact Or.inl rfl
  · exact Or.inr rfl
  · exact Or.inl rfl
  · exact Or.inr rfl
  · exact Or.inl rfl
  · exact Or.inr rfl

theorem processAirdrop_files_other (env : Env) (rs : RunState)
    (p : String × AirdropRecord) (rs2 : RunState) (f : String)
    (h : processAirdrop env rs p = .ok rs2) (hne : f ≠ csvFileName p.1) :
    alookup f rs2.st.csv_files = alookup f rs.st.csv_files ∧
    alookup f rs2.st.csv_hashes = alookup f rs.st.csv_hashes := by
  rcases processAirdrop_cases env rs p rs2 h with h2 | h2 |
    ⟨content, st1, hgad, h2 | ⟨b, h2⟩ | ⟨header, dataLines, rows, _, _, h2⟩⟩ <;>
    subst h2
  · exact ⟨rfl, rfl⟩
  · exact ⟨rfl, rfl⟩
  all_goals
    rcases gad_state_cases env.remote p.1 p.2 rs.st content st1 hgad with h3 | h3 <;>
      subst h3
  · exact ⟨rfl, rfl⟩
  · exact ⟨alookup_aset_other _ f content _ hne,
      alookup_aset_other _ f p.2.csv_hash _ hne⟩
  · exact ⟨rfl, rfl⟩
  · exact ⟨alookup_aset_other _ f content _ hne,
      alookup_aset_other _ f p.2.csv_hash _ hne⟩
  · exact ⟨rfl, rfl⟩
  · exact ⟨alookup_aset_other _ f content _ hne,
      alookup_aset_other _ f p.2.csv_hash _ hne⟩

theorem gpd_state_cases (remote : Remote) (q : String) (p : PoapRecord)
    (st : SyncState) (content : List (String × List Nat)) (st1 : SyncState)
    (h : get_poap_data remote q p st = .ok (content, st1)) :
    st1 = st ∨
    st1 = { st with
      calls := st.calls ++ [payloadUrl p.json_path],
      poap_files := aset (poapFileName q) content st.poap_files,
      poap_hashes := aset (poapFileName q) p.hash st.poap_hashes } := by
  rcases get_poap_data_cases remote q p st content st1 h with ⟨h1, _, _⟩ | ⟨_, h1⟩
  · exact Or.inl h1
  · exact Or.inr h1

theorem appendPoap_lookup_same (a : String) (pe : PoapEntry) (res : EligibilityResult) :
    lookup2 a "poap" (appendPoap a pe res) =
      some (.poap (currentPoaps a res ++ [pe])) := by
  unfold appendPoap
  exact lookup2_setResult_same a "poap" _ res

theorem appendPoap_lookup_other (a a2 : String) (proto : String) (pe : PoapEntry)
    (res : EligibilityResult) (h : a ≠ a2 ∨ proto ≠ "poap") :
    lookup2 a proto (appendPoap a2 pe res) = lookup2 a proto res := by
  unfold appendPoap
  exact lookup2_setResult_other a proto a2 "poap" _ res h

theorem currentPoaps_of_lookup2 (a : String) (res : EligibilityResult)
    (l : List PoapEntry) (h : lookup2 a "poap" res = some (.poap l)) :
    currentPoaps a res = l := by
  unfold currentPoaps
  unfold lookup2 at h
  cases h2 : alookup a res with
  | none => rw [h2] at h; simp at h
  | some inner =>
    rw [h2] at h
    simp only at h ⊢
    rw [h]

theorem poapFold_other (env : Env) (p : String × PoapRecord)
    (content : List (String × List Nat)) (res : EligibilityResult)
    (a proto : String) (hne : proto ≠ "poap") :
    lookup2 a proto (content.foldl
      (fun acc entry => if entry.1 ∈ env.addresses then
        appendPoap entry.1
          { event := p.1, assets := entry.2, link := p.2.url,
            name := p.2.name } acc
        else acc) res) = lookup2 a proto res := by
  induction content generalizing res with
  | nil => simp
  | cons e rest ih =>
    rw [List.foldl_cons]
    by_cases h : e.1 ∈ env.addresses
    · rw [if_pos h, ih]
      exact appendPoap_lookup_other a e.1 proto _ res (Or.inr hne)
    · rw [if_neg h]
      exact ih res

theorem poapFold_other_addr (env : Env) (p : String × PoapRecord)
    (content : List (String × List Nat)) (res : EligibilityResult)
    (addr : String) (hnone : ∀ e ∈ content, e.1 ≠ addr) :
    alookup addr (content.foldl
      (fun acc entry => if entry.1 ∈ env.addresses then
        appendPoap entry.1
          { event := p.1, assets := entry.2, link := p.2.url,
            name := p.2.name } acc
        else acc) res) = alookup addr res := by
  induction content generalizing res with
  | nil => simp
  | cons e rest ih =>
    have he := hnone e (List.mem_cons_self e rest)
    have hrest := fun x hx => hnone x (List.mem_cons_of_mem e hx)
    rw [List.foldl_cons]
    by_cases h : e.1 ∈ env.addresses
    · rw [if_pos h, ih _ hrest]
      unfold appendPoap
      exact alookup_setResult_other_addr addr e.1 "poap" _ res (Ne.symm he)
    · rw [if_neg h]
      exact ih res hrest

theorem poapFold_nonempty (env : Env) (p : String × PoapRecord)
    (content : List (String × List Nat)) (res : EligibilityResult)
    (hres : ∀ a inner, alookup a res = some inner → inner ≠ []) :
    ∀ a inner, alookup a (content.foldl
      (fun acc entry => if entry.1 ∈ env.addresses then
        appendPoap entry.1
          { event := p.1, assets := entry.2, link := p.2.url,
            name := p.2.name } acc
        else acc) res) = some inner → inner ≠ [] := by
  induction content generalizing res with
  | nil => simpa using hres
  | cons e rest ih =>
    rw [List.foldl_cons]
    by_cases h : e.1 ∈ env.addresses
    · rw [if_pos h]
      exact ih _ (setResult_inner_ne_nil _ _ _ _ hres)
    · rw [if_neg h]
      exact ih _ hres

theorem poapFold_persist (env : Env) (p : String × PoapRecord)
    (content : List (String × List Nat)) (res : EligibilityResult)
    (a : String) (e : PoapEntry)
    (h : ∃ l, lookup2 a "poap" res = some (.poap l) ∧ e ∈ l) :
    ∃ l, lookup2 a "poap" (content.foldl
      (fun acc entry => if entry.1 ∈ env.addresses then
        appendPoap entry.1
          { event := p.1, assets := entry.2, link := p.2.url,
            name := p.2.name } acc
        else acc) res) = some (.poap l) ∧ e ∈ l := by
  induction content generalizing res with
  | nil => simpa using h
  | cons e2 rest ih =>
    rw [List.foldl_cons]
    by_cases h2 : e2.1 ∈ env.addresses
    · rw [if_pos h2]
      refine ih _ ?_
      obtain ⟨l, hl, hmem⟩ := h
      by_cases h3 : e2.1 = a
      · subst h3
        rw [appendPoap_lookup_same]
        rw [currentPoaps_of_lookup2 e2.1 res l hl]
        exact ⟨l ++ [_], rfl, List.mem_append_left _ hmem⟩
      · rw [appendPoap_lookup_other a e2.1 "poap" _ res (Or.inl (Ne.symm h3))]
        exact ⟨l, hl, hmem⟩
    · rw [if_neg h2]
      exact ih _ h

theorem poapFold_insert (env : Env) (p : String × PoapRecord)
    (content : List (String × List Nat)) (res : EligibilityResult)
    (addr : String) (tokens : List Nat)
    (hmem : (addr, tokens) ∈ content) (haddr : addr ∈ env.addresses) :
    ∃ l, lookup2 addr "poap" (content.foldl
      (fun acc entry => if entry.1 ∈ env.addresses then
        appendPoap entry.1
          { event := p.1, assets := entry.2, link := p.2.url,
            name := p.2.name } acc
        else acc) res) = some (.poap l) ∧
      ({ event := p.1, assets := tokens, link := p.2.url,
         name := p.2.name } : PoapEntry) ∈ l := by
  induction content generalizing res with
  | nil => simp at hmem
  | cons e rest ih =>
    rw [List.foldl_cons]
    rcases List.mem_cons.mp hmem with he | he
    · rw [← he]
      rw [if_pos (by simpa [← he] using haddr)]
      refine poapFold_persist env p rest _ addr _ ?_
      rw [show ((addr, tokens) : String × List Nat).1 = addr from rfl]
      rw [appendPoap_lookup_same]
      exact ⟨_, rfl, List.mem_append_right _ (List.mem_singleton_self _)⟩
    · by_cases h2 : e.1 ∈ env.addresses
      · rw [if_pos h2]
        exact ih _ he
      · rw [if_neg h2]
        exact ih _ he


theorem processPoap_other_proto (env : Env) (rs : RunState) (p : String × PoapRecord)
    (rs2 : RunState) (a proto : String)
    (h : processPoap env rs p = .ok rs2) (hne : proto ≠ "poap") :
    lookup2 a proto rs2.result = lookup2 a proto rs.result := by
  obtain ⟨content, st1, _, h2⟩ := processPoap_cases env rs p rs2 h
  subst h2
  exact poapFold_other env p content rs.result a proto hne

theorem processPoap_csv_untouched (env : Env) (rs : RunState) (p : String × PoapRecord)
    (rs2 : RunState) (h : processPoap env rs p = .ok rs2) :
    rs2.st.csv_files = rs.st.csv_files ∧ rs2.st.csv_hashes = rs.st.csv_hashes := by
  obtain ⟨content, st1, hgpd, h2⟩ := processPoap_cases env rs p rs2 h
  subst h2
  rcases gpd_state_cases env.remote p.1 p.2 rs.st content st1 hgpd with h3 | h3 <;>
    subst h3 <;> exact ⟨rfl, rfl⟩

theorem processPoap_calls_cases (env : Env) (rs : RunState) (p : String × PoapRecord)
    (rs2 : RunState) (h : processPoap env rs p = .ok rs2) :
    rs2.st.calls = rs.st.calls ∨
    rs2.st.calls = rs.st.calls ++ [payloadUrl p.2.json_path] := by
  obtain ⟨content, st1, hgpd, h2⟩ := processPoap_cases env rs p rs2 h
  subst h2
  rcases gpd_state_cases env.remote p.1 p.2 rs.st content st1 hgpd with h3 | h3 <;>
    subst h3
  · exact Or.inl rfl
  · exact Or.inr rfl

/-! ## Run level helpers -/

theorem nodup_middle_not_mem_post {α β : Type} (f : α → β) (pre : List α) (x : α)
    (post : List α) (hnodup : ((pre ++ x :: post).map f).Nodup) :
    ∀ y ∈ post, f y ≠ f x := by
  intro y hy
  rw [List.map_append, List.map_cons] at hnodup
  have h2 := (List.Nodup.of_append_right hnodup)
  rw [List.nodup_cons] at h2
  intro hc
  exact h2.1 (hc ▸ List.mem_map_of_mem f hy)

/-- Once a protocol's own step has produced a binding in the result, every
later step (remaining token protocols by name disjointness, POAP protocols
through the fixed `poap` key) preserves it, so the binding survives into
the final result of `check_airdrops`. -/
theorem check_airdrops_binding_survives (env : Env) (st0 : SyncState)
    (res : EligibilityResult) (stF : SyncState) (idx : AirdropIndex)
    (st1 : SyncState) (pname : String) (r : AirdropRecord)
    (pre post : List (String × AirdropRecord)) (rsPre rsP : RunState)
    (addr : String) (v : ResultValue)
    (hrun : check_airdrops env st0 = .ok (res, stF))
    (hfetch : fetch_airdrops_metadata env.remote st0 = .ok (idx, st1))
    (hidx : idx.airdrops = pre ++ (pname, r) :: post)
    (hnodup : (idx.airdrops.map Prod.fst).Nodup)
    (hpoap : pname ≠ "poap")
    (hpre : List.foldlM (processAirdrop env) ⟨st1, []⟩ pre = .ok rsPre)
    (hstep : processAirdrop env rsPre (pname, r) = .ok rsP)
    (hentry : lookup2 addr pname rsP.result = some v) :
    lookup2 addr pname res = some v := by
  unfold check_airdrops at hrun
  rw [hfetch] at hrun
  rw [show ((Except.ok (idx, st1) : Except String (AirdropIndex × SyncState)) >>=
      fun x => do
        let rs1 ← x.1.airdrops.foldlM (processAirdrop env) ⟨x.2, []⟩
        let rs2 ← x.1.poap_airdrops.foldlM (processPoap env) rs1
        .ok (rs2.result, rs2.st)) = (do
        let rs1 ← idx.airdrops.foldlM (processAirdrop env) ⟨st1, []⟩
        let rs2 ← idx.poap_airdrops.foldlM (processPoap env) rs1
        .ok (rs2.result, rs2.st)) from rfl] at hrun
  rw [except_bind_ok] at hrun
  obtain ⟨rsA, hA, hrun⟩ := hrun
  rw [except_bind_ok] at hrun
  obtain ⟨rsB, hB, hrun⟩ := hrun
  simp only [Except.ok.injEq, Prod.mk.injEq] at hrun
  obtain ⟨hres, _⟩ := hrun
  rw [hidx] at hA
  obtain ⟨rsP2, hstep2, hpost⟩ := foldlM_append_ok (processAirdrop env) pre
    (pname, r) post ⟨st1, []⟩ rsPre rsA hA hpre
  rw [hstep] at hstep2
  have hrsP2 : rsP2 = rsP := by
    simpa using hstep2.symm
  rw [hrsP2] at hpost
  have hnames := nodup_middle_not_mem_post Prod.fst pre (pname, r) post
    (hidx ▸ hnodup)
  have hA2 : lookup2 addr pname rsA.result = some v := by
    refine foldlM_ok_invariant_mem (processAirdrop env)
      (fun rs => lookup2 addr pname rs.result = some v) post rsP rsA ?_ hpost hentry
    intro b y b2 hy hstep3 hP
    rw [processAirdrop_other_proto env b y b2 addr pname hstep3
      (fun hc => hnames y hy (by simpa using hc.symm))]
    exact hP
  have hB2 : lookup2 addr pname rsB.result = some v := by
    refine foldlM_ok_invariant (processPoap env)
      (fun rs => lookup2 addr pname rs.result = some v) ?_ idx.poap_airdrops rsA rsB
      hB hA2
    intro b y b2 hstep3 hP
    rw [processPoap_other_proto env b y b2 addr pname hstep3 hpoap]
    exact hP
  rw [← hres]
  exact hB2

/-- A protocol past its cutoff never contributes a key to the result: its
own step is a no-op and every other step only touches other keys. -/
theorem check_airdrops_cutoff_absent (env : Env) (st0 : SyncState)
    (res : EligibilityResult) (stF : SyncState) (idx : AirdropIndex)
    (st1 : SyncState) (pname : String) (r : AirdropRecord)
    (pre post : List (String × AirdropRecord))
    (hrun : check_airdrops env st0 = .ok (res, stF))
    (hfetch : fetch_airdrops_metadata env.remote st0 = .ok (idx, st1))
    (hidx : idx.airdrops = pre ++ (pname, r) :: post)
    (hnodup : (idx.airdrops.map Prod.fst).Nodup)
    (hpoap : pname ≠ "poap")
    (hcut : pastCutoff r env.now = true) :
    ∀ a, lookup2 a pname res = none := by
  intro a
  unfold check_airdrops at hrun
  rw [hfetch] at hrun
  rw [show ((Except.ok (idx, st1) : Except String (AirdropIndex × SyncState)) >>=
      fun x => do
        let rs1 ← x.1.airdrops.foldlM (processAirdrop env) ⟨x.2, []⟩
        let rs2 ← x.1.poap_airdrops.foldlM (processPoap env) rs1
        .ok (rs2.result, rs2.st)) = (do
        let rs1 ← idx.airdrops.foldlM (processAirdrop env) ⟨st1, []⟩
        let rs2 ← idx.poap_airdrops.foldlM (processPoap env) rs1
        .ok (rs2.result, rs2.st)) from rfl] at hrun
  rw [except_bind_ok] at hrun
  obtain ⟨rsA, hA, hrun⟩ := hrun
  rw [except_bind_ok] at hrun
  obtain ⟨rsB, hB, hrun⟩ := hrun
  simp only [Except.ok.injEq, Prod.mk.injEq] at hrun
  obtain ⟨hres, _⟩ := hrun
  have hmemstep : ∀ b y b2, y ∈ idx.airdrops →
      processAirdrop env b y = .ok b2 →
      lookup2 a pname b.result = none → lookup2 a pname b2.result = none := by
    intro b y b2 hy hstep3 hP
    by_cases hq : y.1 = pname
    · have hyval : y = (pname, r) := by
        rw [hidx] at hy hnodup
        rcases List.mem_append.mp hy with hy2 | hy2
        · exact absurd (hq ▸ List.mem_map_of_mem Prod.fst hy2) (by
            rw [List.map_append, List.map_cons] at hnodup
            intro hc
            exact (List.disjoint_of_nodup_append hnodup) hc
              (List.mem_cons_self _ _))
        · rcases List.mem_cons.mp hy2 with hy3 | hy3
          · exact hy3
          · exact absurd (hq ▸ List.mem_map_of_mem Prod.fst hy3) (by
              rw [List.map_append, List.map_cons] at hnodup
              have h2 := List.Nodup.of_append_right hnodup
              rw [List.nodup_cons] at h2
              exact fun hc => h2.1 hc)
      · subst hyval
        unfold processAirdrop at hstep3
        rw [if_pos hcut] at hstep3
        simp only [Except.ok.injEq] at hstep3
        rw [← hstep3]
        exact hP
    · rw [processAirdrop_other_proto env b y b2 a pname hstep3
        (fun hc => hq hc.symm)]
      exact hP
  have hA2 : lookup2 a pname rsA.result = none := by
    refine foldlM_ok_invariant_mem (processAirdrop env)
      (fun rs => lookup2 a pname rs.result = none) idx.airdrops ⟨st1, []⟩ rsA
      hmemstep hA ?_
    simp [lookup2, alookup]
  have hB2 : lookup2 a pname rsB.result = none := by
    refine foldlM_ok_invariant (processPoap env)
      (fun rs => lookup2 a pname rs.result = none) ?_ idx.poap_airdrops rsA rsB
      hB hA2
    intro b y b2 hstep3 hP
    rw [processPoap_other_proto env b y b2 a pname hstep3 hpoap]
    exact hP
  rw [← hres]
  exact hB2

theorem processAirdrop_inserts (env : Env) (rs : RunState) (pname : String)
    (r : AirdropRecord) (content : String) (st2 : SyncState)
    (header : List Char) (dataLines : List (List Char)) (rows : List (String × ℚ))
    (hcut : pastCutoff r env.now = false)
    (hasset : r.asset_identifier ∈ rs.st.known_assets)
    (hdata : get_airdrop_data env.remote pname r rs.st = .ok (content, st2))
    (hlines : csvLines content = header :: dataLines)
    (hparse : parseDataRows dataLines = .ok rows)
    (hthresh : ¬ (sumAmounts (rows.map fun row =>
      (row.1, normalizeAmount pname row.2)) < env.threshold)) :
    processAirdrop env rs (pname, r) = .ok
      { st := st2,
        result := insertRows env pname r
          (rows.map fun row => (row.1, normalizeAmount pname row.2)) rs.result } := by
  unfold processAirdrop
  simp only [hcut, hasset, hdata, hlines, hparse, hthresh, Bool.false_eq_true,
    if_false, ite_false, not_true_eq_false, not_false_iff, if_true, ite_true]

theorem filter_map_fst {α β : Type} (rows : List (String × α)) (g : α → β)
    (addr : String) :
    (rows.map fun row => (row.1, g row.2)).filter
        (fun row => decide (row.1 = addr)) =
      (rows.filter (fun row => decide (row.1 = addr))).map
        fun row => (row.1, g row.2) := by
  induction rows with
  | nil => simp
  | cons row rest ih =>
    by_cases h : row.1 = addr <;> simp [h, ih]

/-- C1: for a caller address present (exactly once) in a processed token
airdrop protocol's payload, the emitted entry's `claimed` flag is true if
and only if a historical airdrop receive event exists for that exact
`(address, asset)` pair whose recorded amount lies in the closed interval
`[payload_amount, payload_amount + tolerance]`; any recorded amount outside
that band contributes nothing, so without a matching event in the band the
entry reports `claimed = false`. -/
theorem check_airdrops_claimed_iff (env : Env) (st0 : SyncState)
    (res : EligibilityResult) (stF : SyncState) (idx : AirdropIndex)
    (st1 : SyncState) (pname : String) (r : AirdropRecord)
    (pre post : List (String × AirdropRecord)) (rsPre : RunState)
    (content : String) (st2 : SyncState) (header : List Char)
    (dataLines : List (List Char)) (rows : List (String × ℚ))
    (addr : String) (amt : ℚ)
    (hrun : check_airdrops env st0 = .ok (res, stF))
    (hfetch : fetch_airdrops_metadata env.remote st0 = .ok (idx, st1))
    (hidx : idx.airdrops = pre ++ (pname, r) :: post)
    (hnodup : (idx.airdrops.map Prod.fst).Nodup)
    (hpoap : pname ≠ "poap")
    (hpre : List.foldlM (processAirdrop env) ⟨st1, []⟩ pre = .ok rsPre)
    (hcut : pastCutoff r env.now = false)
    (hasset : r.asset_identifier ∈ rsPre.st.known_assets)
    (hdata : get_airdrop_data env.remote pname r rsPre.st = .ok (content, st2))
    (hlines : csvLines content = [header] ++ dataLines)
    (hparse : parseDataRows dataLines = .ok rows)
    (hthresh : ¬ (sumAmounts (rows.map fun row =>
      (row.1, normalizeAmount pname row.2)) < env.threshold))
    (haddr : addr ∈ env.addresses)
    (honce : rows.filter (fun row => decide (row.1 = addr)) = [(addr, amt)]) :
    ∃ e : AirdropEntry,
      lookup2 addr pname res = some (.airdrop e) ∧
      e.amount = normalizeAmount pname amt ∧
      (e.claimed = true ↔ ∃ ev ∈ env.events,
        ev.location_label = addr ∧ ev.asset = r.asset_identifier ∧
        ev.event_type = "receive" ∧ ev.event_subtype = "airdrop" ∧
        e.amount ≤ ev.amount ∧ ev.amount ≤ e.amount + env.tolerance) := by
  have hstep := processAirdrop_inserts env rsPre pname r content st2 header
    dataLines rows hcut hasset hdata (by simpa using hlines) hparse hthresh
  have hfilter2 : (rows.map fun row =>
      (row.1, normalizeAmount pname row.2)).filter
        (fun row => decide (row.1 = addr)) = [(addr, normalizeAmount pname amt)] := by
    rw [filter_map_fst rows (normalizeAmount pname) addr, honce]
    rfl
  have hentry := insertRows_hit env pname r
    (rows.map fun row => (row.1, normalizeAmount pname row.2)) rsPre.result addr
    (normalizeAmount pname amt) hfilter2 haddr
  have hsurv := check_airdrops_binding_survives env st0 res stF idx st1 pname r
    pre post rsPre _ addr (.airdrop (entryFor env r addr (normalizeAmount pname amt)))
    hrun hfetch hidx hnodup hpoap hpre hstep hentry
  refine ⟨entryFor env r addr (normalizeAmount pname amt), hsurv, rfl, ?_⟩
  simp only [entryFor, claimedStatus, List.any_eq_true, decide_eq_true_eq]

/-- Record of the concrete wei denominated (grain) scenario. -/
def x7Record : AirdropRecord :=
  ⟨"a/grain.csv", "h7", "GRAIN", "https://g", "Grain", "g.svg", none, none, none⟩

/-- Index of the concrete wei denominated scenario. -/
def x7Index : AirdropIndex := ⟨[("grain", x7Record)], []⟩

/-- Remote of the concrete wei denominated scenario: the grain payload row
carries the raw wei integer pinned by the tests. -/
def x7Remote : Remote :=
  ⟨"e7", x7Index, [("a/grain.csv", "address,tokens\nA,16301717650649890035791\n")], []⟩

/-- Environment of the concrete wei denominated scenario. -/
def x7Env : Env := ⟨x7Remote, ["A"], [], 1/10, 100, 1⟩

/-- Empty initial cache of the concrete wei denominated scenario. -/
def x7State : SyncState := ⟨none, none, [], [], [], [], ["GRAIN"], [], []⟩

/-- Result of the concrete wei denominated scenario: the emitted amount is
the payload amount divided by `10 ^ 18`. -/
def x7Res : EligibilityResult :=
  [("A", [("grain", .airdrop
    ⟨(16301717650649890035791 : ℚ) / 10 ^ 18, "GRAIN", "https://g", false, none⟩)])]

/-- Final cache state of the concrete wei denominated scenario. -/
def x7StF : SyncState :=
  ⟨some "e7", some (serializeIndex x7Index), [("grain.csv", "h7")], [],
    [("grain.csv", "address,tokens\nA,16301717650649890035791\n")], [], ["GRAIN"], [],
    [AIRDROPS_INDEX, payloadUrl "a/grain.csv"]⟩

/-- Counterexample to the claim that the emitted amount always equals the
nominal payload amount: in the `grain` protocol run the payload row for
address `A` records `16301717650649890035791`, yet the emitted entry's
amount is that value divided by `10 ^ 18` (the wei normalization pinned by
the tests), which differs from the recorded nominal amount. -/
theorem check_airdrops_nominal_amount_counterexample :
    ∃ res stF e,
      check_airdrops x7Env x7State = Except.ok (res, stF) ∧
      alookup "a/grain.csv" x7Env.remote.csv_payloads =
        some "address,tokens\nA,16301717650649890035791\n" ∧
      csvLines "address,tokens\nA,16301717650649890035791\n" =
        ["address,tokens".data, "A,16301717650649890035791".data] ∧
      parseDataRows ["A,16301717650649890035791".data] =
        .ok [("A", (16301717650649890035791 : ℚ))] ∧
      lookup2 "A" "grain" res = some (.airdrop e) ∧
      e.amount = (16301717650649890035791 : ℚ) / 10 ^ 18 ∧
      e.amount ≠ (16301717650649890035791 : ℚ) := by
  refine ⟨x7Res, x7StF,
    ⟨(16301717650649890035791 : ℚ) / 10 ^ 18, "GRAIN", "https://g", false, none⟩,
    ?_, ?_, ?_, ?_, ?_, ?_, ?_⟩
  · with_unfolding_all rfl
  · decide
  · decide
  · decide
  · rfl
  · rfl
  · norm_num

/-- C7: for a caller address present (exactly once) in a processed token
airdrop protocol's payload, `check_airdrops` emits an entry carrying the
resolved asset identifier and the claim URL of the record, and whose
amount is the payload amount normalized for denomination: equal to the
nominal recorded amount for every protocol outside the wei denominated
list, and equal to the recorded amount divided by `10 ^ 18` for the wei
denominated protocols (`grain`, `cow_gnosis`). -/
theorem check_airdrops_entry_fields (env : Env) (st0 : SyncState)
    (res : EligibilityResult) (stF : SyncState) (idx : AirdropIndex)
    (st1 : SyncState) (pname : String) (r : AirdropRecord)
    (pre post : List (String × AirdropRecord)) (rsPre : RunState)
    (content : String) (st2 : SyncState) (header : List Char)
    (dataLines : List (List Char)) (rows : List (String × ℚ))
    (addr : String) (amt : ℚ)
    (hrun : check_airdrops env st0 = .ok (res, stF))
    (hfetch : fetch_airdrops_metadata env.remote st0 = .ok (idx, st1))
    (hidx : idx.airdrops = pre ++ (pname, r) :: post)
    (hnodup : (idx.airdrops.map Prod.fst).Nodup)
    (hpoap : pname ≠ "poap")
    (hpre : List.foldlM (processAirdrop env) ⟨st1, []⟩ pre = .ok rsPre)
    (hcut : pastCutoff r env.now = false)
    (hasset : r.asset_identifier ∈ rsPre.st.known_assets)
    (hdata : get_airdrop_data env.remote pname r rsPre.st = .ok (content, st2))
    (hlines : csvLines content = [header] ++ dataLines)
    (hparse : parseDataRows dataLines = .ok rows)
    (hthresh : ¬ (sumAmounts (rows.map fun row =>
      (row.1, normalizeAmount pname row.2)) < env.threshold))
    (haddr : addr ∈ env.addresses)
    (honce : rows.filter (fun row => decide (row.1 = addr)) = [(addr, amt)]) :
    lookup2 addr pname res =
      some (.airdrop (entryFor env r addr (normalizeAmount pname amt))) ∧
    (entryFor env r addr (normalizeAmount pname amt)).asset = r.asset_identifier ∧
    (entryFor env r addr (normalizeAmount pname amt)).link = r.url ∧
    (pname ∉ weiDenominatedProtocols →
      (entryFor env r addr (normalizeAmount pname amt)).amount = amt) ∧
    (pname ∈ weiDenominatedProtocols →
      (entryFor env r addr (normalizeAmount pname amt)).amount = amt / 10 ^ 18) := by
  have hstep := processAirdrop_inserts env rsPre pname r content st2 header
    dataLines rows hcut hasset hdata (by simpa using hlines) hparse hthresh
  have hfilter2 : (rows.map fun row =>
      (row.1, normalizeAmount pname row.2)).filter
        (fun row => decide (row.1 = addr)) = [(addr, normalizeAmount pname amt)] := by
    rw [filter_map_fst rows (normalizeAmount pname) addr, honce]
    rfl
  have hentry := insertRows_hit env pname r
    (rows.map fun row => (row.1, normalizeAmount pname row.2)) rsPre.result addr
    (normalizeAmount pname amt) hfilter2 haddr
  have hsurv := check_airdrops_binding_survives env st0 res stF idx st1 pname r
    pre post rsPre _ addr (.airdrop (entryFor env r addr (normalizeAmount pname amt)))
    hrun hfetch hidx hnodup hpoap hpre hstep hentry
  refine ⟨hsurv, rfl, rfl, ?_, ?_⟩
  · intro hmem
    simp [entryFor, normalizeAmount, hmem]
  · intro hmem
    simp [entryFor, normalizeAmount, hmem]

/-- Concrete instantiation of `check_airdrops_entry_fields`: the one
protocol scenario with nominal amount 400 for a protocol outside the wei
denominated list, so the emitted amount equals the nominal amount. -/
theorem check_airdrops_entry_fields_witness :
    lookup2 "A" "uni" w1Res =
      some (.airdrop (entryFor w1Env w1Record "A" (normalizeAmount "uni" 400))) ∧
    (entryFor w1Env w1Record "A" (normalizeAmount "uni" 400)).asset =
      w1Record.asset_identifier ∧
    (entryFor w1Env w1Record "A" (normalizeAmount "uni" 400)).link = w1Record.url ∧
    ("uni" ∉ weiDenominatedProtocols →
      (entryFor w1Env w1Record "A" (normalizeAmount "uni" 400)).amount = 400) ∧
    ("uni" ∈ weiDenominatedProtocols →
      (entryFor w1Env w1Record "A" (normalizeAmount "uni" 400)).amount = 400 / 10 ^ 18) :=
  check_airdrops_entry_fields w1Env w1State w1Res w1St2 w1Index w1St1 "uni" w1Record
    [] [] ⟨w1St1, []⟩ "address,tokens\nA,400\n" w1St2 ("address,tokens".data)
    ["A,400".data] [("A", 400)] "A" 400
    (by with_unfolding_all decide) (by with_unfolding_all decide)
    (by decide) (by decide) (by decide) (by decide) (by decide)
    (by decide) (by with_unfolding_all decide) (by decide)
    (by decide) (by with_unfolding_all decide) (by decide) (by decide)

/-- Concrete instantiation of `check_airdrops_claimed_iff`: one protocol,
nominal amount 400, tolerance 1/10, recorded event 400 + 1/40 inside the
band, so the emitted entry is claimed. -/
theorem check_airdrops_claimed_iff_witness :
    ∃ e : AirdropEntry,
      lookup2 "A" "uni" w1Res = some (.airdrop e) ∧
      e.amount = normalizeAmount "uni" 400 ∧
      (e.claimed = true ↔ ∃ ev ∈ w1Env.events,
        ev.location_label = "A" ∧ ev.asset = w1Record.asset_identifier ∧
        ev.event_type = "receive" ∧ ev.event_subtype = "airdrop" ∧
        e.amount ≤ ev.amount ∧ ev.amount ≤ e.amount + w1Env.tolerance) :=
  check_airdrops_claimed_iff w1Env w1State w1Res w1St2 w1Index w1St1 "uni" w1Record
    [] [] ⟨w1St1, []⟩ "address,tokens\nA,400\n" w1St2 ("address,tokens".data)
    ["A,400".data] [("A", 400)] "A" 400
    (by with_unfolding_all decide) (by with_unfolding_all decide)
    (by decide) (by decide) (by decide) (by decide) (by decide)
    (by decide) (by with_unfolding_all decide) (by decide)
    (by decide) (by with_unfolding_all decide) (by decide) (by decide)

/-- Record of the concrete cutoff scenario, carrying the cutoff time pinned
by the tests. -/
def w4Record : AirdropRecord :=
  ⟨"a/shutter.csv", "h4", "SHU", "https://s", "Shutter", "s.svg", none,
    some 1721000000, none⟩

/-- Index of the concrete cutoff scenario. -/
def w4Index : AirdropIndex := ⟨[("shutter", w4Record)], []⟩

/-- Remote of the concrete cutoff scenario. -/
def w4Remote : Remote :=
  ⟨"e4", w4Index, [("a/shutter.csv", "address,tokens\nA,400\n")], []⟩

/-- Environment of the concrete cutoff scenario: the current time equals the
cutoff time exactly. -/
def w4Env : Env := ⟨w4Remote, ["A"], [], 1/10, 1721000000, 1⟩

/-- Empty initial cache of the concrete cutoff scenario. -/
def w4State : SyncState := ⟨none, none, [], [], [], [], ["SHU"], [], []⟩

/-- Cache state after the index fetch of the concrete cutoff scenario. -/
def w4St1 : SyncState :=
  ⟨some "e4", some (serializeIndex w4Index), [], [], [], [], ["SHU"], [],
    [AIRDROPS_INDEX]⟩

/-- Final cache state of the concrete cutoff scenario. -/
def w4StF : SyncState :=
  ⟨some "e4", some (serializeIndex w4Index), [("shutter.csv", "h4")], [],
    [("shutter.csv", "address,tokens\nA,400\n")], [], ["SHU"], [],
    [AIRDROPS_INDEX, payloadUrl "a/shutter.csv"]⟩

/-- Result of the concrete cutoff scenario: the protocol is present even
though the current time equals the cutoff time. -/
def w4Res : EligibilityResult :=
  [("A", [("shutter", .airdrop ⟨400, "SHU", "https://s", false, none⟩)])]

/-- Counterexample to the claim that a protocol with `cutoff_time = T` is
absent from the results at time `T`: in a run whose current time is exactly
the cutoff time `1721000000` the `shutter` protocol is still present in the
result, matching the test expectation that pins exclusion as strict
(`now > cutoff`). -/
theorem check_airdrops_cutoff_at_T_counterexample :
    w4Record.cutoff_time = some 1721000000 ∧
    w4Env.now = 1721000000 ∧
    ∃ stF, check_airdrops w4Env w4State = Except.ok (w4Res, stF) ∧
      lookup2 "A" "shutter" w4Res =
        some (.airdrop ⟨400, "SHU", "https://s", false, none⟩) :=
  ⟨rfl, rfl, w4StF, by with_unfolding_all rfl, rfl⟩

/-- C4: a protocol carrying `cutoff_time = T` is excluded from the result
exactly when the current time is strictly past the cutoff: at any time up
to and including `T` its payload rows still produce entries, and at any
time after `T` no address carries a binding for it. -/
theorem check_airdrops_cutoff_strict (env : Env) (st0 : SyncState)
    (res : EligibilityResult) (stF : SyncState) (idx : AirdropIndex)
    (st1 : SyncState) (pname : String) (r : AirdropRecord) (T : Nat)
    (pre post : List (String × AirdropRecord)) (rsPre : RunState)
    (content : String) (st2 : SyncState) (header : List Char)
    (dataLines : List (List Char)) (rows : List (String × ℚ))
    (addr : String) (amt : ℚ)
    (hct : r.cutoff_time = some T)
    (hrun : check_airdrops env st0 = .ok (res, stF))
    (hfetch : fetch_airdrops_metadata env.remote st0 = .ok (idx, st1))
    (hidx : idx.airdrops = pre ++ (pname, r) :: post)
    (hnodup : (idx.airdrops.map Prod.fst).Nodup)
    (hpoap : pname ≠ "poap")
    (hpre : List.foldlM (processAirdrop env) ⟨st1, []⟩ pre = .ok rsPre)
    (hasset : r.asset_identifier ∈ rsPre.st.known_assets)
    (hdata : get_airdrop_data env.remote pname r rsPre.st = .ok (content, st2))
    (hlines : csvLines content = [header] ++ dataLines)
    (hparse : parseDataRows dataLines = .ok rows)
    (hthresh : ¬ (sumAmounts (rows.map fun row =>
      (row.1, normalizeAmount pname row.2)) < env.threshold))
    (haddr : addr ∈ env.addresses)
    (honce : rows.filter (fun row => decide (row.1 = addr)) = [(addr, amt)]) :
    (env.now ≤ T →
      lookup2 addr pname res =
        some (.airdrop (entryFor env r addr (normalizeAmount pname amt)))) ∧
    (env.now > T → ∀ a, lookup2 a pname res = none) := by
  constructor
  · intro hle
    have hcut : pastCutoff r env.now = false := by
      unfold pastCutoff
      rw [hct]
      simpa using hle
    have hstep := processAirdrop_inserts env rsPre pname r content st2 header
      dataLines rows hcut hasset hdata (by simpa using hlines) hparse hthresh
    have hfilter2 : (rows.map fun row =>
        (row.1, normalizeAmount pname row.2)).filter
          (fun row => decide (row.1 = addr)) = [(addr, normalizeAmount pname amt)] := by
      rw [filter_map_fst rows (normalizeAmount pname) addr, honce]
      rfl
    have hentry := insertRows_hit env pname r
      (rows.map fun row => (row.1, normalizeAmount pname row.2)) rsPre.result addr
      (normalizeAmount pname amt) hfilter2 haddr
    exact check_airdrops_binding_survives env st0 res stF idx st1 pname r
      pre post rsPre _ addr (.airdrop (entryFor env r addr (normalizeAmount pname amt)))
      hrun hfetch hidx hnodup hpoap hpre hstep hentry
  · intro hgt
    have hcut : pastCutoff r env.now = true := by
      unfold pastCutoff
      rw [hct]
      simpa using hgt
    exact check_airdrops_cutoff_absent env st0 res stF idx st1 pname r pre post
      hrun hfetch hidx hnodup hpoap hcut

/-- Concrete instantiation of `check_airdrops_cutoff_strict`: the shutter
scenario whose current time equals the cutoff time, so the presence branch
applies with the cutoff not yet passed. -/
theorem check_airdrops_cutoff_strict_witness :
    (w4Env.now ≤ 1721000000 →
      lookup2 "A" "shutter" w4Res =
        some (.airdrop (entryFor w4Env w4Record "A" (normalizeAmount "shutter" 400)))) ∧
    (w4Env.now > 1721000000 → ∀ a, lookup2 a "shutter" w4Res = none) :=
  check_airdrops_cutoff_strict w4Env w4State w4Res w4StF w4Index w4St1 "shutter"
    w4Record 1721000000 [] [] ⟨w4St1, []⟩ "address,tokens\nA,400\n" w4StF
    ("address,tokens".data) ["A,400".data] [("A", 400)] "A" 400
    (by decide) (by with_unfolding_all rfl) (by with_unfolding_all rfl)
    (by decide) (by decide) (by decide) (by decide) (by decide)
    (by with_unfolding_all rfl) (by decide) (by decide)
    (by with_unfolding_all decide) (by decide) (by decide)

theorem nodup_middle_not_mem_pre {α β : Type} (f : α → β) (pre : List α) (x : α)
    (post : List α) (hnodup : ((pre ++ x :: post).map f).Nodup) :
    ∀ y ∈ pre, f y ≠ f x := by
  intro y hy
  rw [List.map_append] at hnodup
  have hdisj := List.disjoint_of_nodup_append hnodup
  intro hc
  exact hdisj (hc ▸ List.mem_map_of_mem f hy) (by simp)

theorem processAirdrop_invalid (env : Env) (rs : RunState) (pname : String)
    (r : AirdropRecord) (content : String) (st2 : SyncState)
    (header : List Char) (dataLines : List (List Char)) (badRow : List String)
    (hcut : pastCutoff r env.now = false)
    (hasset : r.asset_identifier ∈ rs.st.known_assets)
    (hdata : get_airdrop_data env.remote pname r rs.st = .ok (content, st2))
    (hlines : csvLines content = header :: dataLines)
    (hparse : parseDataRows dataLines = .error badRow) :
    processAirdrop env rs (pname, r) =
      .ok { rs with st := addWarning st2 (invalidRowWarning pname badRow) } := by
  unfold processAirdrop
  simp only [hcut, hasset, hdata, hlines, hparse, Bool.false_eq_true, if_false,
    ite_false, not_true_eq_false, not_false_iff, if_true, ite_true]

theorem warnings_mono_processAirdrop (env : Env) (rs : RunState)
    (p : String × AirdropRecord) (rs2 : RunState)
    (h : processAirdrop env rs p = .ok rs2) :
    ∀ w ∈ rs.st.warnings, w ∈ rs2.st.warnings := by
  intro w hw
  have hgadw : ∀ content st1,
      get_airdrop_data env.remote p.1 p.2 rs.st = .ok (content, st1) →
      w ∈ st1.warnings := by
    intro content st1 hgad
    rcases gad_state_cases env.remote p.1 p.2 rs.st content st1 hgad with h3 | h3 <;>
      subst h3
    · exact hw
    · exact hw
  rcases processAirdrop_cases env rs p rs2 h with h2 | h2 |
    ⟨content, st1, hgad, h2 | ⟨b, h2⟩ | ⟨header, dataLines, rows, _, _, h2⟩⟩ <;>
    subst h2
  · exact hw
  · exact List.mem_append_left _ hw
  · exact hgadw content st1 hgad
  · exact List.mem_append_left _ (hgadw content st1 hgad)
  · exact hgadw content st1 hgad

theorem warnings_mono_processPoap (env : Env) (rs : RunState)
    (p : String × PoapRecord) (rs2 : RunState)
    (h : processPoap env rs p = .ok rs2) :
    ∀ w ∈ rs.st.warnings, w ∈ rs2.st.warnings := by
  intro w hw
  obtain ⟨content, st1, hgpd, h2⟩ := processPoap_cases env rs p rs2 h
  subst h2
  rcases gpd_state_cases env.remote p.1 p.2 rs.st content st1 hgpd with h3 | h3 <;>
    subst h3
  · exact hw
  · exact hw

theorem parseDataRows_append_empty (valid : List (List Char))
    (rows : List (String × ℚ)) (h : parseDataRows valid = .ok rows) :
    parseDataRows (valid ++ [[]]) = .error [] := by
  induction valid generalizing rows with
  | nil => rfl
  | cons line rest ih =>
    cases hf : rowFields line with
    | nil => simp [parseDataRows, hf] at h
    | cons f0 fs =>
      cases fs with
      | nil => simp [parseDataRows, hf] at h
      | cons f1 fs2 =>
        cases hd : parseDecimal f1 with
        | none => simp [parseDataRows, hf, hd] at h
        | some q =>
          cases hrest : parseDataRows rest with
          | error e => simp [parseDataRows, hf, hd, hrest] at h
          | ok rows2 =>
            rw [List.cons_append]
            simp only [parseDataRows, hf, hd]
            rw [ih rows2 hrest]

/-- Run level effect of a CSV payload with an invalid row: the protocol's
own step succeeds, appending exactly one warning and leaving the result
untouched; the protocol contributes no binding to the final result; and
the warning survives into the final state of `check_airdrops`. -/
theorem run_skip_invalid_row (env : Env) (st0 : SyncState)
    (res : EligibilityResult) (stF : SyncState) (idx : AirdropIndex)
    (st1 : SyncState) (pname : String) (r : AirdropRecord)
    (pre post : List (String × AirdropRecord)) (rsPre : RunState)
    (content : String) (st2 : SyncState) (header : List Char)
    (dataLines : List (List Char)) (badRow : List String)
    (hrun : check_airdrops env st0 = .ok (res, stF))
    (hfetch : fetch_airdrops_metadata env.remote st0 = .ok (idx, st1))
    (hidx : idx.airdrops = pre ++ (pname, r) :: post)
    (hnodup : (idx.airdrops.map Prod.fst).Nodup)
    (hpoap : pname ≠ "poap")
    (hpre : List.foldlM (processAirdrop env) ⟨st1, []⟩ pre = .ok rsPre)
    (hcut : pastCutoff r env.now = false)
    (hasset : r.asset_identifier ∈ rsPre.st.known_assets)
    (hdata : get_airdrop_data env.remote pname r rsPre.st = .ok (content, st2))
    (hlines : csvLines content = header :: dataLines)
    (hparse : parseDataRows dataLines = .error badRow) :
    processAirdrop env rsPre (pname, r) =
      .ok { rsPre with st := addWarning st2 (invalidRowWarning pname badRow) } ∧
    (∀ a, lookup2 a pname res = none) ∧
    invalidRowWarning pname badRow ∈ stF.warnings := by
  have hstepEq := processAirdrop_invalid env rsPre pname r content st2 header
    dataLines badRow hcut hasset hdata hlines hparse
  refine ⟨hstepEq, ?_⟩
  unfold check_airdrops at hrun
  rw [hfetch] at hrun
  rw [show ((Except.ok (idx, st1) : Except String (AirdropIndex × SyncState)) >>=
      fun x => do
        let rs1 ← x.1.airdrops.foldlM (processAirdrop env) ⟨x.2, []⟩
        let rs2 ← x.1.poap_airdrops.foldlM (processPoap env) rs1
        .ok (rs2.result, rs2.st)) = (do
        let rs1 ← idx.airdrops.foldlM (processAirdrop env) ⟨st1, []⟩
        let rs2 ← idx.poap_airdrops.foldlM (processPoap env) rs1
        .ok (rs2.result, rs2.st)) from rfl] at hrun
  rw [except_bind_ok] at hrun
  obtain ⟨rsA, hA, hrun⟩ := hrun
  rw [except_bind_ok] at hrun
  obtain ⟨rsB, hB, hrun⟩ := hrun
  simp only [Except.ok.injEq, Prod.mk.injEq] at hrun
  obtain ⟨hres, hst⟩ := hrun
  rw [hidx] at hA
  obtain ⟨rsP2, hstep2, hpost⟩ := foldlM_append_ok (processAirdrop env) pre
    (pname, r) post ⟨st1, []⟩ rsPre rsA hA hpre
  rw [hstepEq] at hstep2
  have hrsP2 : rsP2 =
      { rsPre with st := addWarning st2 (invalidRowWarning pname badRow) } := by
    simpa using hstep2.symm
  rw [hrsP2] at hpost
  have hnamesPost := nodup_middle_not_mem_post Prod.fst pre (pname, r) post
    (hidx ▸ hnodup)
  have hnamesPre := nodup_middle_not_mem_pre Prod.fst pre (pname, r) post
    (hidx ▸ hnodup)
  constructor
  · intro a
    have h0 : lookup2 a pname (⟨st1, []⟩ : RunState).result = none := by
      simp [lookup2, alookup]
    have hpreNone : lookup2 a pname rsPre.result = none := by
      refine foldlM_ok_invariant_mem (processAirdrop env)
        (fun rs => lookup2 a pname rs.result = none) pre ⟨st1, []⟩ rsPre ?_ hpre h0
      intro b y b2 hy hstep3 hP
      rw [processAirdrop_other_proto env b y b2 a pname hstep3
        (fun hc => hnamesPre y hy (by simpa using hc.symm))]
      exact hP
    have hpostNone : lookup2 a pname rsA.result = none := by
      refine foldlM_ok_invariant_mem (processAirdrop env)
        (fun rs => lookup2 a pname rs.result = none) post _ rsA ?_ hpost hpreNone
      intro b y b2 hy hstep3 hP
      rw [processAirdrop_other_proto env b y b2 a pname hstep3
        (fun hc => hnamesPost y hy (by simpa using hc.symm))]
      exact hP
    have hpoapNone : lookup2 a pname rsB.result = none := by
      refine foldlM_ok_invariant (processPoap env)
        (fun rs => lookup2 a pname rs.result = none) ?_ idx.poap_airdrops rsA rsB
        hB hpostNone
      intro b y b2 hstep3 hP
      rw [processPoap_other_proto env b y b2 a pname hstep3 hpoap]
      exact hP
    rw [← hres]
    exact hpoapNone
  · have hw0 : invalidRowWarning pname badRow ∈
        ({ rsPre with
          st := addWarning st2 (invalidRowWarning pname badRow) } : RunState).st.warnings := by
      simp [addWarning]
    have hw1 : invalidRowWarning pname badRow ∈ rsA.st.warnings := by
      refine foldlM_ok_invariant_mem (processAirdrop env)
        (fun rs => invalidRowWarning pname badRow ∈ rs.st.warnings) post _ rsA ?_
        hpost hw0
      intro b y b2 _ hstep3 hP
      exact warnings_mono_processAirdrop env b y b2 hstep3 _ hP
    have hw2 : invalidRowWarning pname badRow ∈ rsB.st.warnings := by
      refine foldlM_ok_invariant (processPoap env)
        (fun rs => invalidRowWarning pname badRow ∈ rs.st.warnings) ?_
        idx.poap_airdrops rsA rsB hB hw1
      intro b y b2 hstep3 hP
      exact warnings_mono_processPoap env b y b2 hstep3 _ hP
    rw [← hst]
    exact hw2

/-- Record of the concrete fatal malformed payload scenario, mirroring
`test_airdrop_fail`. -/
def x5Record : AirdropRecord :=
  ⟨"a/bad.csv", "h5", "BAD", "https://b", "Bad", "b.svg", none, none, none⟩

/-- Index of the concrete fatal malformed payload scenario. -/
def x5Index : AirdropIndex := ⟨[("bad", x5Record)], []⟩

/-- Remote of the concrete fatal malformed payload scenario: the payload is
reachable but does not start with the `address` CSV header. -/
def x5Remote : Remote := ⟨"e5", x5Index, [("a/bad.csv", "<>invalid CSV<>")], []⟩

/-- Environment of the concrete fatal malformed payload scenario. -/
def x5Env : Env := ⟨x5Remote, ["A"], [], 1/10, 100, 1⟩

/-- Empty initial cache of the concrete fatal malformed payload scenario. -/
def x5State : SyncState := ⟨none, none, [], [], [], [], ["BAD"], [], []⟩

/-- First record of the concrete invalid row scenario: its CSV carries two
valid rows and a trailing empty row. -/
def w5RecordA : AirdropRecord :=
  ⟨"a/inv.csv", "h5a", "INV", "https://i", "Inv", "i.svg", none, none, none⟩

/-- Second record of the concrete invalid row scenario: a well formed CSV. -/
def w5RecordB : AirdropRecord :=
  ⟨"a/ok2.csv", "h5b", "OK2", "https://o", "Ok2", "o.svg", none, none, none⟩

/-- Index of the concrete invalid row scenario. -/
def w5Index : AirdropIndex := ⟨[("inv", w5RecordA), ("ok2", w5RecordB)], []⟩

/-- Remote of the concrete invalid row scenario. -/
def w5Remote : Remote :=
  ⟨"e5w", w5Index,
    [("a/inv.csv", "address,tokens\nADDR2,123\nADDR2,123\n\n"),
     ("a/ok2.csv", "address,tokens\nA,400\n")], []⟩

/-- Environment of the concrete invalid row scenario; `ADDR2`, the address
of the valid rows of the skipped CSV, is among the caller addresses. -/
def w5Env : Env := ⟨w5Remote, ["A", "ADDR2"], [], 1/10, 100, 1⟩

/-- Empty initial cache of the concrete invalid row scenario. -/
def w5State : SyncState := ⟨none, none, [], [], [], [], ["INV", "OK2"], [], []⟩

/-- Cache state after the index fetch of the concrete invalid row scenario. -/
def w5St1 : SyncState :=
  ⟨some "e5w", some (serializeIndex w5Index), [], [], [], [], ["INV", "OK2"], [],
    [AIRDROPS_INDEX]⟩

/-- Cache state after downloading the first (invalid) CSV of the concrete
invalid row scenario. -/
def w5St2mid : SyncState :=
  ⟨some "e5w", some (serializeIndex w5Index), [("inv.csv", "h5a")], [],
    [("inv.csv", "address,tokens\nADDR2,123\nADDR2,123\n\n")], [],
    ["INV", "OK2"], [], [AIRDROPS_INDEX, payloadUrl "a/inv.csv"]⟩

/-- Final cache state of the concrete invalid row scenario: one warning,
both payloads downloaded. -/
def w5StF : SyncState :=
  ⟨some "e5w", some (serializeIndex w5Index),
    [("inv.csv", "h5a"), ("ok2.csv", "h5b")], [],
    [("inv.csv", "address,tokens\nADDR2,123\nADDR2,123\n\n"),
     ("ok2.csv", "address,tokens\nA,400\n")], [],
    ["INV", "OK2"], [invalidRowWarning "inv" []],
    [AIRDROPS_INDEX, payloadUrl "a/inv.csv", payloadUrl "a/ok2.csv"]⟩

/-- Result of the concrete invalid row scenario: only the second protocol
contributes entries; the skipped protocol's addresses get nothing. -/
def w5Res : EligibilityResult :=
  [("A", [("ok2", .airdrop ⟨400, "OK2", "https://o", false, none⟩)])]

/-- Counterexample to the claim that an unreachable or malformed remote
payload file never raises to the caller: mirroring `test_airdrop_fail`, a
payload that does not start with the `address` CSV header makes the whole
`check_airdrops` invocation fail with a `RemoteError`. -/
theorem check_airdrops_malformed_fatal_counterexample :
    alookup "a/bad.csv" x5Env.remote.csv_payloads = some "<>invalid CSV<>" ∧
    hasPrefix ("address".data) "<>invalid CSV<>".data = false ∧
    check_airdrops x5Env x5State = .error "Invalid CSV file for bad.csv" :=
  ⟨rfl, rfl, by with_unfolding_all rfl⟩

/-- C5: a malformed CSV body (an invalid row behind a well formed header)
is never fatal: the offending protocol's step succeeds while only
appending one warning and leaving the accumulated result untouched, the
protocol contributes no entry to the final result of `check_airdrops`, and
the warning reaches the final message sink, with the surrounding run still
returning a result.  (The stronger claim that an unreachable or header
malformed payload file is also non fatal is false; see the
counterexample.) -/
theorem check_airdrops_invalid_csv_skips_protocol (env : Env) (st0 : SyncState)
    (res : EligibilityResult) (stF : SyncState) (idx : AirdropIndex)
    (st1 : SyncState) (pname : String) (r : AirdropRecord)
    (pre post : List (String × AirdropRecord)) (rsPre : RunState)
    (content : String) (st2 : SyncState) (header : List Char)
    (dataLines : List (List Char)) (badRow : List String)
    (hrun : check_airdrops env st0 = .ok (res, stF))
    (hfetch : fetch_airdrops_metadata env.remote st0 = .ok (idx, st1))
    (hidx : idx.airdrops = pre ++ (pname, r) :: post)
    (hnodup : (idx.airdrops.map Prod.fst).Nodup)
    (hpoap : pname ≠ "poap")
    (hpre : List.foldlM (processAirdrop env) ⟨st1, []⟩ pre = .ok rsPre)
    (hcut : pastCutoff r env.now = false)
    (hasset : r.asset_identifier ∈ rsPre.st.known_assets)
    (hdata : get_airdrop_data env.remote pname r rsPre.st = .ok (content, st2))
    (hlines : csvLines content = header :: dataLines)
    (hparse : parseDataRows dataLines = .error badRow) :
    processAirdrop env rsPre (pname, r) =
      .ok { rsPre with st := addWarning st2 (invalidRowWarning pname badRow) } ∧
    (∀ a, lookup2 a pname res = none) ∧
    invalidRowWarning pname badRow ∈ stF.warnings :=
  run_skip_invalid_row env st0 res stF idx st1 pname r pre post rsPre content
    st2 header dataLines badRow hrun hfetch hidx hnodup hpoap hpre hcut hasset
    hdata hlines hparse

/-- Concrete instantiation of `check_airdrops_invalid_csv_skips_protocol`:
the two protocol scenario whose first CSV carries an invalid row; the
second protocol is still processed and the run returns a result. -/
theorem check_airdrops_invalid_csv_skips_protocol_witness :
    processAirdrop w5Env ⟨w5St1, []⟩ ("inv", w5RecordA) =
      .ok { (⟨w5St1, []⟩ : RunState) with
        st := addWarning w5St2mid (invalidRowWarning "inv" []) } ∧
    (∀ a, lookup2 a "inv" w5Res = none) ∧
    invalidRowWarning "inv" [] ∈ w5StF.warnings :=
  check_airdrops_invalid_csv_skips_protocol w5Env w5State w5Res w5StF w5Index
    w5St1 "inv" w5RecordA [] [("ok2", w5RecordB)] ⟨w5St1, []⟩
    "address,tokens\nADDR2,123\nADDR2,123\n\n" w5St2mid ("address,tokens".data)
    ["ADDR2,123".data, "ADDR2,123".data, ([] : List Char)] ([] : List String)
    (by with_unfolding_all rfl) (by with_unfolding_all rfl)
    (by decide) (by decide) (by decide) (by decide) (by decide) (by decide)
    (by with_unfolding_all rfl) (by decide) (by decide)

/-- Counterexample to the claim that the valid rows of a CSV with a
trailing empty row are still processed: in the concrete run the two valid
rows name `ADDR2`, a caller address, yet the result holds no binding for
the protocol; the run produced exactly the one empty marker warning. -/
theorem check_airdrops_trailing_empty_counterexample :
    ∃ res stF,
      check_airdrops w5Env w5State = Except.ok (res, stF) ∧
      "ADDR2" ∈ csvAddresses "address,tokens\nADDR2,123\nADDR2,123\n\n" ∧
      "ADDR2" ∈ w5Env.addresses ∧
      lookup2 "ADDR2" "inv" res = none ∧
      stF.warnings = [invalidRowWarning "inv" []] :=
  ⟨w5Res, w5StF, by with_unfolding_all rfl, by decide, by decide, rfl, rfl⟩

/-- C6: a CSV whose data rows are valid rows followed by one trailing
empty row yields exactly one warning, carrying the empty marker `[]`; but
contrary to the claim the valid rows are not processed: the whole protocol
is skipped (its step leaves the accumulated result untouched and the final
result binds no entry for it), even though the valid rows on their own
parse successfully. -/
theorem check_airdrops_trailing_empty_row (env : Env) (st0 : SyncState)
    (res : EligibilityResult) (stF : SyncState) (idx : AirdropIndex)
    (st1 : SyncState) (pname : String) (r : AirdropRecord)
    (pre post : List (String × AirdropRecord)) (rsPre : RunState)
    (content : String) (st2 : SyncState) (header : List Char)
    (valid : List (List Char)) (rows : List (String × ℚ))
    (hrun : check_airdrops env st0 = .ok (res, stF))
    (hfetch : fetch_airdrops_metadata env.remote st0 = .ok (idx, st1))
    (hidx : idx.airdrops = pre ++ (pname, r) :: post)
    (hnodup : (idx.airdrops.map Prod.fst).Nodup)
    (hpoap : pname ≠ "poap")
    (hpre : List.foldlM (processAirdrop env) ⟨st1, []⟩ pre = .ok rsPre)
    (hcut : pastCutoff r env.now = false)
    (hasset : r.asset_identifier ∈ rsPre.st.known_assets)
    (hdata : get_airdrop_data env.remote pname r rsPre.st = .ok (content, st2))
    (hlines : csvLines content = header :: (valid ++ [[]]))
    (hvalid : parseDataRows valid = .ok rows) :
    parseDataRows (valid ++ [[]]) = .error [] ∧
    processAirdrop env rsPre (pname, r) =
      .ok { rsPre with st := addWarning st2 (invalidRowWarning pname []) } ∧
    (∀ a, lookup2 a pname res = none) ∧
    invalidRowWarning pname [] ∈ stF.warnings := by
  have hparse := parseDataRows_append_empty valid rows hvalid
  have h2 := run_skip_invalid_row env st0 res stF idx st1 pname r pre post
    rsPre content st2 header (valid ++ [[]]) [] hrun hfetch hidx hnodup hpoap
    hpre hcut hasset hdata hlines hparse
  exact ⟨hparse, h2.1, h2.2.1, h2.2.2⟩

/-- Concrete instantiation of `check_airdrops_trailing_empty_row`: the two
protocol scenario whose first CSV has two valid rows and a trailing empty
row. -/
theorem check_airdrops_trailing_empty_row_witness :
    parseDataRows (["ADDR2,123".data, "ADDR2,123".data] ++ [[]]) = .error [] ∧
    processAirdrop w5Env ⟨w5St1, []⟩ ("inv", w5RecordA) =
      .ok { (⟨w5St1, []⟩ : RunState) with
        st := addWarning w5St2mid (invalidRowWarning "inv" []) } ∧
    (∀ a, lookup2 a "inv" w5Res = none) ∧
    invalidRowWarning "inv" [] ∈ w5StF.warnings :=
  check_airdrops_trailing_empty_row w5Env w5State w5Res w5StF w5Index
    w5St1 "inv" w5RecordA [] [("ok2", w5RecordB)] ⟨w5St1, []⟩
    "address,tokens\nADDR2,123\nADDR2,123\n\n" w5St2mid ("address,tokens".data)
    ["ADDR2,123".data, "ADDR2,123".data] [("ADDR2", 123), ("ADDR2", 123)]
    (by with_unfolding_all rfl) (by with_unfolding_all rfl)
    (by decide) (by decide) (by decide) (by decide) (by decide) (by decide)
    (by with_unfolding_all rfl) (by decide) (by decide)

/-- POAP record of the concrete POAP keying scenario, mirroring the
`aave_v2_pioneers` entry of the tests. -/
def w8Poap : PoapRecord := ⟨"a/p1.json", "https://p", "Aave", "hp"⟩

/-- Index of the concrete POAP keying scenario: one POAP protocol, no token
airdrops. -/
def w8Index : AirdropIndex := ⟨[], [("aave_v2_pioneers", w8Poap)]⟩

/-- Remote of the concrete POAP keying scenario: address `A` owns token
`566` of the event. -/
def w8Remote : Remote := ⟨"e8", w8Index, [], [("a/p1.json", [("A", [566])])]⟩

/-- Environment of the concrete POAP keying scenario. -/
def w8Env : Env := ⟨w8Remote, ["A"], [], 1/10, 100, 1⟩

/-- Empty initial cache of the concrete POAP keying scenario. -/
def w8State : SyncState := ⟨none, none, [], [], [], [], [], [], []⟩

/-- Cache state after the index fetch of the concrete POAP keying
scenario. -/
def w8St1 : SyncState :=
  ⟨some "e8", some (serializeIndex w8Index), [], [], [], [], [], [],
    [AIRDROPS_INDEX]⟩

/-- Final cache state of the concrete POAP keying scenario. -/
def w8St2 : SyncState :=
  ⟨some "e8", some (serializeIndex w8Index), [], [("aave_v2_pioneers.json", "hp")],
    [], [("aave_v2_pioneers.json", [("A", [566])])], [], [],
    [AIRDROPS_INDEX, payloadUrl "a/p1.json"]⟩

/-- Result of the concrete POAP keying scenario: the entry is keyed by the
literal string `poap`, with the protocol name only inside the entry's
`event` field. -/
def w8Res : EligibilityResult :=
  [("A", [("poap", .poap [⟨"aave_v2_pioneers", [566], "https://p", "Aave"⟩])])]

theorem poap_persist_processPoap (env : Env) (rs : RunState) (q : String × PoapRecord)
    (rs2 : RunState) (a : String) (e : PoapEntry)
    (h : processPoap env rs q = .ok rs2)
    (hp : ∃ l, lookup2 a "poap" rs.result = some (.poap l) ∧ e ∈ l) :
    ∃ l, lookup2 a "poap" rs2.result = some (.poap l) ∧ e ∈ l := by
  obtain ⟨content, st1, _, h2⟩ := processPoap_cases env rs q rs2 h
  subst h2
  exact poapFold_persist env q content rs.result a e hp

/-- Counterexample to the claim that POAP airdrop entries are keyed by
protocol name: in the concrete run the address owns tokens of the POAP
protocol `aave_v2_pioneers`, yet the result holds no binding under that
protocol name; the entry sits under the literal key `poap` with the
protocol name inside its `event` field. -/
theorem check_airdrops_poap_key_counterexample :
    ∃ res stF,
      check_airdrops w8Env w8State = Except.ok (res, stF) ∧
      alookup "a/p1.json" w8Env.remote.poap_payloads = some [("A", [566])] ∧
      lookup2 "A" "aave_v2_pioneers" res = none ∧
      lookup2 "A" "poap" res =
        some (.poap [⟨"aave_v2_pioneers", [566], "https://p", "Aave"⟩]) :=
  ⟨w8Res, w8St2, by with_unfolding_all rfl, rfl, rfl, rfl⟩

/-- C8: POAP airdrop entries in the result of `check_airdrops` are NOT
keyed by protocol name: every caller address owning tokens of a POAP
protocol receives a record `{event, assets, link, name}` appended to the
list kept under the fixed result key `poap`, with the protocol name only
in the `event` field, and no binding appears under the protocol name
itself (token airdrop entries, in contrast, are keyed by their protocol
name). -/
theorem check_airdrops_poap_fixed_key (env : Env) (st0 : SyncState)
    (res : EligibilityResult) (stF : SyncState) (idx : AirdropIndex)
    (st1 : SyncState) (pname : String) (pr : PoapRecord)
    (prePoaps postPoaps : List (String × PoapRecord)) (rsA rsPre : RunState)
    (content : List (String × List Nat)) (st2 : SyncState)
    (addr : String) (tokens : List Nat)
    (hrun : check_airdrops env st0 = .ok (res, stF))
    (hfetch : fetch_airdrops_metadata env.remote st0 = .ok (idx, st1))
    (hA : idx.airdrops.foldlM (processAirdrop env) ⟨st1, []⟩ = .ok rsA)
    (hpoaps : idx.poap_airdrops = prePoaps ++ (pname, pr) :: postPoaps)
    (hpre : List.foldlM (processPoap env) rsA prePoaps = .ok rsPre)
    (hdata : get_poap_data env.remote pname pr rsPre.st = .ok (content, st2))
    (hmem : (addr, tokens) ∈ content)
    (haddr : addr ∈ env.addresses)
    (hnotair : pname ∉ idx.airdrops.map Prod.fst)
    (hnp : pname ≠ "poap") :
    (∃ l, lookup2 addr "poap" res = some (.poap l) ∧
      ({ event := pname, assets := tokens, link := pr.url,
         name := pr.name } : PoapEntry) ∈ l) ∧
    (∀ a, lookup2 a pname res = none) := by
  unfold check_airdrops at hrun
  rw [hfetch] at hrun
  rw [show ((Except.ok (idx, st1) : Except String (AirdropIndex × SyncState)) >>=
      fun x => do
        let rs1 ← x.1.airdrops.foldlM (processAirdrop env) ⟨x.2, []⟩
        let rs2 ← x.1.poap_airdrops.foldlM (processPoap env) rs1
        .ok (rs2.result, rs2.st)) = (do
        let rs1 ← idx.airdrops.foldlM (processAirdrop env) ⟨st1, []⟩
        let rs2 ← idx.poap_airdrops.foldlM (processPoap env) rs1
        .ok (rs2.result, rs2.st)) from rfl] at hrun
  rw [except_bind_ok] at hrun
  obtain ⟨rsA2, hA2, hrun⟩ := hrun
  rw [except_bind_ok] at hrun
  obtain ⟨rsB, hB, hrun⟩ := hrun
  simp only [Except.ok.injEq, Prod.mk.injEq] at hrun
  obtain ⟨hres, hst⟩ := hrun
  rw [hA] at hA2
  have hrsA2 : rsA2 = rsA := by simpa using hA2.symm
  rw [hrsA2] at hB
  have hstepEq : processPoap env rsPre (pname, pr) =
      .ok { st := st2,
            result := content.foldl
              (fun acc entry => if entry.1 ∈ env.addresses then
                appendPoap entry.1
                  { event := pname, assets := entry.2, link := pr.url,
                    name := pr.name } acc
                else acc) rsPre.result } := by
    unfold processPoap
    dsimp only
    rw [hdata]
  constructor
  · rw [hpoaps] at hB
    obtain ⟨rsP2, hstep2, hpost⟩ := foldlM_append_ok (processPoap env) prePoaps
      (pname, pr) postPoaps rsA rsPre rsB hB hpre
    rw [hstepEq] at hstep2
    injection hstep2 with h2
    rw [← h2] at hpost
    have hins := poapFold_insert env (pname, pr) content rsPre.result addr tokens
      hmem haddr
    have hsurv : ∃ l, lookup2 addr "poap" rsB.result = some (.poap l) ∧
        ({ event := pname, assets := tokens, link := pr.url,
           name := pr.name } : PoapEntry) ∈ l := by
      refine foldlM_ok_invariant (processPoap env)
        (fun rs => ∃ l, lookup2 addr "poap" rs.result = some (.poap l) ∧
          ({ event := pname, assets := tokens, link := pr.url,
             name := pr.name } : PoapEntry) ∈ l) ?_ postPoaps _ rsB hpost hins
      intro b y b2 hstep3 hP
      exact poap_persist_processPoap env b y b2 addr _ hstep3 hP
    rw [← hres]
    exact hsurv
  · intro a
    have h0 : lookup2 a pname (⟨st1, []⟩ : RunState).result = none := by
      simp [lookup2, alookup]
    have hAnone : lookup2 a pname rsA.result = none := by
      refine foldlM_ok_invariant_mem (processAirdrop env)
        (fun rs => lookup2 a pname rs.result = none) idx.airdrops ⟨st1, []⟩ rsA ?_
        hA h0
      intro b y b2 hy hstep3 hP
      rw [processAirdrop_other_proto env b y b2 a pname hstep3
        (fun hc => hnotair (by rw [hc]; exact List.mem_map_of_mem Prod.fst hy))]
      exact hP
    have hBnone : lookup2 a pname rsB.result = none := by
      refine foldlM_ok_invariant (processPoap env)
        (fun rs => lookup2 a pname rs.result = none) ?_ idx.poap_airdrops rsA rsB
        hB hAnone
      intro b y b2 hstep3 hP
      rw [processPoap_other_proto env b y b2 a pname hstep3 hnp]
      exact hP
    rw [← hres]
    exact hBnone

/-- Concrete instantiation of `check_airdrops_poap_fixed_key`: the one
POAP protocol scenario; the entry lands under the literal key `poap` and
no binding exists under the protocol name. -/
theorem check_airdrops_poap_fixed_key_witness :
    (∃ l, lookup2 "A" "poap" w8Res = some (.poap l) ∧
      ({ event := "aave_v2_pioneers", assets := [566], link := "https://p",
         name := "Aave" } : PoapEntry) ∈ l) ∧
    (∀ a, lookup2 a "aave_v2_pioneers" w8Res = none) :=
  check_airdrops_poap_fixed_key w8Env w8State w8Res w8St2 w8Index w8St1
    "aave_v2_pioneers" w8Poap [] [] ⟨w8St1, []⟩ ⟨w8St1, []⟩ [("A", [566])] w8St2
    "A" [566]
    (by with_unfolding_all rfl) (by with_unfolding_all rfl) (by decide)
    (by decide) (by decide) (by with_unfolding_all rfl) (by decide)
    (by decide) (by decide) (by decide)


theorem csvFileName_inj (a b : String) (h : csvFileName a = csvFileName b) : a = b := by
  have h2 : (csvFileName a).data = (csvFileName b).data := by rw [h]
  unfold csvFileName at h2
  rw [String.data_append, String.data_append] at h2
  have h3 := List.append_cancel_right h2
  exact congrArg String.mk h3

theorem fetch_calls (remote : Remote) (st : SyncState) (idx : AirdropIndex)
    (st1 : SyncState) (h : fetch_airdrops_metadata remote st = .ok (idx, st1)) :
    st1.calls = st.calls ++ [AIRDROPS_INDEX] := by
  unfold fetch_airdrops_metadata at h
  by_cases he : st.etag = some remote.etag
  · rw [if_pos he] at h
    cases hb : st.metadata_blob with
    | none => rw [hb] at h; exact absurd h (by simp)
    | some blob =>
      simp only [hb] at h
      cases hp : parseIndex blob with
      | none => simp [hp] at h
      | some idx2 =>
        simp only [hp, Except.ok.injEq, Prod.mk.injEq] at h
        rw [← h.2]
  · rw [if_neg he] at h
    simp only [Except.ok.injEq, Prod.mk.injEq] at h
    rw [← h.2]

theorem processAirdrop_state_via_gad (env : Env) (rs : RunState) (pname : String)
    (r : AirdropRecord) (rs2 : RunState)
    (hcut : pastCutoff r env.now = false)
    (hasset : r.asset_identifier ∈ rs.st.known_assets)
    (h : processAirdrop env rs (pname, r) = .ok rs2) :
    ∃ content st1, get_airdrop_data env.remote pname r rs.st = .ok (content, st1) ∧
      rs2.st.calls = st1.calls ∧
      rs2.st.csv_hashes = st1.csv_hashes := by
  unfold processAirdrop at h
  cases hgad : get_airdrop_data env.remote pname r rs.st with
  | error e => simp [hcut, hasset, hgad] at h
  | ok pair =>
    obtain ⟨content, st1⟩ := pair
    refine ⟨content, st1, rfl, ?_⟩
    cases hlines : csvLines content with
    | nil =>
      simp only [hcut, hasset, hgad, hlines, Bool.false_eq_true, if_false,
        ite_false, not_true_eq_false, Except.ok.injEq] at h
      rw [← h]
      exact ⟨rfl, rfl⟩
    | cons header dataLines =>
      cases hparse : parseDataRows dataLines with
      | error b =>
        simp only [hcut, hasset, hgad, hlines, hparse, Bool.false_eq_true,
          if_false, ite_false, not_true_eq_false, Except.ok.injEq] at h
        rw [← h]
        exact ⟨rfl, rfl⟩
      | ok rows =>
        by_cases hthr : (sumAmounts (rows.map fun row =>
            (row.1, normalizeAmount pname row.2)) < env.threshold)
        · simp only [hcut, hasset, hgad, hlines, hparse, hthr,
            Bool.false_eq_true, if_false, ite_false, not_true_eq_false,
            if_true, ite_true, Except.ok.injEq] at h
          rw [← h]
          exact ⟨rfl, rfl⟩
        · simp only [hcut, hasset, hgad, hlines, hparse, hthr,
            Bool.false_eq_true, if_false, ite_false, not_true_eq_false,
            Except.ok.injEq] at h
          rw [← h]
          exact ⟨rfl, rfl⟩

theorem processAirdrop_cached_calls (env : Env) (rs : RunState) (pname : String)
    (r : AirdropRecord) (rs2 : RunState) (c : String)
    (hfile : alookup (csvFileName pname) rs.st.csv_files = some c)
    (hhash : alookup (csvFileName pname) rs.st.csv_hashes = some r.csv_hash)
    (hcut : pastCutoff r env.now = false)
    (hasset : r.asset_identifier ∈ rs.st.known_assets)
    (h : processAirdrop env rs (pname, r) = .ok rs2) :
    rs2.st.calls = rs.st.calls := by
  obtain ⟨content, st1, hgad, hcalls, _⟩ :=
    processAirdrop_state_via_gad env rs pname r rs2 hcut hasset h
  have hg2 := gad_cached env.remote pname r rs.st c hfile hhash
  rw [hgad] at hg2
  injection hg2 with h3
  rw [hcalls, (Prod.mk.injEq _ _ _ _).mp h3 |>.2]

theorem processAirdrop_refetch_effect (env : Env) (rs : RunState) (pname : String)
    (r : AirdropRecord) (rs2 : RunState) (h2 : String)
    (hhash : alookup (csvFileName pname) rs.st.csv_hashes = some h2)
    (hne : h2 ≠ r.csv_hash)
    (hcut : pastCutoff r env.now = false)
    (hasset : r.asset_identifier ∈ rs.st.known_assets)
    (h : processAirdrop env rs (pname, r) = .ok rs2) :
    rs2.st.calls = rs.st.calls ++ [payloadUrl r.csv_path] ∧
    alookup (csvFileName pname) rs2.st.csv_hashes = some r.csv_hash := by
  obtain ⟨content, st1, hgad, hcalls, hhashes⟩ :=
    processAirdrop_state_via_gad env rs pname r rs2 hcut hasset h
  rcases get_airdrop_data_cases env.remote pname r rs.st content st1 hgad with
    ⟨_, _, hh1⟩ | ⟨_, _, hst1⟩
  · rw [hhash] at hh1
    injection hh1 with hh2
    exact absurd hh2 hne
  · subst hst1
    refine ⟨by rw [hcalls], ?_⟩
    rw [hhashes]
    exact alookup_aset_same (csvFileName pname) r.csv_hash rs.st.csv_hashes


/-- C3: the payload re-fetch of a protocol is driven by the index embedded
`csv_hash`: when the hash cached during the last sync equals the index
hash (and the local file exists), the protocol's payload URL is never
contacted during the run; when the cached hash differs, the run contacts
the payload URL exactly once and afterwards the cached hash equals the new
index hash.  Path disjointness hypotheses pin the URL to this protocol. -/
theorem check_airdrops_hash_driven_refetch (env : Env) (st0 : SyncState)
    (res : EligibilityResult) (stF : SyncState) (idx : AirdropIndex)
    (st1 : SyncState) (pname : String) (r : AirdropRecord)
    (pre post : List (String × AirdropRecord)) (rsPre : RunState) (c : String)
    (hrun : check_airdrops env st0 = .ok (res, stF))
    (hfetch : fetch_airdrops_metadata env.remote st0 = .ok (idx, st1))
    (hidx : idx.airdrops = pre ++ (pname, r) :: post)
    (hnodup : (idx.airdrops.map Prod.fst).Nodup)
    (hpre : List.foldlM (processAirdrop env) ⟨st1, []⟩ pre = .ok rsPre)
    (hcut : pastCutoff r env.now = false)
    (hasset : r.asset_identifier ∈ rsPre.st.known_assets)
    (hfile : alookup (csvFileName pname) rsPre.st.csv_files = some c)
    (hurl0 : payloadUrl r.csv_path ∉ st0.calls)
    (hurlidx : payloadUrl r.csv_path ≠ AIRDROPS_INDEX)
    (hdisj : ∀ y ∈ pre ++ post, payloadUrl y.2.csv_path ≠ payloadUrl r.csv_path)
    (hdisjp : ∀ y ∈ idx.poap_airdrops,
      payloadUrl y.2.json_path ≠ payloadUrl r.csv_path) :
    (alookup (csvFileName pname) rsPre.st.csv_hashes = some r.csv_hash →
      payloadUrl r.csv_path ∉ stF.calls) ∧
    (∀ h2, alookup (csvFileName pname) rsPre.st.csv_hashes = some h2 →
      h2 ≠ r.csv_hash →
      List.count (payloadUrl r.csv_path) stF.calls = 1 ∧
      alookup (csvFileName pname) stF.csv_hashes = some r.csv_hash) := by
  unfold check_airdrops at hrun
  rw [hfetch] at hrun
  rw [show ((Except.ok (idx, st1) : Except String (AirdropIndex × SyncState)) >>=
      fun x => do
        let rs1 ← x.1.airdrops.foldlM (processAirdrop env) ⟨x.2, []⟩
        let rs2 ← x.1.poap_airdrops.foldlM (processPoap env) rs1
        .ok (rs2.result, rs2.st)) = (do
        let rs1 ← idx.airdrops.foldlM (processAirdrop env) ⟨st1, []⟩
        let rs2 ← idx.poap_airdrops.foldlM (processPoap env) rs1
        .ok (rs2.result, rs2.st)) from rfl] at hrun
  rw [except_bind_ok] at hrun
  obtain ⟨rsA, hA, hrun⟩ := hrun
  rw [except_bind_ok] at hrun
  obtain ⟨rsB, hB, hrun⟩ := hrun
  simp only [Except.ok.injEq, Prod.mk.injEq] at hrun
  obtain ⟨hres, hst⟩ := hrun
  rw [hidx] at hA
  obtain ⟨rsP2, hstep2, hpost⟩ := foldlM_append_ok (processAirdrop env) pre
    (pname, r) post ⟨st1, []⟩ rsPre rsA hA hpre
  have hst1calls : st1.calls = st0.calls ++ [AIRDROPS_INDEX] :=
    fetch_calls env.remote st0 idx st1 hfetch
  have hurl1 : payloadUrl r.csv_path ∉ st1.calls := by
    rw [hst1calls]
    intro hmem
    rcases List.mem_append.mp hmem with hm | hm
    · exact hurl0 hm
    · exact hurlidx (List.mem_singleton.mp hm)
  have hdisjPre : ∀ y ∈ pre, payloadUrl y.2.csv_path ≠ payloadUrl r.csv_path :=
    fun y hy => hdisj y (List.mem_append_left post hy)
  have hdisjPost : ∀ y ∈ post, payloadUrl y.2.csv_path ≠ payloadUrl r.csv_path :=
    fun y hy => hdisj y (List.mem_append_right pre hy)
  have hurlPre : payloadUrl r.csv_path ∉ rsPre.st.calls := by
    refine foldlM_ok_invariant_mem (processAirdrop env)
      (fun rs => payloadUrl r.csv_path ∉ rs.st.calls) pre ⟨st1, []⟩ rsPre ?_ hpre
      hurl1
    intro b y b2 hy hstep3 hP
    rcases processAirdrop_calls_cases env b y b2 hstep3 with hcc | hcc <;> rw [hcc]
    · exact hP
    · intro hmem
      rcases List.mem_append.mp hmem with hm | hm
      · exact hP hm
      · exact hdisjPre y hy (List.mem_singleton.mp hm).symm
  have hnamesPost := nodup_middle_not_mem_post Prod.fst pre (pname, r) post
    (hidx ▸ hnodup)
  constructor
  · intro hhash
    have hmidcalls := processAirdrop_cached_calls env rsPre pname r rsP2 c hfile
      hhash hcut hasset hstep2
    have hurlMid : payloadUrl r.csv_path ∉ rsP2.st.calls := by
      rw [hmidcalls]
      exact hurlPre
    have hurlPost : payloadUrl r.csv_path ∉ rsA.st.calls := by
      refine foldlM_ok_invariant_mem (processAirdrop env)
        (fun rs => payloadUrl r.csv_path ∉ rs.st.calls) post rsP2 rsA ?_ hpost
        hurlMid
      intro b y b2 hy hstep3 hP
      rcases processAirdrop_calls_cases env b y b2 hstep3 with hcc | hcc <;> rw [hcc]
      · exact hP
      · intro hmem
        rcases List.mem_append.mp hmem with hm | hm
        · exact hP hm
        · exact hdisjPost y hy (List.mem_singleton.mp hm).symm
    have hurlPoap : payloadUrl r.csv_path ∉ rsB.st.calls := by
      refine foldlM_ok_invariant_mem (processPoap env)
        (fun rs => payloadUrl r.csv_path ∉ rs.st.calls) idx.poap_airdrops rsA rsB
        ?_ hB hurlPost
      intro b y b2 hy hstep3 hP
      rcases processPoap_calls_cases env b y b2 hstep3 with hcc | hcc <;> rw [hcc]
      · exact hP
      · intro hmem
        rcases List.mem_append.mp hmem with hm | hm
        · exact hP hm
        · exact hdisjp y hy (List.mem_singleton.mp hm).symm
    rw [← hst]
    exact hurlPoap
  · intro h2 hhash hne
    obtain ⟨hmidcalls, hmidhash⟩ := processAirdrop_refetch_effect env rsPre pname
      r rsP2 h2 hhash hne hcut hasset hstep2
    have hcount0 : List.count (payloadUrl r.csv_path) rsPre.st.calls = 0 :=
      List.count_eq_zero.mpr hurlPre
    have hcountMid : List.count (payloadUrl r.csv_path) rsP2.st.calls = 1 := by
      rw [hmidcalls, List.count_append, hcount0]
      simp
    have hcountPost : List.count (payloadUrl r.csv_path) rsA.st.calls = 1 := by
      refine foldlM_ok_invariant_mem (processAirdrop env)
        (fun rs => List.count (payloadUrl r.csv_path) rs.st.calls = 1) post rsP2
        rsA ?_ hpost hcountMid
      intro b y b2 hy hstep3 hP
      rcases processAirdrop_calls_cases env b y b2 hstep3 with hcc | hcc <;> rw [hcc]
      · exact hP
      · rw [List.count_append, hP,
          List.count_eq_zero.mpr (by simp [(hdisjPost y hy).symm])]
    have hcountPoap : List.count (payloadUrl r.csv_path) rsB.st.calls = 1 := by
      refine foldlM_ok_invariant_mem (processPoap env)
        (fun rs => List.count (payloadUrl r.csv_path) rs.st.calls = 1)
        idx.poap_airdrops rsA rsB ?_ hB hcountPost
      intro b y b2 hy hstep3 hP
      rcases processPoap_calls_cases env b y b2 hstep3 with hcc | hcc <;> rw [hcc]
      · exact hP
      · rw [List.count_append, hP,
          List.count_eq_zero.mpr (by simp [(hdisjp y hy).symm])]
    have hhashPost : alookup (csvFileName pname) rsA.st.csv_hashes =
        some r.csv_hash := by
      refine foldlM_ok_invariant_mem (processAirdrop env)
        (fun rs => alookup (csvFileName pname) rs.st.csv_hashes = some r.csv_hash)
        post rsP2 rsA ?_ hpost hmidhash
      intro b y b2 hy hstep3 hP
      have hfn : csvFileName pname ≠ csvFileName y.1 := by
        intro hc
        exact hnamesPost y hy (by simpa using (csvFileName_inj pname y.1 hc).symm)
      rw [(processAirdrop_files_other env b y b2 (csvFileName pname) hstep3 hfn).2]
      exact hP
    have hhashPoap : alookup (csvFileName pname) rsB.st.csv_hashes =
        some r.csv_hash := by
      refine foldlM_ok_invariant_mem (processPoap env)
        (fun rs => alookup (csvFileName pname) rs.st.csv_hashes = some r.csv_hash)
        idx.poap_airdrops rsA rsB ?_ hB hhashPost
      intro b y b2 hy hstep3 hP
      rw [(processPoap_csv_untouched env b y b2 hstep3).2]
      exact hP
    rw [← hst]
    exact ⟨hcountPoap, hhashPoap⟩

def w3aRecord : AirdropRecord :=
  ⟨"a/u3.csv", "h3", "U3", "https://u3", "U3n", "u3.svg", none, none, none⟩
def w3aIndex : AirdropIndex := ⟨[("u3", w3aRecord)], []⟩
def w3aRemote : Remote :=
  ⟨"e3", w3aIndex, [("a/u3.csv", "address,tokens\nA,400\n")], []⟩
def w3aEnv : Env := ⟨w3aRemote, ["A"], [], 1/10, 100, 1⟩
def w3aState : SyncState :=
  ⟨some "e3", some (serializeIndex w3aIndex), [("u3.csv", "h3")], [],
    [("u3.csv", "address,tokens\nA,400\n")], [], ["U3"], [], []⟩

def w3bRecord : AirdropRecord :=
  ⟨"a/u3b.csv", "h3b", "U3B", "https://u3b", "U3bn", "u3b.svg", none, none, none⟩
def w3bIndex : AirdropIndex := ⟨[("u3b", w3bRecord)], []⟩
def w3bRemote : Remote :=
  ⟨"e3b", w3bIndex, [("a/u3b.csv", "address,tokens\nA,400\n")], []⟩
def w3bEnv : Env := ⟨w3bRemote, ["A"], [], 1/10, 100, 1⟩
def w3bState : SyncState :=
  ⟨some "e3b", some (serializeIndex w3bIndex), [("u3b.csv", "old")], [],
    [("u3b.csv", "address,tokens\nA,300\n")], [], ["U3B"], [], []⟩
def w3aRes : EligibilityResult :=
  [("A", [("u3", .airdrop ⟨400, "U3", "https://u3", false, none⟩)])]
def w3aStF : SyncState :=
  ⟨some "e3", some (serializeIndex w3aIndex), [("u3.csv", "h3")], [],
    [("u3.csv", "address,tokens\nA,400\n")], [], ["U3"], [], [AIRDROPS_INDEX]⟩
def w3bRes : EligibilityResult :=
  [("A", [("u3b", .airdrop ⟨400, "U3B", "https://u3b", false, none⟩)])]
def w3bSt1 : SyncState :=
  ⟨some "e3b", some (serializeIndex w3bIndex), [("u3b.csv", "old")], [],
    [("u3b.csv", "address,tokens\nA,300\n")], [], ["U3B"], [], [AIRDROPS_INDEX]⟩
def w3bStF : SyncState :=
  ⟨some "e3b", some (serializeIndex w3bIndex), [("u3b.csv", "h3b")], [],
    [("u3b.csv", "address,tokens\nA,400\n")], [], ["U3B"], [],
    [AIRDROPS_INDEX, payloadUrl "a/u3b.csv"]⟩

theorem check_airdrops_hash_driven_refetch_witness :
    payloadUrl "a/u3.csv" ∉ w3aStF.calls ∧
    (List.count (payloadUrl "a/u3b.csv") w3bStF.calls = 1 ∧
      alookup (csvFileName "u3b") w3bStF.csv_hashes = some "h3b") :=
  ⟨(check_airdrops_hash_driven_refetch w3aEnv w3aState w3aRes w3aStF w3aIndex
      w3aStF "u3" w3aRecord [] [] ⟨w3aStF, []⟩ "address,tokens\nA,400\n"
      (by with_unfolding_all rfl) (by with_unfolding_all rfl) rfl
      (by decide) rfl (by decide) (by decide) rfl (by decide)
      (by decide) (by decide) (by decide)).1 rfl,
   (check_airdrops_hash_driven_refetch w3bEnv w3bState w3bRes w3bStF w3bIndex
      w3bSt1 "u3b" w3bRecord [] [] ⟨w3bSt1, []⟩ "address,tokens\nA,300\n"
      (by with_unfolding_all rfl) (by with_unfolding_all rfl) rfl
      (by decide) rfl (by decide) (by decide) rfl (by decide)
      (by decide) (by decide) (by decide)).2 "old" rfl (by decide)⟩


theorem alookup_mem {α : Type} (k : String) (l : List (String × α)) (v : α)
    (h : alookup k l = some v) : (k, v) ∈ l := by
  induction l with
  | nil => simp [alookup] at h
  | cons p rest ih =>
    obtain ⟨k2, v2⟩ := p
    rw [alookup] at h
    by_cases h2 : k2 = k
    · rw [if_pos h2] at h
      injection h with h3
      rw [← h3, h2]
      exact List.mem_cons_self _ _
    · rw [if_neg h2] at h
      exact List.mem_cons_of_mem _ (ih h)

theorem fetch_files (remote : Remote) (st : SyncState) (idx : AirdropIndex)
    (st1 : SyncState) (h : fetch_airdrops_metadata remote st = .ok (idx, st1)) :
    st1.csv_files = st.csv_files ∧ st1.poap_files = st.poap_files := by
  unfold fetch_airdrops_metadata at h
  by_cases he : st.etag = some remote.etag
  · rw [if_pos he] at h
    cases hb : st.metadata_blob with
    | none => rw [hb] at h; exact absurd h (by simp)
    | some blob =>
      simp only [hb] at h
      cases hp : parseIndex blob with
      | none => simp [hp] at h
      | some idx2 =>
        simp only [hp, Except.ok.injEq, Prod.mk.injEq] at h
        rw [← h.2]
        exact ⟨rfl, rfl⟩
  · rw [if_neg he] at h
    simp only [Except.ok.injEq, Prod.mk.injEq] at h
    rw [← h.2]
    exact ⟨rfl, rfl⟩

theorem parseDataRows_addr_mem (dataLines : List (List Char))
    (rows : List (String × ℚ)) (h : parseDataRows dataLines = .ok rows) :
    ∀ row ∈ rows, row.1 ∈ dataLines.filterMap fun l => (rowFields l).head? := by
  induction dataLines generalizing rows with
  | nil =>
    simp only [parseDataRows, Except.ok.injEq] at h
    rw [← h]
    intro row hrow
    simp at hrow
  | cons line rest ih =>
    cases hf : rowFields line with
    | nil => simp [parseDataRows, hf] at h
    | cons f0 fs =>
      cases fs with
      | nil => simp [parseDataRows, hf] at h
      | cons f1 fs2 =>
        cases hd : parseDecimal f1 with
        | none => simp [parseDataRows, hf, hd] at h
        | some q =>
          cases hrest : parseDataRows rest with
          | error e => simp [parseDataRows, hf, hd, hrest] at h
          | ok rows2 =>
            simp only [parseDataRows, hf, hd, hrest, Except.ok.injEq] at h
            have hfm : (line :: rest).filterMap (fun l => (rowFields l).head?) =
                f0 :: rest.filterMap (fun l => (rowFields l).head?) := by
              simp [List.filterMap_cons, hf]
            rw [← h, hfm]
            intro row hrow
            rcases List.mem_cons.mp hrow with h3 | h3
            · rw [h3]
              exact List.mem_cons_self _ _
            · exact List.mem_cons_of_mem _ (ih rows2 hrest row h3)

theorem csvAddresses_of_lines (content : String) (header : List Char)
    (dataLines : List (List Char))
    (hlines : csvLines content = header :: dataLines) :
    csvAddresses content = dataLines.filterMap fun l => (rowFields l).head? := by
  unfold csvAddresses
  rw [hlines]

theorem processAirdrop_absent_step (env : Env) (rs : RunState)
    (p : String × AirdropRecord) (rs2 : RunState) (addr : String)
    (hcsvR : ∀ q c, (q, c) ∈ env.remote.csv_payloads → addr ∉ csvAddresses c)
    (h : processAirdrop env rs p = .ok rs2)
    (hnone : alookup addr rs.result = none)
    (hfiles : ∀ f c, (f, c) ∈ rs.st.csv_files → addr ∉ csvAddresses c) :
    alookup addr rs2.result = none ∧
    (∀ f c, (f, c) ∈ rs2.st.csv_files → addr ∉ csvAddresses c) := by
  have hcontent : ∀ content st1,
      get_airdrop_data env.remote p.1 p.2 rs.st = .ok (content, st1) →
      addr ∉ csvAddresses content ∧
      (∀ f c, (f, c) ∈ st1.csv_files → addr ∉ csvAddresses c) := by
    intro content st1 hgad
    rcases get_airdrop_data_cases env.remote p.1 p.2 rs.st content st1 hgad with
      ⟨hst1, hcf, _⟩ | ⟨hrc, _, hst1⟩
    · exact ⟨hfiles _ _ (alookup_mem _ _ _ hcf), hst1 ▸ hfiles⟩
    · refine ⟨hcsvR _ _ (alookup_mem _ _ _ hrc), ?_⟩
      subst hst1
      intro f c hfc
      rcases alookup_aset_mem (csvFileName p.1) content rs.st.csv_files (f, c)
        hfc with h2 | h2
      · injection h2 with h3 h4
        rw [h4]
        exact hcsvR _ _ (alookup_mem _ _ _ hrc)
      · exact hfiles f c h2
  rcases processAirdrop_cases env rs p rs2 h with h2 | h2 |
    ⟨content, st1, hgad, h2 | ⟨b, h2⟩ | ⟨header, dataLines, rows, hlines, hparse, h2⟩⟩
  · rw [h2]
    exact ⟨hnone, hfiles⟩
  · rw [h2]
    exact ⟨hnone, hfiles⟩
  · rw [h2]
    exact ⟨hnone, (hcontent content st1 hgad).2⟩
  · rw [h2]
    exact ⟨hnone, (hcontent content st1 hgad).2⟩
  · obtain ⟨hca, hcf⟩ := hcontent content st1 hgad
    rw [h2]
    constructor
    · rw [insertRows_other_addr env p.1 p.2 _ rs.result addr ?_]
      · exact hnone
      · intro row hrow
        rcases List.mem_map.mp hrow with ⟨row0, hrow0, hmap⟩
        rw [← hmap]
        intro hc
        exact hca (by
          rw [csvAddresses_of_lines content header dataLines hlines]
          rw [← hc]
          exact parseDataRows_addr_mem dataLines rows hparse row0 hrow0)
    · exact hcf

theorem processPoap_absent_step (env : Env) (rs : RunState)
    (p : String × PoapRecord) (rs2 : RunState) (addr : String)
    (hpoapR : ∀ q l, (q, l) ∈ env.remote.poap_payloads → ∀ e ∈ l, e.1 ≠ addr)
    (h : processPoap env rs p = .ok rs2)
    (hnone : alookup addr rs.result = none)
    (hfiles : ∀ f l, (f, l) ∈ rs.st.poap_files → ∀ e ∈ l, e.1 ≠ addr) :
    alookup addr rs2.result = none ∧
    (∀ f l, (f, l) ∈ rs2.st.poap_files → ∀ e ∈ l, e.1 ≠ addr) := by
  obtain ⟨content, st1, hgpd, h2⟩ := processPoap_cases env rs p rs2 h
  have hcontent : (∀ e ∈ content, e.1 ≠ addr) ∧
      (∀ f l, (f, l) ∈ st1.poap_files → ∀ e ∈ l, e.1 ≠ addr) := by
    rcases get_poap_data_cases env.remote p.1 p.2 rs.st content st1 hgpd with
      ⟨hst1, hcf, _⟩ | ⟨hrc, hst1⟩
    · exact ⟨hfiles _ _ (alookup_mem _ _ _ hcf), hst1 ▸ hfiles⟩
    · refine ⟨hpoapR _ _ (alookup_mem _ _ _ hrc), ?_⟩
      subst hst1
      intro f l hfl
      rcases alookup_aset_mem (poapFileName p.1) content rs.st.poap_files (f, l)
        hfl with h3 | h3
      · injection h3 with h4 h5
        rw [h5]
        exact hpoapR _ _ (alookup_mem _ _ _ hrc)
      · exact hfiles f l h3
  rw [h2]
  refine ⟨?_, hcontent.2⟩
  rw [poapFold_other_addr env p content rs.result addr hcontent.1]
  exact hnone

theorem processAirdrop_nonempty_step (env : Env) (rs : RunState)
    (p : String × AirdropRecord) (rs2 : RunState)
    (h : processAirdrop env rs p = .ok rs2)
    (hne : ∀ a inner, alookup a rs.result = some inner → inner ≠ []) :
    ∀ a inner, alookup a rs2.result = some inner → inner ≠ [] := by
  rcases processAirdrop_cases env rs p rs2 h with h2 | h2 |
    ⟨content, st1, hgad, h2 | ⟨b, h2⟩ | ⟨header, dataLines, rows, hlines, hparse, h2⟩⟩ <;>
    rw [h2]
  · exact hne
  · exact hne
  · exact hne
  · exact hne
  · exact insertRows_inner_ne_nil env p.1 p.2 _ rs.result hne

theorem processPoap_nonempty_step (env : Env) (rs : RunState)
    (p : String × PoapRecord) (rs2 : RunState)
    (h : processPoap env rs p = .ok rs2)
    (hne : ∀ a inner, alookup a rs.result = some inner → inner ≠ []) :
    ∀ a inner, alookup a rs2.result = some inner → inner ≠ [] := by
  obtain ⟨content, st1, hgpd, h2⟩ := processPoap_cases env rs p rs2 h
  rw [h2]
  exact poapFold_nonempty env p content rs.result hne

/-- C10: an address appearing in no token airdrop payload and no POAP
payload (neither among the remote payloads nor among the locally cached
payload files) is omitted from the result map of `check_airdrops`
entirely: it is not bound to an empty per protocol map.  Moreover every
address key present in the result carries a nonempty per protocol map. -/
theorem check_airdrops_absent_address (env : Env) (st0 : SyncState)
    (res : EligibilityResult) (stF : SyncState) (addr : String)
    (hrun : check_airdrops env st0 = .ok (res, stF))
    (hcsvR : ∀ q c, (q, c) ∈ env.remote.csv_payloads → addr ∉ csvAddresses c)
    (hcsv0 : ∀ f c, (f, c) ∈ st0.csv_files → addr ∉ csvAddresses c)
    (hpoapR : ∀ q l, (q, l) ∈ env.remote.poap_payloads → ∀ e ∈ l, e.1 ≠ addr)
    (hpoap0 : ∀ f l, (f, l) ∈ st0.poap_files → ∀ e ∈ l, e.1 ≠ addr) :
    alookup addr res = none ∧
    (∀ a inner, alookup a res = some inner → inner ≠ []) := by
  unfold check_airdrops at hrun
  cases hfetch : fetch_airdrops_metadata env.remote st0 with
  | error e =>
    rw [hfetch] at hrun
    exact absurd hrun (by simp [Bind.bind, Except.bind])
  | ok pair =>
    obtain ⟨idx, st1⟩ := pair
    rw [hfetch] at hrun
    rw [show ((Except.ok (idx, st1) : Except String (AirdropIndex × SyncState)) >>=
        fun x => do
          let rs1 ← x.1.airdrops.foldlM (processAirdrop env) ⟨x.2, []⟩
          let rs2 ← x.1.poap_airdrops.foldlM (processPoap env) rs1
          .ok (rs2.result, rs2.st)) = (do
          let rs1 ← idx.airdrops.foldlM (processAirdrop env) ⟨st1, []⟩
          let rs2 ← idx.poap_airdrops.foldlM (processPoap env) rs1
          .ok (rs2.result, rs2.st)) from rfl] at hrun
    rw [except_bind_ok] at hrun
    obtain ⟨rsA, hA, hrun⟩ := hrun
    rw [except_bind_ok] at hrun
    obtain ⟨rsB, hB, hrun⟩ := hrun
    simp only [Except.ok.injEq, Prod.mk.injEq] at hrun
    obtain ⟨hres, hst⟩ := hrun
    obtain ⟨hf1, hf2⟩ := fetch_files env.remote st0 idx st1 hfetch
    have hInvA : alookup addr rsA.result = none ∧
        (∀ f c, (f, c) ∈ rsA.st.csv_files → addr ∉ csvAddresses c) ∧
        (∀ f l, (f, l) ∈ rsA.st.poap_files → ∀ e ∈ l, e.1 ≠ addr) ∧
        (∀ a inner, alookup a rsA.result = some inner → inner ≠ []) := by
      refine foldlM_ok_invariant (processAirdrop env)
        (fun rs => alookup addr rs.result = none ∧
          (∀ f c, (f, c) ∈ rs.st.csv_files → addr ∉ csvAddresses c) ∧
          (∀ f l, (f, l) ∈ rs.st.poap_files → ∀ e ∈ l, e.1 ≠ addr) ∧
          (∀ a inner, alookup a rs.result = some inner → inner ≠ []))
        ?_ idx.airdrops ⟨st1, []⟩ rsA hA ?_
      · intro b y b2 hstep hP
        obtain ⟨hP1, hP2, hP3, hP4⟩ := hP
        obtain ⟨hQ1, hQ2⟩ := processAirdrop_absent_step env b y b2 addr hcsvR
          hstep hP1 hP2
        refine ⟨hQ1, hQ2, ?_,
          processAirdrop_nonempty_step env b y b2 hstep hP4⟩
        rw [(processAirdrop_poap_untouched env b y b2 hstep).1]
        exact hP3
      · refine ⟨rfl, ?_, ?_, ?_⟩
        · rw [show (⟨st1, []⟩ : RunState).st.csv_files = st1.csv_files from rfl,
            hf1]
          exact hcsv0
        · rw [show (⟨st1, []⟩ : RunState).st.poap_files = st1.poap_files from rfl,
            hf2]
          exact hpoap0
        · intro a inner h
          simp [alookup] at h
    have hInvB : alookup addr rsB.result = none ∧
        (∀ f l, (f, l) ∈ rsB.st.poap_files → ∀ e ∈ l, e.1 ≠ addr) ∧
        (∀ a inner, alookup a rsB.result = some inner → inner ≠ []) := by
      refine foldlM_ok_invariant (processPoap env)
        (fun rs => alookup addr rs.result = none ∧
          (∀ f l, (f, l) ∈ rs.st.poap_files → ∀ e ∈ l, e.1 ≠ addr) ∧
          (∀ a inner, alookup a rs.result = some inner → inner ≠ []))
        ?_ idx.poap_airdrops rsA rsB hB ⟨hInvA.1, hInvA.2.2.1, hInvA.2.2.2⟩
      intro b y b2 hstep hP
      obtain ⟨hP1, hP2, hP3⟩ := hP
      obtain ⟨hQ1, hQ2⟩ := processPoap_absent_step env b y b2 addr hpoapR
        hstep hP1 hP2
      exact ⟨hQ1, hQ2, processPoap_nonempty_step env b y b2 hstep hP3⟩
    rw [← hres]
    exact ⟨hInvB.1, hInvB.2.2⟩

/-- Concrete instantiation of `check_airdrops_absent_address`: in the one
protocol scenario the address `B` appears in no payload and the returned
map has no key for it, while the key that is present carries a nonempty
inner map. -/
theorem check_airdrops_absent_address_witness :
    alookup "B" w1Res = none ∧
    (∀ a inner, alookup a w1Res = some inner → inner ≠ []) :=
  check_airdrops_absent_address w1Env w1State w1Res w1St2 "B"
    (by with_unfolding_all rfl)
    (by
      intro q c h
      simp only [w1Env, w1Remote, List.mem_singleton, Prod.mk.injEq] at h
      rw [h.2]
      decide)
    (by intro f c h; simp [w1State] at h)
    (by intro q l h; simp [w1Env, w1Remote] at h)
    (by intro f l h; simp [w1State] at h)

end Airdrops
